import Mathlib

/-!
# Document-to-knowledge-graph pipeline of `mathweb`

Shallow embedding of `server/services/aiService.js`,
`server/services/knowledgeGraphService.js`, `server/models/KnowledgeGraph.js`,
`server/models/Document.js`, the upload and processing code of
`server/routes/documents.js`, the question-answering helpers of
`server/routes/ai.js` and the rate limiter of `server/middleware/auth.js`.

Conventions of the embedding.

* A JavaScript string is a `List Char` (a well-formed sequence of Unicode scalar
  values).  Where the source counts UTF-16 code units (`.length`, `substring`,
  regular expressions without the `u` flag) the embedding counts a character
  above U+FFFF as two units (`jsLength`, `toUnits`).
* A JavaScript number is a real number; `Math.log` is `Real.log`.  Statistics and
  sentence scores, which are sums and quotients of lengths and decimal
  constants, are rationals.
* A rejected promise or a thrown exception is the `error` case of `Except`; the
  calls made to the external providers are recorded in a list.
* A plain object used as a dictionary (`wordFreq`) is an insertion-ordered
  association list holding own keys only, enumerated in the order of
  `Object.entries` (array-index keys first, ascending, then the other keys in
  insertion order).  A lookup of a key that was never set yields `undefined`:
  for a token that names a member inherited from `Object.prototype`
  (`inheritedKeys`: `constructor`, `toString`, `valueOf`, ...) the source reads
  the inherited function instead, so the statements about counts and weights
  assume that no token is such a name.
* Scores are exact reals where the source computes doubles; statements about
  ties are restricted to scores that are computed to the same double.
* `nlpManager.process` is an external call whose result the source discards; it
  is taken to resolve, so the `catch` branches of `extractKeywords` and
  `extractEntities` are not reached.
* Node and edge fields that no operation reads back (`description`,
  `sourceDocuments`, `difficulty`, `style`) are left out of the records.
* A run of `processDocumentAsync` is described by the way each of its awaited
  calls settles and by the states it writes to the store; no other writer
  touches the document during the run.
* `String.prototype.toLowerCase` is a parameter of the functions that call it.
-/

namespace Mathweb

/-! ## Strings -/

/-- Number of UTF-16 code units of a string: the value of `.length`. -/
def jsLength (s : List Char) : Nat :=
  (s.map fun c => if c.toNat < 0x10000 then 1 else 2).sum

/-- UTF-16 code units of a string. -/
def toUnits (s : List Char) : List Nat :=
  s.flatMap fun c =>
    if c.toNat < 0x10000 then [c.toNat]
    else [0xD800 + (c.toNat - 0x10000) / 0x400, 0xDC00 + (c.toNat - 0x10000) % 0x400]

/-- Character class `一-龥`. -/
def isCJK (c : Char) : Bool :=
  decide (0x4e00 ≤ c.toNat) && decide (c.toNat ≤ 0x9fa5)

/-- Character class `a-zA-Z0-9`. -/
def isAsciiAlnum (c : Char) : Bool :=
  (decide ('a'.toNat ≤ c.toNat) && decide (c.toNat ≤ 'z'.toNat)) ||
  (decide ('A'.toNat ≤ c.toNat) && decide (c.toNat ≤ 'Z'.toNat)) ||
  (decide ('0'.toNat ≤ c.toNat) && decide (c.toNat ≤ '9'.toNat))

/-- Character class `\d`. -/
def isDigit (c : Char) : Bool :=
  decide ('0'.toNat ≤ c.toNat) && decide (c.toNat ≤ '9'.toNat)

/-- Character class `\s` of a JavaScript regular expression, which is also the set
`trim()` strips: white space and line terminators. -/
def isJsSpace (c : Char) : Bool :=
  let n := c.toNat
  decide (n = 0x09) || decide (n = 0x0A) || decide (n = 0x0B) || decide (n = 0x0C) ||
  decide (n = 0x0D) || decide (n = 0x20) || decide (n = 0xA0) || decide (n = 0x1680) ||
  (decide (0x2000 ≤ n) && decide (n ≤ 0x200A)) || decide (n = 0x2028) ||
  decide (n = 0x2029) || decide (n = 0x202F) || decide (n = 0x205F) ||
  decide (n = 0x3000) || decide (n = 0xFEFF)

/-- Character class `[。！？]`. -/
def isSentenceEnd (c : Char) : Bool :=
  c == '。' || c == '！' || c == '？'

/-- The test `s.includes(w)`: `w` occurs in `s` as a contiguous block. -/
def includes {α : Type} [DecidableEq α] : List α → List α → Bool
  | [], w => w.isEmpty
  | c :: cs, w => w.isPrefixOf (c :: cs) || includes cs w

/-- The call `s.trim()`. -/
def jsTrim (s : List Char) : List Char :=
  ((s.dropWhile isJsSpace).reverse.dropWhile isJsSpace).reverse

/-- Puts `c` in front of the first piece of a split. -/
def consHead (c : Char) : List (List Char) → List (List Char)
  | [] => [[c]]
  | p :: ps => (c :: p) :: ps

/-- The call `s.split(re)` for a regular expression `re` matching exactly one
character of the class `sep`. -/
def splitOnChars (sep : Char → Bool) : List Char → List (List Char)
  | [] => [[]]
  | c :: cs => if sep c then [] :: splitOnChars sep cs else consHead c (splitOnChars sep cs)

/-- Worker of `splitRuns`; `inRun` tells that the previous character was a
separator. -/
def splitRunsAux (sep : Char → Bool) : Bool → List Char → List (List Char)
  | _, [] => [[]]
  | inRun, c :: cs =>
    if sep c then
      if inRun then splitRunsAux sep true cs else [] :: splitRunsAux sep true cs
    else consHead c (splitRunsAux sep false cs)

/-- The call `s.split(re)` for a regular expression `re` matching a maximal
non-empty run of characters of the class `sep`, such as `/\s+/`. -/
def splitRuns (sep : Char → Bool) (s : List Char) : List (List Char) :=
  splitRunsAux sep false s

/-! ## Keyword ranker (`aiService.js`) -/

/-- The fixed stop-word list of `isStopWord`. -/
def stopWords : List (List Char) :=
  ["的", "了", "在", "是", "我", "有", "和", "就", "不", "人", "都", "一", "一个",
   "上", "也", "很", "到", "说", "要", "去", "你", "会", "着", "没有", "看", "好",
   "自己", "这", "那", "它", "他", "她", "们", "个", "中", "而", "之", "与", "或"].map
    String.toList

/-- Source function `isStopWord`. -/
def isStopWord (word : List Char) : Bool :=
  stopWords.contains word

/-- The replacement `text.replace(/[^一-龥a-zA-Z0-9]/g, ' ')`: every code
unit outside the class becomes one space. -/
def cleanText (text : List Char) : List Char :=
  text.flatMap fun c =>
    if isCJK c || isAsciiAlnum c then [c]
    else if c.toNat < 0x10000 then [' '] else [' ', ' ']

/-- Source function `segmentText`. -/
def segmentText (text : List Char) : List (List Char) :=
  (splitRuns isJsSpace (cleanText text)).filter fun word =>
    decide (1 < jsLength word) && !isStopWord word

/-- One step of `freq[word] = (freq[word] || 0) + 1` on the insertion-ordered table. -/
def bumpFrequency (word : List Char) : List (List Char × Nat) → List (List Char × Nat)
  | [] => [(word, 1)]
  | (k, n) :: rest =>
    if k = word then (k, n + 1) :: rest else (k, n) :: bumpFrequency word rest

/-- Source function `calculateWordFrequency`, for words that are own keys of the
table; the table lists its keys in insertion order.  For a word of
`inheritedKeys` the source reads an inherited function where this table starts
from 0; statements about counts and scores exclude such words. -/
def calculateWordFrequency (words : List (List Char)) : List (List Char × Nat) :=
  words.foldl (fun freq word => bumpFrequency word freq) []

/-- Value of a decimal digit string. -/
def digitsValue (w : List Char) : Nat :=
  w.foldl (fun acc c => 10 * acc + (c.toNat - '0'.toNat)) 0

/-- Tells whether a property key is an array index: a canonical decimal numeral
of value at most 2^32 - 2. -/
def isArrayIndex (w : List Char) : Bool :=
  !w.isEmpty && w.all isDigit && (w == ['0'] || w.head? != some '0') &&
    decide (digitsValue w ≤ 4294967294)

/-- The call `Object.entries(obj)`: array-index keys in ascending numeric order,
then the remaining keys in insertion order. -/
def objectEntries (obj : List (List Char × Nat)) : List (List Char × Nat) :=
  ((obj.filter fun e => isArrayIndex e.1).insertionSort
      fun a b => digitsValue a.1 ≤ digitsValue b.1) ++
    obj.filter fun e => !isArrayIndex e.1

/-- The sentence list of `calculateTFIDF`:
`text.split(/[。！？]/).filter(s => s.trim().length > 0)`. -/
def tfidfSentences (text : List Char) : List (List Char) :=
  (splitOnChars isSentenceEnd text).filter fun s => decide (0 < jsLength (jsTrim s))

/-- Entry of the ranking built by `calculateTFIDF`. -/
structure TfIdf where
  word : List Char
  frequency : Nat
  score : ℝ

/-- Number of sentences containing the word: `docsWithWord`. -/
def docsWithWord (sentences : List (List Char)) (word : List Char) : Nat :=
  (sentences.filter fun sentence => includes sentence word).length

/-- The body of the scoring loop of `calculateTFIDF` for one table entry; `score`
is the exact value of the expression that the source evaluates in double
precision. -/
noncomputable def tfidfEntry (totalWords : Nat) (sentences : List (List Char))
    (e : List Char × Nat) : TfIdf :=
  let tf : ℝ := (e.2 : ℝ) / (totalWords : ℝ)
  let idf : ℝ := Real.log ((sentences.length : ℝ) / ((docsWithWord sentences e.1 : ℝ) + 1))
  { word := e.1, frequency := e.2, score := tf * idf }

/-- The comparator `(a, b) => b.score - a.score`: `a` may stay in front of `b`. -/
def scoreDesc (a b : TfIdf) : Prop := b.score ≤ a.score

noncomputable instance : DecidableRel scoreDesc := fun a b =>
  inferInstanceAs (Decidable (b.score ≤ a.score))

/-- Source function `calculateTFIDF`; `Array.prototype.sort` is a stable sort. -/
noncomputable def calculateTFIDF (wordFreq : List (List Char × Nat)) (text : List Char) :
    List TfIdf :=
  let totalWords := (wordFreq.map Prod.snd).sum
  let sentences := tfidfSentences text
  ((objectEntries wordFreq).map (tfidfEntry totalWords sentences)).insertionSort scoreDesc

/-- Element of the list returned by `extractKeywords`. -/
structure Keyword where
  word : List Char
  weight : ℝ
  frequency : Nat

/-- Source function `extractKeywords`. -/
noncomputable def extractKeywords (text : List Char) (maxKeywords : Nat) : List Keyword :=
  let words := segmentText text
  let wordFreq := calculateWordFrequency words
  let keywords := calculateTFIDF wordFreq text
  (keywords.take maxKeywords).map fun item =>
    { word := item.word, weight := item.score, frequency := item.frequency }

/-! ## Regular expressions

The fragment of JavaScript regular expressions the source uses, with the
backtracking semantics of `RegExp.prototype.exec`: alternatives are tried from
left to right and `*` is greedy. -/

/-- Abstract syntax of the regular expressions of the source. -/
inductive Re where
  | cls (p : Char → Bool)
  | lit (s : List Char)
  | seq (a b : Re)
  | alt (a b : Re)
  | star (a : Re)
  | group (a : Re)

/-- The expression `a+`. -/
def Re.plus (a : Re) : Re := .seq a (.star a)

/-- The expression `a?`. -/
def Re.opt (a : Re) : Re := .alt a (.lit [])

/-- The expression `s1|s2|...` over literal strings. -/
def Re.lits : List String → Re
  | [] => .cls fun _ => false
  | [s] => .lit s.toList
  | s :: rest => .alt (.lit s.toList) (Re.lits rest)

/-- State of a match attempt: the input still to read and the texts of the
capture groups closed so far, in order. -/
structure MatchState where
  rest : List Char
  groups : List (List Char)

/-- Greedy iteration of `step`: more iterations are tried before fewer, and an
iteration that reads nothing is rejected. -/
def starRun (step : MatchState → List MatchState) : Nat → MatchState → List MatchState
  | 0, st => [st]
  | n + 1, st =>
    ((step st).filter fun st' => decide (st'.rest.length < st.rest.length)).flatMap
      (starRun step n) ++ [st]

/-- All ways to match the expression at the head of the input, in the priority
order of the backtracking matcher. -/
def Re.run : Re → MatchState → List MatchState
  | .cls p, st =>
    match st.rest with
    | [] => []
    | c :: cs => if p c then [{ st with rest := cs }] else []
  | .lit s, st =>
    if s.isPrefixOf st.rest then [{ st with rest := st.rest.drop s.length }] else []
  | .seq a b, st => (a.run st).flatMap b.run
  | .alt a b, st => a.run st ++ b.run st
  | .star a, st => starRun a.run st.rest.length st
  | .group a, st =>
    (a.run st).map fun st' =>
      { st' with groups := st'.groups ++ [st.rest.take (st.rest.length - st'.rest.length)] }

/-- The match found at the head of the input, if any. -/
def Re.matchAt (re : Re) (inp : List Char) : Option MatchState :=
  (re.run { rest := inp, groups := [] }).head?

/-- Worker of `matchAll`. -/
def matchAllAux (re : Re) : Nat → List Char → List (List Char × List (List Char))
  | 0, _ => []
  | fuel + 1, inp =>
    match re.matchAt inp with
    | some st =>
      (inp.take (inp.length - st.rest.length), st.groups) ::
        (if st.rest.length < inp.length then matchAllAux re fuel st.rest else [])
    | none =>
      match inp with
      | [] => []
      | _ :: cs => matchAllAux re fuel cs

/-- The loop `while ((match = re.exec(text)) !== null)` of a global expression
that cannot match the empty string: the successive matches as pairs of
`match[0]` and the capture groups `match[1], match[2], ...`. -/
def matchAll (re : Re) (text : List Char) : List (List Char × List (List Char)) :=
  matchAllAux re (text.length + 1) text

/-! ## Entity recognizer (`aiService.js`) -/

/-- Character class `[^\s，。！？]`. -/
def isEntityChar (c : Char) : Bool :=
  !(isJsSpace c || c == '，' || c == '。' || c == '！' || c == '？')

/-- Character class `[：:]`. -/
def isColon (c : Char) : Bool := c == '：' || c == ':'

/-- Character class `[a-zA-Z]`. -/
def isAsciiLetter (c : Char) : Bool :=
  (decide ('a'.toNat ≤ c.toNat) && decide (c.toNat ≤ 'z'.toNat)) ||
  (decide ('A'.toNat ≤ c.toNat) && decide (c.toNat ≤ 'Z'.toNat))

/-- Character class `[^，。！？\n]`. -/
def isFormulaChar (c : Char) : Bool :=
  !(c == '，' || c == '。' || c == '！' || c == '？' || c == '\n')

/-- The table `patterns` of `extractEntities`, in the order of its keys. -/
def entityPatterns : List (String × Re) :=
  [ ("person",
      .seq (Re.lits ["教授", "博士", "学者", "作者"])
        (.seq (.star (.cls isJsSpace)) (.group (Re.plus (.cls isEntityChar))))),
    ("concept",
      .seq (Re.lits ["概念", "理论", "定义", "原理"])
        (.seq (.star (.cls isJsSpace)) (.seq (.cls isColon)
          (.seq (.star (.cls isJsSpace)) (.group (Re.plus (.cls isEntityChar))))))),
    ("method",
      .seq (Re.lits ["方法", "技术", "算法", "策略"])
        (.seq (.star (.cls isJsSpace)) (.seq (.cls isColon)
          (.seq (.star (.cls isJsSpace)) (.group (Re.plus (.cls isEntityChar))))))),
    ("number",
      .seq (Re.plus (.cls isDigit)) (Re.opt (.seq (.lit ['.']) (Re.plus (.cls isDigit))))),
    ("formula",
      .seq (.cls isAsciiLetter) (.seq (.star (.cls isJsSpace)) (.seq (.lit ['='])
        (.seq (.star (.cls isJsSpace)) (Re.plus (.cls isFormulaChar)))))) ]

/-- The value `match[1] || match[0]`. -/
def firstGroupOrMatch (m : List Char × List (List Char)) : List Char :=
  match m.2 with
  | g :: _ => if g.isEmpty then m.1 else g
  | [] => m.1

/-- Texts and types of the entities of `extractEntities`, in the order pushed. -/
def entityMatches (text : List Char) : List (List Char × String) :=
  entityPatterns.flatMap fun p => (matchAll p.2 text).map fun m => (firstGroupOrMatch m, p.1)

/-- Element of the list returned by `extractEntities`. -/
structure Entity where
  text : List Char
  type : String
  confidence : ℝ

/-- Source function `extractEntities`. -/
noncomputable def extractEntities (text : List Char) : List Entity :=
  (entityMatches text).map fun m => { text := m.1, type := m.2, confidence := 0.8 }

/-! ## Knowledge-graph service (`knowledgeGraphService.js`) -/

/-- Layout position of a node. -/
structure Position where
  x : ℝ
  y : ℝ

/-- The `properties` of a concept node. -/
structure NodeProperties where
  importance : ℝ
  frequency : Nat

/-- Concept node. -/
structure Node where
  id : List Char
  label : List Char
  type : String
  properties : NodeProperties
  position : Position

/-- The `properties` of a relation edge. -/
structure EdgeProperties where
  strength : ℝ
  bidirectional : Bool

/-- Relation edge; `fromId` and `toId` are the fields `from` and `to`. -/
structure Edge where
  id : List Char
  fromId : List Char
  toId : List Char
  label : String
  type : String
  weight : ℝ
  properties : EdgeProperties

/-- Graph object `{ nodes, edges }`. -/
structure Graph where
  nodes : List Node
  edges : List Edge

/-- Character class `\w`. -/
def isWordChar (c : Char) : Bool := isAsciiAlnum c || c == '_'

/-- Source function `generateId`:
`text.toLowerCase().replace(/[^\w一-龥]/g, '_')`.  Lower-casing maps
`A`-`Z` to `a`-`z`, U+212A to `k` and U+0130 to `i` followed by U+0307; every
other character stays outside `\w` and the CJK range when it is outside
before, and becomes one `_` per code unit. -/
def generateId (text : List Char) : List Char :=
  text.flatMap fun c =>
    if decide ('A'.toNat ≤ c.toNat) && decide (c.toNat ≤ 'Z'.toNat) then
      [Char.ofNat (c.toNat + 32)]
    else if c.toNat = 0x212A then ['k']
    else if c.toNat = 0x130 then ['i', '_']
    else if isWordChar c || isCJK c then [c]
    else if c.toNat < 0x10000 then ['_'] else ['_', '_']

/-- The table `typePatterns` of `classifyConceptType`, in the order of its keys;
each expression is an alternation of literal strings. -/
def typePatterns : List (String × List String) :=
  [ ("person", ["人", "教授", "博士", "学者", "作者"]),
    ("concept", ["概念", "理论", "原理", "定义"]),
    ("method", ["方法", "技术", "算法", "策略"]),
    ("formula", ["公式", "方程", "定律"]),
    ("example", ["例子", "案例", "实例"]) ]

/-- Worker of `indexOfUnits`, counting from position `i`. -/
def indexOfUnitsFrom (w : List Nat) : Nat → List Nat → Int
  | i, [] => if w.isEmpty then (i : Int) else -1
  | i, c :: cs => if w.isPrefixOf (c :: cs) then (i : Int) else indexOfUnitsFrom w (i + 1) cs

/-- The call `s.indexOf(w)` on code units: first position of `w`, or `-1`. -/
def indexOfUnits (w s : List Nat) : Int := indexOfUnitsFrom w 0 s

/-- The call `s.substring(a, b)` on code units: both bounds are clamped to
`[0, s.length]` and swapped when out of order. -/
def jsSubstring (s : List Nat) (a b : Int) : List Nat :=
  let a' := min a.toNat s.length
  let b' := min b.toNat s.length
  (s.drop (min a' b')).take (max a' b' - min a' b')

/-- Source function `classifyConceptType`. -/
def classifyConceptType (word context : List Char) : String :=
  let ctx := toUnits context
  let idx := indexOfUnits (toUnits word) ctx
  let window := jsSubstring ctx (idx - 20) (idx + 20)
  match typePatterns.find? fun p => p.2.any fun l => includes window (toUnits l.toList) with
  | some p => p.1
  | none => "concept"

/-- Source function `calculatePosition`. -/
noncomputable def calculatePosition (index total : Nat) : Position :=
  let angle : ℝ := (index : ℝ) / (total : ℝ) * 2 * Real.pi
  { x := Real.cos angle * 300, y := Real.sin angle * 300 }

/-- The call `map.set(key, value)` on an insertion-ordered `Map`: an existing
key keeps its place. -/
def mapSet (key : List Char) (value : Node) : List (List Char × Node) → List (List Char × Node)
  | [] => [(key, value)]
  | (k, v) :: rest => if k = key then (k, value) :: rest else (k, v) :: mapSet key value rest

/-- The call `map.has(key)`. -/
def mapHas (key : List Char) (m : List (List Char × Node)) : Bool :=
  m.any fun e => decide (e.1 = key)

/-- The step of `keywords.forEach` in `extractConcepts`. -/
noncomputable def addKeyword (text : List Char) (total : Nat)
    (concepts : List (List Char × Node)) (ik : Nat × Keyword) : List (List Char × Node) :=
  if ik.2.weight > 0.3 then
    let conceptId := generateId ik.2.word
    mapSet conceptId
      { id := conceptId
        label := ik.2.word
        type := classifyConceptType ik.2.word text
        properties := { importance := ik.2.weight, frequency := ik.2.frequency }
        position := calculatePosition ik.1 total } concepts
  else concepts

/-- The step of `entities.forEach` in `extractConcepts`. -/
noncomputable def addEntity (concepts : List (List Char × Node)) (entity : Entity) :
    List (List Char × Node) :=
  if entity.confidence > 0.7 then
    let conceptId := generateId entity.text
    if !mapHas conceptId concepts then
      mapSet conceptId
        { id := conceptId
          label := entity.text
          type := entity.type
          properties := { importance := entity.confidence, frequency := 1 }
          position := calculatePosition concepts.length 30 } concepts
    else concepts
  else concepts

/-- Source function `extractConcepts`. -/
noncomputable def extractConcepts (text : List Char) : List Node :=
  let keywords := extractKeywords text 30
  let entities := extractEntities text
  let afterKeywords := keywords.enum.foldl (addKeyword text keywords.length) []
  let concepts := entities.foldl addEntity afterKeywords
  concepts.map Prod.snd

/-- Result of `calculateCooccurrence`; `sources` holds the sentence indices and
`evidence` the code units of the evidence snippet. -/
structure Cooccurrence where
  strength : ℝ
  relationType : String
  sources : List Nat
  evidence : List Nat
  bidirectional : Bool

/-- The relation type `calculateCooccurrence` infers from the evidence snippet. -/
def inferRelationType (evidence : List Nat) : String :=
  let has := fun (t : String) => includes evidence (toUnits t.toList)
  if has "属于" || has "是一种" then "part_of"
  else if has "导致" || has "引起" then "leads_to"
  else if has "依赖" || has "需要" then "depends_on"
  else if has "相似" || has "类似" then "similar_to"
  else "related_to"

/-- Source function `calculateCooccurrence`.  For an empty sentence list the
source computes `0 / 0`; the quotient is `0` here, and in both cases the
strength fails every `>` test. -/
noncomputable def calculateCooccurrence (concept1 concept2 : List Char)
    (sentences : List (List Char)) : Cooccurrence :=
  let hits := sentences.enum.filter fun p => includes p.2 concept1 && includes p.2 concept2
  let cooccurrenceCount := hits.length
  let evidence := hits.foldl
    (fun ev p => if ev.isEmpty then jsSubstring (toUnits p.2) 0 100 else ev) []
  let strength : ℝ := min ((cooccurrenceCount : ℝ) / (sentences.length : ℝ) * 10) 1
  let relationType := inferRelationType evidence
  { strength := strength
    relationType := relationType
    sources := hits.map Prod.fst
    evidence := evidence
    bidirectional := relationType == "related_to" || relationType == "similar_to" }

/-- Character class `[^，。！？]`. -/
def isClauseChar (c : Char) : Bool :=
  !(c == '，' || c == '。' || c == '！' || c == '？')

/-- The table `patterns` of `extractPatternBasedRelations`. -/
def relationPatterns : List (Re × String) :=
  [ (.seq (.group (Re.plus (.cls isClauseChar)))
      (.seq (.lit "属于".toList) (.group (Re.plus (.cls isClauseChar)))), "part_of"),
    (.seq (.group (Re.plus (.cls isClauseChar)))
      (.seq (.lit "是".toList) (.seq (.group (Re.plus (.cls isClauseChar)))
        (.lit "的例子".toList))), "example_of"),
    (.seq (.group (Re.plus (.cls isClauseChar)))
      (.seq (.lit "导致".toList) (.group (Re.plus (.cls isClauseChar)))), "leads_to"),
    (.seq (.group (Re.plus (.cls isClauseChar)))
      (.seq (.lit "依赖于".toList) (.group (Re.plus (.cls isClauseChar)))), "depends_on") ]

/-- Source function `findConceptByLabel`. -/
def findConceptByLabel (label : List Char) (concepts : List Node) : Option Node :=
  concepts.find? fun concept =>
    includes concept.label (jsTrim label) || includes (jsTrim label) concept.label

/-- The edge `extractPatternBasedRelations` pushes for one match of a pattern,
when both captures resolve to a concept. -/
noncomputable def patternEdge (concepts : List Node) (type : String)
    (m : List Char × List (List Char)) : Option Edge :=
  match findConceptByLabel (jsTrim (m.2.getD 0 [])) concepts,
      findConceptByLabel (jsTrim (m.2.getD 1 [])) concepts with
  | some source, some target =>
    some
      { id := generateId (source.id ++ ['-'] ++ target.id ++ ['-'] ++ type.toList)
        fromId := source.id
        toId := target.id
        label := type
        type := type
        weight := 0.8
        properties := { strength := 0.8, bidirectional := false } }
  | _, _ => none

/-- Source function `extractPatternBasedRelations`. -/
noncomputable def extractPatternBasedRelations (text : List Char) (concepts : List Node) :
    List Edge :=
  relationPatterns.flatMap fun p => (matchAll p.1 text).filterMap (patternEdge concepts p.2)

/-- The pairs `(xs[i], xs[j])`, `i < j`, in the order of the nested loops. -/
def orderedPairs {α : Type} : List α → List (α × α)
  | [] => []
  | a :: rest => rest.map (fun b => (a, b)) ++ orderedPairs rest

/-- The body of the nested loops of `extractRelations` for one pair of concepts. -/
noncomputable def cooccurrenceEdge (sentences : List (List Char)) (p : Node × Node) :
    Option Edge :=
  let cooccurrence := calculateCooccurrence p.1.label p.2.label sentences
  if cooccurrence.strength > 0.3 then
    some
      { id := generateId (p.1.id ++ ['-'] ++ p.2.id)
        fromId := p.1.id
        toId := p.2.id
        label := cooccurrence.relationType
        type := cooccurrence.relationType
        weight := cooccurrence.strength
        properties :=
          { strength := cooccurrence.strength, bidirectional := cooccurrence.bidirectional } }
  else none

/-- The sentence list of `extractRelations`:
`text.split(/[。！？]/).filter(s => s.trim().length > 10)`. -/
def relationSentences (text : List Char) : List (List Char) :=
  (splitOnChars isSentenceEnd text).filter fun s => decide (10 < jsLength (jsTrim s))

/-- Source function `extractRelations`. -/
noncomputable def extractRelations (text : List Char) (concepts : List Node) : List Edge :=
  let sentences := relationSentences text
  (orderedPairs concepts).filterMap (cooccurrenceEdge sentences) ++
    extractPatternBasedRelations text concepts

/-- Source function `constructGraph`, for `maxNodes >= 0`. -/
noncomputable def constructGraph (concepts : List Node) (relations : List Edge)
    (maxNodes : Nat) (minConfidence : ℝ) : Graph :=
  let filteredConcepts :=
    (concepts.filter fun concept => decide (concept.properties.importance ≥ minConfidence)).take
      maxNodes
  let conceptIds : List (List Char) := filteredConcepts.map fun c => c.id
  let filteredRelations := relations.filter fun relation =>
    decide (relation.fromId ∈ conceptIds) && decide (relation.toId ∈ conceptIds)
  { nodes := filteredConcepts, edges := filteredRelations }

/-- Source function `mergeSimilarNodes`. -/
def mergeSimilarNodes (nodes : List Node) : List Node := nodes

/-- Source function `optimizeLayout`. -/
noncomputable def optimizeLayout (nodes : List Node) : List Node :=
  nodes.enum.map fun p => { p.2 with position := calculatePosition p.1 nodes.length }

/-- Source function `optimizeGraph`. -/
noncomputable def optimizeGraph (graph : Graph) : Graph :=
  let connectedNodeIds : List (List Char) := graph.edges.flatMap fun edge => [edge.fromId, edge.toId]
  let optimizedNodes := graph.nodes.filter fun node =>
    decide (node.id ∈ connectedNodeIds) || decide (node.properties.importance > 0.8)
  let mergedNodes := mergeSimilarNodes optimizedNodes
  let layoutOptimizedNodes := optimizeLayout mergedNodes
  { nodes := layoutOptimizedNodes, edges := graph.edges }

/-- What happens at step 5 of `buildKnowledgeGraph`: the write is skipped when no
driver or no `documentId` is given, and otherwise `saveToNeo4j` resolves or
rejects. -/
inductive StoreWrite where
  | skipped
  | resolved
  | rejected
  deriving DecidableEq

/-- Source function `buildKnowledgeGraph`; `none` stands for the rejected
promise (the `catch` block rethrows). -/
noncomputable def buildKnowledgeGraph (documentContent : List Char) (maxNodes : Nat)
    (minConfidence : ℝ) (store : StoreWrite) : Option Graph :=
  let concepts := extractConcepts documentContent
  let relations := extractRelations documentContent concepts
  let graph := constructGraph concepts relations maxNodes minConfidence
  let optimizedGraph := optimizeGraph graph
  match store with
  | .rejected => none
  | _ => some optimizedGraph

/-! ## Stored graph statistics (`models/KnowledgeGraph.js`) -/

/-- The `statistics` sub-document. -/
structure Statistics where
  nodeCount : Nat
  edgeCount : Nat
  density : ℚ
  averageDegree : ℚ
  clusteringCoefficient : ℚ

/-- The fields of a stored `KnowledgeGraph` document that `updateStatistics`
reads or writes. -/
structure KnowledgeGraph where
  graph : Graph
  statistics : Statistics

/-- Source method `updateStatistics`, up to the final `save()`. -/
def updateStatistics (this : KnowledgeGraph) : KnowledgeGraph :=
  let nodeCount := this.graph.nodes.length
  let edgeCount := this.graph.edges.length
  let n := nodeCount
  let density : ℚ :=
    if n > 1 then (edgeCount : ℚ) / ((n : ℚ) * ((n : ℚ) - 1) / 2) else this.statistics.density
  let averageDegree : ℚ :=
    if n > 0 then (2 * (edgeCount : ℚ)) / (n : ℚ) else this.statistics.averageDegree
  { this with
    statistics :=
      { this.statistics with
        nodeCount := nodeCount
        edgeCount := edgeCount
        density := density
        averageDegree := averageDegree } }

/-! ## Summary, local fallback and provider routing (`aiService.js`) -/

/-- Source function `calculateSentenceScore`, for a non-empty sentence of a
non-empty text (the only arguments `generateSummary` passes). -/
def calculateSentenceScore (sentence fullText : List Char) : ℚ :=
  let length := jsLength sentence
  let words := segmentText sentence
  let keywordDensity : ℚ := (words.length : ℚ) / (length : ℚ)
  let score : ℚ := keywordDensity * (4 / 10)
  let position : ℚ :=
    ((indexOfUnits (toUnits sentence) (toUnits fullText) : Int) : ℚ) / (jsLength fullText : ℚ)
  let score := if position < 2 / 10 ∨ position > 8 / 10 then score + 3 / 10 else score
  let score := if length > 20 ∧ length < 100 then score + 3 / 10 else score
  score

/-- Element of `sentenceScores` in `generateSummary`. -/
structure SentenceScore where
  sentence : List Char
  score : ℚ

/-- Source function `generateSummary`, for `maxLength >= 0`; the summary is given
by its code units.  Nothing in the `try` block throws for a string, so the
`catch` branch is not reached. -/
def generateSummary (text : List Char) (maxLength : Nat) : List Nat :=
  let sentences := (splitOnChars isSentenceEnd text).filter fun s =>
    decide (10 < jsLength (jsTrim s))
  if sentences.length ≤ 3 then jsSubstring (toUnits text) 0 maxLength
  else
    let sentenceScores : List SentenceScore := sentences.map fun sentence =>
      { sentence := sentence, score := calculateSentenceScore sentence text }
    let topSentences :=
      ((sentenceScores.insertionSort fun a b => b.score ≤ a.score).take
        (min 3 sentences.length)).map fun item => item.sentence
    toUnits (List.intercalate ['。'] topSentences ++ ['。'])

/-- Element of `concepts` in the result of `fallbackProcessing`. -/
structure ConceptItem where
  name : List Char
  description : List Char
  importance : ℝ

/-- Element of `relations` in the result of `fallbackProcessing`; `fromText` and
`toText` are the fields `from` and `to`. -/
structure RelationItem where
  fromText : List Char
  toText : List Char
  relation : String
  strength : ℝ

/-- Result objects of `processWithAI`: the value a provider call resolved to, or
one of the objects `fallbackProcessing` builds (`result` holds the code units
of the string). -/
inductive AIResult (R : Type) where
  | provider (value : R)
  | concepts (concepts : List ConceptItem)
  | result (result : List Nat)
  | relations (relations : List RelationItem)

/-- Source function `fallbackProcessing`; each function it awaits catches its own
exceptions, so it resolves for every string. -/
noncomputable def fallbackProcessing {R : Type} (text : List Char) (task : String) :
    AIResult R :=
  if task = "extract_concepts" then
    let keywords := extractKeywords text 20
    .concepts ((keywords.take 10).map fun kw =>
      { name := kw.word, description := "关键概念：".toList ++ kw.word, importance := kw.weight })
  else if task = "generate_summary" then
    .result (generateSummary text 300)
  else if task = "extract_relations" then
    let entities := extractEntities text
    let relations : List RelationItem :=
      ((orderedPairs entities).filter fun p => p.1.type == p.2.type).map fun p =>
        { fromText := p.1.text, toText := p.2.text, relation := "相关概念", strength := 0.6 }
    .relations (relations.take 5)
  else .result (toUnits "本地处理完成，但功能有限".toList)

/-- The two external providers. -/
inductive Provider where
  | gemini
  | deepseek
  deriving DecidableEq

/-- What a call of `processWithAI` did: the providers it invoked, in order, and
how its promise settled. -/
structure AICall (R : Type) where
  calls : List Provider
  outcome : Except String (AIResult R)

/-- The test `preferredModel === 'gemini' || (preferredModel === 'auto' &&
Math.random() > 0.5)` of `processWithAI`; `random` is the value of
`Math.random()`. -/
def prefersGemini (preferredModel : String) (random : ℚ) : Bool :=
  preferredModel == "gemini" || (preferredModel == "auto" && decide (random > 1 / 2))

/-- Source function `processWithAI`.  `gemini` and `deepseek` tell how a call of
`processWithGemini` and of `processWithDeepSeek` with the given text and task
settles (a missing API key is a rejection). -/
noncomputable def processWithAI {R : Type} (gemini deepseek : Except String R) (random : ℚ)
    (text : List Char) (task preferredModel : String) : AICall R :=
  let inner : List Provider × Except String R :=
    if prefersGemini preferredModel random then
      match gemini with
      | .ok result => ([.gemini], .ok result)
      | .error _ => ([.gemini, .deepseek], deepseek)
    else
      match deepseek with
      | .ok result => ([.deepseek], .ok result)
      | .error _ => ([.deepseek, .gemini], gemini)
  match inner.2 with
  | .ok result => { calls := inner.1, outcome := .ok (.provider result) }
  | .error _ => { calls := inner.1, outcome := .ok (fallbackProcessing text task) }

/-! ## Processing state of a document (`models/Document.js`) -/

/-- The `processing` sub-document; times are milliseconds, `none` is `null`. -/
structure Processing where
  status : String
  progress : ℚ
  error : String
  startedAt : Option Nat
  completedAt : Option Nat
  deriving DecidableEq

/-- Source method `updateProcessingStatus`, up to the final `save()`; `now` is the
value of `new Date()`, and `none` is the default `null` of `progress` and
`error`. -/
def updateProcessingStatus (now : Nat) (status : String) (progress : Option ℚ)
    (error : Option String) (processing : Processing) : Processing :=
  { status := status
    progress :=
      match progress with
      | some value => value
      | none => processing.progress
    error :=
      match error with
      | some message => if message ≠ "" then message else processing.error
      | none => processing.error
    startedAt :=
      if status = "processing" ∧ processing.startedAt = none then some now
      else processing.startedAt
    completedAt :=
      if status = "completed" ∨ status = "failed" then some now
      else processing.completedAt }

/-! ## Processing pipeline of an uploaded document (`routes/documents.js`) -/

/-- The awaited calls of `processDocumentAsync`, in program order.  `status10`
to `status100` are the calls of `document.updateProcessingStatus` in the `try`
block, named after the progress they pass; `save` is the `document.save()` of
step 5; `catchFindById` and `catchStatus` are the two calls of the `catch`
block. -/
inductive Call where
  | findById
  | status10
  | extractTextFromFile
  | status30
  | extractKeywords
  | extractEntities
  | status50
  | generateSummary
  | status70
  | buildKnowledgeGraph
  | status90
  | save
  | status100
  | catchFindById
  | catchStatus
  deriving DecidableEq

/-- The arguments `(status, progress)` of the calls of `updateProcessingStatus` in
the `try` block of `processDocumentAsync`; the other calls do not touch the
`processing` sub-document. -/
def checkpoint : Call → Option (String × ℚ)
  | .status10 => some ("processing", 10)
  | .status30 => some ("processing", 30)
  | .status50 => some ("processing", 50)
  | .status70 => some ("processing", 70)
  | .status90 => some ("processing", 90)
  | .status100 => some ("completed", 100)
  | _ => none

/-- The awaited calls of the `try` block of `processDocumentAsync` after
`findById`, in program order. -/
def tryBlock : List Call :=
  [.status10, .extractTextFromFile, .status30, .extractKeywords, .extractEntities, .status50,
   .generateSummary, .status70, .buildKnowledgeGraph, .status90, .save, .status100]

/-- Runs the calls of the `try` block on a document whose `processing`
sub-document is `processing`.  `outcome c` is `none` when the call `c` resolves
and `some message` when it rejects with an error whose `message` is `message`;
`clock c` is the value of `new Date()` during the call `c`.  The result lists the
`processing` sub-documents written by the resolved calls of
`updateProcessingStatus`, in order, and holds the message of the first rejected
call, after which the block is left. -/
def runTry (outcome : Call → Option String) (clock : Call → Nat) :
    List Call → Processing → List Processing × Option String
  | [], _ => ([], none)
  | c :: rest, processing =>
    match outcome c with
    | some message => ([], some message)
    | none =>
      match checkpoint c with
      | none => runTry outcome clock rest processing
      | some (status, progress) =>
        let updated := updateProcessingStatus (clock c) status (some progress) none processing
        let r := runTry outcome clock rest updated
        (updated :: r.1, r.2)

/-- Source function `processDocumentAsync`, for a run with no concurrent writer.
`stored` is the `processing` sub-document of the stored document (`none` when
`findById` finds no document); the result lists the `processing` sub-documents
the run writes to the store, in order.  The `catch` block reads the document
back from the store, so it starts from the state written last. -/
def processDocumentAsync (stored : Option Processing) (outcome : Call → Option String)
    (clock : Call → Nat) : List Processing :=
  let attempt : List Processing × Option String :=
    match outcome .findById with
    | some message => ([], some message)
    | none =>
      match stored with
      | none => ([], none)
      | some processing => runTry outcome clock tryBlock processing
  match attempt.2 with
  | none => attempt.1
  | some message =>
    match outcome .catchFindById, stored with
    | none, some processing =>
      match outcome .catchStatus with
      | none =>
        attempt.1 ++
          [updateProcessingStatus (clock .catchStatus) "failed" (some 0) (some message)
            (attempt.1.getLast?.getD processing)]
      | some _ => attempt.1
    | _, _ => attempt.1

/-- The object `req.file` that the upload middleware hands to the route. -/
structure UploadedFile where
  originalname : String
  mimetype : String
  size : Nat

/-- The `processing` sub-document of a new `Document`: the schema defaults. -/
def newProcessing : Processing :=
  { status := "pending", progress := 0, error := "", startedAt := none, completedAt := none }

/-- Handler of `POST /upload`: the status code of the response and, when the
record has been saved, the `processing` sub-document of the record on which
`processDocumentAsync` is started.  `file` is `req.file` and `save` tells how
`document.save()` settles. -/
def upload (file : Option UploadedFile) (save : Option String) : Nat × Option Processing :=
  match file with
  | none => (400, none)
  | some _ =>
    match save with
    | some _ => (500, none)
    | none => (201, some newProcessing)

/-! ## Question answering (`routes/ai.js`)

`String.prototype.toLowerCase` is a parameter `toLowerCase` of the definitions
of this section: what they compute is stated for every lower-casing function. -/

/-- The fields of a stored graph node that `findRelevantNodes` reads;
`description` is `none` when `node.properties.description` is missing. -/
structure StoredNode where
  label : List Char
  description : Option (List Char)
  deriving DecidableEq

/-- Source function `findRelevantNodes`. -/
def findRelevantNodes (toLowerCase : List Char → List Char) (nodes : List StoredNode)
    (question : List Char) : List StoredNode :=
  let questionLower := toLowerCase question
  let keywords := (splitRuns isJsSpace questionLower).filter fun word =>
    decide (jsLength word > 2)
  (nodes.filter fun node =>
    let labelLower := toLowerCase node.label
    let descLower := toLowerCase (node.description.getD [])
    keywords.any fun keyword => includes labelLower keyword || includes descLower keyword).take 5

/-- Source function `generateSimpleAnswer`. -/
def generateSimpleAnswer (toLowerCase : List Char → List Char) (question context : List Char) :
    List Char :=
  let questionLower := toLowerCase question
  let sentences := (splitOnChars isSentenceEnd context).filter fun s =>
    decide (jsLength (jsTrim s) > 10)
  let keywords := (splitRuns isJsSpace questionLower).filter fun word =>
    decide (jsLength word > 2)
  let relevantSentences := sentences.filter fun sentence =>
    let sentenceLower := toLowerCase sentence
    keywords.any fun keyword => includes sentenceLower keyword
  if relevantSentences.length > 0 then
    List.intercalate ['。'] (relevantSentences.take 3) ++ ['。']
  else "根据提供的材料无法找到相关信息。".toList

/-- Source function `generateSuggestions`. -/
def generateSuggestions : List String :=
  ["这个概念的具体定义是什么？", "能举个具体的例子吗？", "这与其他相关概念有什么区别？",
    "在实际应用中如何使用？"].take 3

/-- The object returned by `generateAnswer`. -/
structure Answer where
  answer : List Char
  confidence : ℚ
  suggestions : List String
  deriving DecidableEq

/-- Source function `generateAnswer`.  `backend` is `none` when neither API key
is set; otherwise it tells how the inner `try` block ends: `ok` holds the string
`result.result || result.answer || result`, and `error` stands for an exception
raised inside that block.  The `processWithAI` of this repository resolves with
its local fallback when both providers fail, so a failing provider ends in
`ok`.  The prompt and the conversation history only reach that call.  Nothing
else in the outer `try` block throws for strings, so the outer `catch` is not
reached. -/
def generateAnswer (toLowerCase : List Char → List Char)
    (backend : Option (Except String (List Char))) (question context : List Char) : Answer :=
  let attempt : List Char × ℚ :=
    match backend with
    | some (.ok result) => (result, 8 / 10)
    | some (.error _) => (generateSimpleAnswer toLowerCase question context, 3 / 10)
    | none => (generateSimpleAnswer toLowerCase question context, 4 / 10)
  { answer :=
      if attempt.1 ≠ [] then attempt.1 else "抱歉，无法根据提供的信息回答此问题。".toList
    confidence := attempt.2
    suggestions := generateSuggestions }

/-! ## Per-user rate limit (`middleware/auth.js`) -/

/-- The record `{ count, resetTime }` kept for a user. -/
structure UserLimit where
  count : Nat
  resetTime : Nat
  deriving DecidableEq

/-- What the middleware does with a request: it calls `next()` or answers with a
status code. -/
inductive Handled where
  | next
  | status (code : Nat)
  deriving DecidableEq

/-- The middleware returned by `rateLimitByUser(maxRequests, windowMs)`, for a
natural number `maxRequests`.  The `Map` `userRequests`, read through `has` and
`get` only, is a function from user ids to optional records; `user` is
`req.user` (its `userId`), `now` the value of `Date.now()`.  The result is the
map after the request and what was done with the request. -/
def rateLimitByUser (maxRequests windowMs : Nat) (userRequests : String → Option UserLimit)
    (user : Option String) (now : Nat) : (String → Option UserLimit) × Handled :=
  match user with
  | none => (userRequests, .next)
  | some userId =>
    match userRequests userId with
    | none =>
      (Function.update userRequests userId (some { count := 1, resetTime := now + windowMs }),
        .next)
    | some userLimit =>
      if now > userLimit.resetTime then
        (Function.update userRequests userId (some { count := 1, resetTime := now + windowMs }),
          .next)
      else if userLimit.count ≥ maxRequests then (userRequests, .status 429)
      else
        (Function.update userRequests userId (some { userLimit with count := userLimit.count + 1 }),
          .next)

/-! ## Inputs and auxiliary notions used in the statements -/

/-- A stored graph document that has become empty while its statistics still
describe three nodes joined by three edges. -/
def staleGraph : KnowledgeGraph :=
  { graph := { nodes := [], edges := [] }
    statistics :=
      { nodeCount := 3, edgeCount := 3, density := 1, averageDegree := 2,
        clusteringCoefficient := 0 } }

/-- The names of the members that a plain object inherits from
`Object.prototype` and that consist of letters only, so that `segmentText` can
return them as tokens.  For such a token `freq[word] || 0` reads the inherited
function, the table entry becomes a string and every score becomes `NaN`. -/
def inheritedKeys : List (List Char) :=
  ["constructor", "hasOwnProperty", "isPrototypeOf", "propertyIsEnumerable", "toLocaleString",
    "toString", "valueOf"].map String.toList

/-- A text with the token "constructor". -/
def inheritedKeyText : List Char := "ab constructor。c。c。c。c。c".toList

/-- Two entries of the frequency table whose scores the source computes to the
same double: the two terms have the same frequency and occur in the same number
of sentences, or each of them occurs in all sentences but one, so that both
scores are `tf * ln 1 = 0`. -/
def SameScore (sentences : List (List Char)) (ea eb : List Char × Nat) : Prop :=
  (ea.2 = eb.2 ∧ docsWithWord sentences ea.1 = docsWithWord sentences eb.1) ∨
    (docsWithWord sentences ea.1 + 1 = sentences.length ∧
      docsWithWord sentences eb.1 + 1 = sentences.length)

/-- A document of one sentence, which is also its only token. -/
def oneSentenceText : List Char := "知识图谱".toList

/-- A two-sentence document whose two terms both score 0 while their raw
frequencies differ. -/
def tieText : List Char := "图谱 节点 节点。边".toList

/-- The ranking entry of a word of the token list of `text`, as the scoring loop
of `calculateTFIDF` builds it. -/
noncomputable def rankingEntry (text : List Char) (word : List Char) : TfIdf :=
  tfidfEntry (segmentText text).length (tfidfSentences text)
    (word, (segmentText text).count word)

/-- Position at which a word is first seen in a token list (the length of the
list when it does not occur). -/
def firstIndex (w : List Char) : List (List Char) → Nat
  | [] => 0
  | x :: xs => if x = w then 0 else firstIndex w xs + 1

/-- The invariant of the `Map` that `extractConcepts` fills: keys are pairwise
distinct, and each value is stored under its own id, which is `generateId` of
its label. -/
def ConceptsInv (m : List (List Char × Node)) : Prop :=
  (m.map Prod.fst).Nodup ∧ ∀ e ∈ m, e.2.id = e.1 ∧ e.2.id = generateId e.2.label

/-- The enumeration `type.enum` of the node schema in `models/KnowledgeGraph.js`. -/
def nodeTypeEnum : List String :=
  ["concept", "topic", "definition", "example", "theory", "formula", "person", "place",
   "event"]

/-- The example scenario of the specification. -/
def exampleText : List Char :=
  "机器学习属于人工智能的一个分支。深度学习是机器学习的重要方法。".toList

/-- A document of six sentences whose only token occurs in one of them. -/
def denseText : List Char := "ab。c。c。c。c。c".toList

/-- The node `extractConcepts` builds for the keyword "ab" of `denseText`. -/
noncomputable def denseNode : Node :=
  { id := generateId "ab".toList
    label := "ab".toList
    type := classifyConceptType "ab".toList denseText
    properties := { importance := (1 : ℝ) / 1 * Real.log (6 / (1 + 1)), frequency := 1 }
    position := calculatePosition 0 1 }

/-- A document in which the rule `method` of the entity recognizer matches. -/
def methodText : List Char := "算法：梯度下降".toList

/-- The node `extractConcepts` builds for the entity "梯度下降" of `methodText`. -/
noncomputable def methodNode : Node :=
  { id := generateId "梯度下降".toList
    label := "梯度下降".toList
    type := "method"
    properties := { importance := 0.8, frequency := 1 }
    position := calculatePosition 0 30 }

/-- Two concepts, of importance 0.9 and 0.7. -/
noncomputable def sampleConcepts : List Node :=
  [ { id := "tf".toList, label := "TF".toList, type := "concept",
      properties := { importance := 0.9, frequency := 3 }, position := { x := 0, y := 0 } },
    { id := "isf".toList, label := "ISF".toList, type := "concept",
      properties := { importance := 0.7, frequency := 2 }, position := { x := 0, y := 0 } } ]

/-- A relation between the two concepts of `sampleConcepts`. -/
noncomputable def sampleRelation : Edge :=
  { id := "tf_isf".toList, fromId := "tf".toList, toId := "isf".toList,
    label := "related_to", type := "related_to", weight := 0.5,
    properties := { strength := 0.5, bidirectional := true } }

/-- The distinct words of a token list in the order in which they are first seen. -/
def firstSeen (words : List (List Char)) : List (List Char) :=
  words.foldl (fun acc w => if w ∈ acc then acc else acc ++ [w]) []

/-- The conversion `item => ({ word, weight: item.score, frequency })` of
`extractKeywords`. -/
def TfIdf.toKeyword (item : TfIdf) : Keyword :=
  { word := item.word, weight := item.score, frequency := item.frequency }

/-- The enumeration `type.enum` of the edge schema in `models/KnowledgeGraph.js`. -/
def edgeTypeEnum : List String :=
  ["related_to", "part_of", "depends_on", "similar_to", "opposite_to", "example_of",
   "leads_to"]

/-- A one-sentence document stating a `part_of` relation. -/
def relText : List Char := "机器学习属于人工智能的分支。".toList

/-- The concept "机器学习". -/
noncomputable def mlNode : Node :=
  { id := "机器学习".toList, label := "机器学习".toList, type := "concept",
    properties := { importance := 0.9, frequency := 2 }, position := { x := 0, y := 0 } }

/-- The concept "人工智能". -/
noncomputable def aiNode : Node :=
  { id := "人工智能".toList, label := "人工智能".toList, type := "concept",
    properties := { importance := 0.8, frequency := 1 }, position := { x := 0, y := 0 } }

/-- The triple `(from, to, type)` of an edge. -/
def Edge.triple (e : Edge) : List Char × List Char × String := (e.fromId, e.toId, e.type)

/-- The edge the co-occurrence pass emits for `relText` and the pair
(`mlNode`, `aiNode`). -/
noncomputable def relCoocEdge : Edge :=
  { id := generateId ("机器学习".toList ++ ['-'] ++ "人工智能".toList)
    fromId := "机器学习".toList
    toId := "人工智能".toList
    label := "part_of"
    type := "part_of"
    weight := 1
    properties := { strength := 1, bidirectional := false } }

/-- The edge the pattern pass emits for `relText` and the concepts `mlNode`,
`aiNode`. -/
noncomputable def relPatternEdge : Edge :=
  { id := generateId ("机器学习".toList ++ ['-'] ++ "人工智能".toList ++ ['-'] ++ "part_of".toList)
    fromId := "机器学习".toList
    toId := "人工智能".toList
    label := "part_of"
    type := "part_of"
    weight := 0.8
    properties := { strength := 0.8, bidirectional := false } }

/-- A sentence that contains "是一种" and "导致" but not "属于". -/
def isaSentence : List Char := "吸烟是一种导致疾病的习惯".toList

/-- The cascade of trigger tests of `calculateCooccurrence`, spelled out on an
evidence snippet given as code units. -/
def relationTypeOf (ev : List Nat) : String :=
  if includes ev (toUnits "属于".toList) || includes ev (toUnits "是一种".toList) then "part_of"
  else if includes ev (toUnits "导致".toList) || includes ev (toUnits "引起".toList) then
    "leads_to"
  else if includes ev (toUnits "依赖".toList) || includes ev (toUnits "需要".toList) then
    "depends_on"
  else if includes ev (toUnits "相似".toList) || includes ev (toUnits "类似".toList) then
    "similar_to"
  else "related_to"

/-- A document of six sentences whose only token, "12", is also matched by the
rule `number` of the entity recognizer. -/
def numberText : List Char := "12。c。c。c。c。c".toList

/-- The node `extractConcepts` builds for the keyword "12" of `numberText`. -/
noncomputable def numberNode : Node :=
  { id := "12".toList
    label := "12".toList
    type := "concept"
    properties := { importance := (1 : ℝ) / 1 * Real.log (6 / (1 + 1)), frequency := 1 }
    position := calculatePosition 0 1 }

/-- The node `addKeyword` stores for a keyword. -/
noncomputable def keywordNode (text : List Char) (total : Nat) (ik : Nat × Keyword) : Node :=
  { id := generateId ik.2.word
    label := ik.2.word
    type := classifyConceptType ik.2.word text
    properties := { importance := ik.2.weight, frequency := ik.2.frequency }
    position := calculatePosition ik.1 total }

/-- A node without its layout position. -/
def Node.core (n : Node) : List Char × List Char × String × NodeProperties :=
  (n.id, n.label, n.type, n.properties)

/-- The provider `processWithAI` tries first. -/
def primaryProvider (preferredModel : String) (random : ℚ) : Provider :=
  if prefersGemini preferredModel random then .gemini else .deepseek

/-- The other provider. -/
def Provider.other : Provider → Provider
  | .gemini => .deepseek
  | .deepseek => .gemini

/-- How a call of the given provider settles. -/
def settles {R : Type} (gemini deepseek : Except String R) : Provider → Except String R
  | .gemini => gemini
  | .deepseek => deepseek

/-- A document that entered `processing` at time 5 and has reached the checkpoint
50. -/
def runningProcessing : Processing :=
  { status := "processing", progress := 50, error := "", startedAt := some 5,
    completedAt := none }

/-- The message of the first call of the `try` block of `processDocumentAsync`
that rejects, if any. -/
def firstRejection (outcome : Call → Option String) : Option String :=
  (Call.findById :: tryBlock).findSome? outcome

/-- A run in which the text extraction rejects and every other call resolves. -/
def extractionFails : Call → Option String := fun c =>
  if c = .extractTextFromFile then some "文本提取失败: ENOENT" else none

/-- A run in which every call resolves. -/
def allResolve : Call → Option String := fun _ => none

/-- An uploaded text file of 0 bytes. -/
def emptyFile : UploadedFile :=
  { originalname := "empty.txt", mimetype := "text/plain", size := 0 }

/-- Four sentences of fifty letters each, every one closed by a full stop. -/
def fourSentences : List Char :=
  (List.replicate 4 (List.replicate 50 'a' ++ ['。'])).flatten

/-- Lower-casing of a string of ASCII characters. -/
def toLowerAscii (s : List Char) : List Char := s.map Char.toLower

/-- The keywords of a question: the pieces of the lower-cased question between
runs of white space that have more than two code units. -/
def questionKeywords (toLowerCase : List Char → List Char) (question : List Char) :
    List (List Char) :=
  (splitRuns isJsSpace (toLowerCase question)).filter fun word => decide (jsLength word > 2)

/-- A node is relevant to a question when its lower-cased label or its
lower-cased description contains a keyword of the question as a contiguous
block. -/
def Relevant (toLowerCase : List Char → List Char) (question : List Char) (node : StoredNode) :
    Prop :=
  ∃ keyword ∈ questionKeywords toLowerCase question,
    List.IsInfix keyword (toLowerCase node.label) ∨
      List.IsInfix keyword (toLowerCase (node.description.getD []))

/-- The sentences of a context that `generateSimpleAnswer` searches. -/
def contextSentences (context : List Char) : List (List Char) :=
  (splitOnChars isSentenceEnd context).filter fun s => decide (jsLength (jsTrim s) > 10)

/-- The middleware applied to a sequence of requests `(req.user, Date.now())`:
the final map and what was done with each request. -/
def serve (maxRequests windowMs : Nat) :
    (String → Option UserLimit) → List (Option String × Nat) →
      (String → Option UserLimit) × List Handled
  | userRequests, [] => (userRequests, [])
  | userRequests, request :: rest =>
    let step := rateLimitByUser maxRequests windowMs userRequests request.1 request.2
    let r := serve maxRequests windowMs step.1 rest
    (r.1, step.2 :: r.2)

/-- Six stored nodes whose labels all contain "graph", and one that does not. -/
def sampleNodes : List StoredNode :=
  [ { label := "Graph theory".toList, description := none },
    { label := "Tree".toList, description := some "A connected graph".toList },
    { label := "Set".toList, description := some "A collection".toList },
    { label := "Digraph".toList, description := none },
    { label := "Hypergraph".toList, description := none },
    { label := "Graph minor".toList, description := none },
    { label := "Subgraph".toList, description := none } ]


instance (toLowerCase : List Char → List Char) (question : List Char) :
    DecidablePred (Relevant toLowerCase question) := fun node => by
  unfold Relevant
  infer_instance

/-- A question with the keywords "what" and "entropy". -/
def entropyQuestion : List Char := "What is entropy".toList

/-- A context of one sentence that contains neither "what" nor "entropy". -/
def lightContext : List Char := "Photosynthesis converts light into chemical energy。".toList

example : segmentText "机器学习属于人工智能的一个分支。深度学习是机器学习的重要方法。".toList =
    ["机器学习属于人工智能的一个分支".toList, "深度学习是机器学习的重要方法".toList] := by decide
example : segmentText " ab  12 的 c 007 ".toList = ["ab".toList, "12".toList, "007".toList] := by
  decide
example : objectEntries (calculateWordFrequency (segmentText "ab 12 ab 7x 10".toList)) =
    [("10".toList, 1), ("12".toList, 1), ("ab".toList, 2), ("7x".toList, 1)] := by decide
example : tfidfSentences "ab。 。c！".toList = ["ab".toList, "c".toList] := by decide

example : entityMatches "教授 张三说，算法：梯度下降。E = mc2，共 12.5 个".toList =
    [("张三说".toList, "person"), ("梯度下降".toList, "method"), ("2".toList, "number"),
     ("12.5".toList, "number"), ("E = mc2".toList, "formula")] := by decide
example : entityMatches "机器学习属于人工智能的一个分支。深度学习是机器学习的重要方法。".toList = [] := by
  decide

/-! ## Graph assembly: no dangling edges (C1) -/

theorem optimizeLayout_map_id (nodes : List Node) :
    (optimizeLayout nodes).map (fun n => n.id) = nodes.map (fun n => n.id) := by
  unfold optimizeLayout
  rw [List.map_map]
  have h : ((fun n : Node => n.id) ∘ fun p : ℕ × Node =>
      { p.2 with position := calculatePosition p.1 nodes.length }) =
      (fun n : Node => n.id) ∘ Prod.snd := rfl
  rw [h, ← List.map_map, List.enum_map_snd]

theorem optimizeGraph_edges (graph : Graph) : (optimizeGraph graph).edges = graph.edges := rfl

theorem optimizeGraph_map_id (graph : Graph) :
    (optimizeGraph graph).nodes.map (fun n => n.id) =
      (graph.nodes.filter fun node =>
        decide (node.id ∈ graph.edges.flatMap fun edge => [edge.fromId, edge.toId]) ||
          decide (node.properties.importance > 0.8)).map (fun n => n.id) := by
  unfold optimizeGraph mergeSimilarNodes
  exact optimizeLayout_map_id _

theorem endpoint_survives (graph : Graph) (i : List Char)
    (hi : i ∈ graph.nodes.map (fun n => n.id))
    (hc : i ∈ graph.edges.flatMap fun edge => [edge.fromId, edge.toId]) :
    i ∈ (optimizeGraph graph).nodes.map (fun n => n.id) := by
  rw [optimizeGraph_map_id]
  obtain ⟨n, hn, rfl⟩ := List.mem_map.1 hi
  refine List.mem_map.2 ⟨n, List.mem_filter.2 ⟨hn, ?_⟩, rfl⟩
  simp only [Bool.or_eq_true, decide_eq_true_eq]
  exact Or.inl hc

/-- C1: the graph `optimizeGraph (constructGraph concepts relations ...)` has no
dangling edge: the `from` and the `to` of each of its edges are ids of its nodes. -/
theorem C1_no_dangling_edges (concepts : List Node) (relations : List Edge) (maxNodes : Nat)
    (minConfidence : ℝ) :
    ∀ e ∈ (optimizeGraph (constructGraph concepts relations maxNodes minConfidence)).edges,
      e.fromId ∈ (optimizeGraph (constructGraph concepts relations maxNodes
          minConfidence)).nodes.map (fun n => n.id) ∧
      e.toId ∈ (optimizeGraph (constructGraph concepts relations maxNodes
          minConfidence)).nodes.map (fun n => n.id) := by
  intro e he
  rw [optimizeGraph_edges] at he
  have hk : e.fromId ∈ (constructGraph concepts relations maxNodes minConfidence).nodes.map
      (fun n => n.id) ∧ e.toId ∈ (constructGraph concepts relations maxNodes
      minConfidence).nodes.map (fun n => n.id) := by
    have h := (List.mem_filter.1 he).2
    simp only [Bool.and_eq_true, decide_eq_true_eq] at h
    exact h
  constructor
  · refine endpoint_survives _ _ hk.1 (List.mem_flatMap.2 ⟨e, he, ?_⟩)
    simp
  · refine endpoint_survives _ _ hk.2 (List.mem_flatMap.2 ⟨e, he, ?_⟩)
    simp

/-- C1 at a concrete input: the edge between the two sample concepts is kept, and
both of its endpoints are ids of nodes of the resulting graph. -/
theorem C1_no_dangling_edges_witness :
    sampleRelation.fromId ∈ (optimizeGraph (constructGraph sampleConcepts [sampleRelation] 10
        0.6)).nodes.map (fun n => n.id) ∧
      sampleRelation.toId ∈ (optimizeGraph (constructGraph sampleConcepts [sampleRelation] 10
        0.6)).nodes.map (fun n => n.id) := by
  refine C1_no_dangling_edges sampleConcepts [sampleRelation] 10 0.6 sampleRelation ?_
  rw [optimizeGraph_edges]
  have hfil : sampleConcepts.filter (fun concept : Node =>
      decide (concept.properties.importance ≥ 0.6)) = sampleConcepts := by
    rw [List.filter_eq_self]
    intro a ha
    simp only [sampleConcepts, List.mem_cons, List.mem_singleton, List.not_mem_nil,
      or_false] at ha
    rcases ha with rfl | rfl <;> simp only [decide_eq_true_eq] <;> norm_num
  unfold constructGraph
  dsimp only
  rw [hfil]
  refine List.mem_filter.2 ⟨List.mem_cons_self _ _, ?_⟩
  decide

/-! ## Stored density (C2) -/

/-- C2, as stated, fails: for a document with no node left and a stored density of
1, the density stored after `updateStatistics` is still 1 and not 0. -/
theorem C2_stale_density :
    (updateStatistics staleGraph).graph.nodes.length ≤ 1 ∧
      (updateStatistics staleGraph).statistics.density = 1 ∧
      (updateStatistics staleGraph).statistics.density ≠ 0 := by
  decide

/-- C2, amended: after `updateStatistics` the stored density is
`edgeCount / (n (n - 1) / 2)` when `n > 1`, and is the density stored before when
`n <= 1` (hence 0 when the stored density was the default 0). -/
theorem C2_density (kg : KnowledgeGraph) :
    (1 < kg.graph.nodes.length →
      (updateStatistics kg).statistics.density =
        (kg.graph.edges.length : ℚ) /
          ((kg.graph.nodes.length : ℚ) * ((kg.graph.nodes.length : ℚ) - 1) / 2)) ∧
    (kg.graph.nodes.length ≤ 1 →
      (updateStatistics kg).statistics.density = kg.statistics.density) ∧
    (kg.graph.nodes.length ≤ 1 → kg.statistics.density = 0 →
      (updateStatistics kg).statistics.density = 0) ∧
    (updateStatistics kg).statistics.nodeCount = kg.graph.nodes.length ∧
    (updateStatistics kg).statistics.edgeCount = kg.graph.edges.length := by
  refine ⟨fun h => ?_, fun h => ?_, fun h h0 => ?_, rfl, rfl⟩
  · simp [updateStatistics, h]
  · simp [updateStatistics, Nat.not_lt.2 h]
  · simp [updateStatistics, Nat.not_lt.2 h, h0]

/-! ## Segmentation (C6) -/

theorem keep_not_space {c : Char} (h : (isCJK c || isAsciiAlnum c) = true) :
    isJsSpace c = false ∧ c.toNat < 0x10000 := by
  simp only [isCJK, isAsciiAlnum, isJsSpace, Bool.or_eq_true, Bool.and_eq_true,
    decide_eq_true_eq] at h
  have e1 : 'a'.toNat = 97 := by decide
  have e2 : 'z'.toNat = 122 := by decide
  have e3 : 'A'.toNat = 65 := by decide
  have e4 : 'Z'.toNat = 90 := by decide
  have e5 : '0'.toNat = 48 := by decide
  have e6 : '9'.toNat = 57 := by decide
  rw [e1, e2, e3, e4, e5, e6] at h
  refine ⟨?_, by omega⟩
  simp only [isJsSpace, Bool.or_eq_false_iff, Bool.and_eq_false_iff, decide_eq_false_iff_not]
  omega

theorem keep_not_sentenceEnd {c : Char} (h : (isCJK c || isAsciiAlnum c) = true) :
    isSentenceEnd c = false := by
  by_contra hc
  simp only [isSentenceEnd, Bool.not_eq_false, Bool.or_eq_true, beq_iff_eq] at hc
  rcases hc with (rfl | rfl) | rfl <;> exact absurd h (by decide)

theorem mem_consHead {c : Char} {L : List (List Char)} {piece : List Char}
    (h : piece ∈ consHead c L) :
    (∃ p, piece = c :: p ∧ (p ∈ L ∨ p = [])) ∨ piece ∈ L := by
  cases L with
  | nil =>
    simp only [consHead, List.mem_singleton] at h
    exact Or.inl ⟨[], h, Or.inr rfl⟩
  | cons p ps =>
    simp only [consHead, List.mem_cons] at h
    rcases h with h | h
    · exact Or.inl ⟨p, h, Or.inl (List.mem_cons_self _ _)⟩
    · exact Or.inr (List.mem_cons_of_mem _ h)

theorem splitRunsAux_chars (sep : Char → Bool) :
    ∀ (s : List Char) (b : Bool) (piece : List Char), piece ∈ splitRunsAux sep b s →
      ∀ d ∈ piece, d ∈ s ∧ sep d = false := by
  intro s
  induction s with
  | nil =>
    intro b piece h d hd
    simp only [splitRunsAux, List.mem_singleton] at h
    subst h
    cases hd
  | cons c cs ih =>
    intro b piece h d hd
    by_cases hs : sep c = true
    · have h' : piece = [] ∨ piece ∈ splitRunsAux sep true cs := by
        cases b
        · simpa [splitRunsAux, hs] using h
        · exact Or.inr (by simpa [splitRunsAux, hs] using h)
      rcases h' with h' | h'
      · subst h'
        cases hd
      · exact ⟨List.mem_cons_of_mem _ (ih _ _ h' d hd).1, (ih _ _ h' d hd).2⟩
    · have hs' : sep c = false := by simpa using hs
      simp only [splitRunsAux, hs', Bool.false_eq_true, if_false] at h
      rcases mem_consHead h with ⟨p, rfl, hp⟩ | h'
      · rcases List.mem_cons.1 hd with rfl | hd'
        · exact ⟨List.mem_cons_self _ _, hs'⟩
        · rcases hp with hp | rfl
          · exact ⟨List.mem_cons_of_mem _ (ih _ _ hp d hd').1, (ih _ _ hp d hd').2⟩
          · cases hd'
      · exact ⟨List.mem_cons_of_mem _ (ih _ _ h' d hd).1, (ih _ _ h' d hd).2⟩

theorem mem_cleanText {text : List Char} {c : Char} (h : c ∈ cleanText text) :
    c = ' ' ∨ (c ∈ text ∧ (isCJK c || isAsciiAlnum c) = true) := by
  obtain ⟨x, hx, hc⟩ := List.mem_flatMap.1 h
  by_cases hk : (isCJK x || isAsciiAlnum x) = true
  · rw [if_pos hk, List.mem_singleton] at hc
    subst hc
    exact Or.inr ⟨hx, hk⟩
  · rw [if_neg hk] at hc
    left
    split at hc
    · simpa using hc
    · simpa using hc

theorem segmentText_chars {text : List Char} {w : List Char} (hw : w ∈ segmentText text) :
    ∀ c ∈ w, c ∈ text ∧ (isCJK c || isAsciiAlnum c) = true := by
  intro c hc
  have hp := (List.mem_filter.1 hw).1
  obtain ⟨hin, hsep⟩ := splitRunsAux_chars isJsSpace _ _ _ hp c hc
  rcases mem_cleanText hin with rfl | h
  · exact absurd hsep (by decide)
  · exact h

theorem jsLength_eq_length {w : List Char} (h : ∀ c ∈ w, c.toNat < 0x10000) :
    jsLength w = w.length := by
  induction w with
  | nil => rfl
  | cons c cs ih =>
    have hc := h c (List.mem_cons_self _ _)
    have := ih fun d hd => h d (List.mem_cons_of_mem _ hd)
    simp only [jsLength, List.map_cons, List.sum_cons, List.length_cons] at this ⊢
    rw [this, if_pos hc]
    omega

theorem segmentText_spec {text : List Char} {w : List Char} (hw : w ∈ segmentText text) :
    1 < jsLength w ∧ 1 < w.length ∧ isStopWord w = false ∧ w ∉ stopWords ∧
      ∀ c ∈ w, isCJK c = true ∨ isAsciiAlnum c = true := by
  have hf := (List.mem_filter.1 hw).2
  simp only [Bool.and_eq_true, decide_eq_true_eq, Bool.not_eq_true'] at hf
  have hch := segmentText_chars hw
  have hlen : jsLength w = w.length :=
    jsLength_eq_length fun c hc => (keep_not_space (hch c hc).2).2
  refine ⟨hf.1, hlen ▸ hf.1, hf.2, ?_, fun c hc => ?_⟩
  · intro hmem
    have : isStopWord w = true := by
      simp only [isStopWord, List.contains_eq_any_beq, List.any_eq_true, beq_iff_eq]
      exact ⟨w, hmem, rfl⟩
    rw [hf.2] at this
    cases this
  · simpa using (hch c hc).2

/-! ## Frequency table and ranking: membership -/

theorem calculateWordFrequency_append (ws : List (List Char)) (w : List Char) :
    calculateWordFrequency (ws ++ [w]) = bumpFrequency w (calculateWordFrequency ws) := by
  simp [calculateWordFrequency, List.foldl_append]

theorem firstSeen_append (ws : List (List Char)) (w : List Char) :
    firstSeen (ws ++ [w]) = if w ∈ firstSeen ws then firstSeen ws else firstSeen ws ++ [w] := by
  simp [firstSeen, List.foldl_append]

theorem bumpFrequency_map_of_not_mem (f : List Char → Nat) (w : List Char) :
    ∀ L : List (List Char), w ∉ L →
      bumpFrequency w (L.map fun k => (k, f k)) = (L.map fun k => (k, f k)) ++ [(w, 1)] := by
  intro L
  induction L with
  | nil => intro _; rfl
  | cons k L ih =>
    intro h
    have hk : k ≠ w := fun e => h (e ▸ List.mem_cons_self _ _)
    have hL : w ∉ L := fun e => h (List.mem_cons_of_mem _ e)
    simp only [List.map_cons, bumpFrequency, if_neg hk, ih hL, List.cons_append]

theorem bumpFrequency_map_of_mem (f : List Char → Nat) (w : List Char) :
    ∀ L : List (List Char), L.Nodup → w ∈ L →
      bumpFrequency w (L.map fun k => (k, f k)) =
        L.map fun k => (k, if k = w then f k + 1 else f k) := by
  intro L
  induction L with
  | nil => intro _ h; cases h
  | cons k L ih =>
    intro hnd h
    have hkL : k ∉ L := (List.nodup_cons.1 hnd).1
    by_cases hk : k = w
    · subst hk
      simp only [List.map_cons, bumpFrequency, if_true]
      congr 1
      refine List.map_congr_left fun x hx => ?_
      have : x ≠ k := fun e => hkL (e ▸ hx)
      rw [if_neg this]
    · have hL : w ∈ L := by
        rcases List.mem_cons.1 h with e | e
        · exact absurd e.symm hk
        · exact e
      simp only [List.map_cons, bumpFrequency, if_neg hk, ih (List.nodup_cons.1 hnd).2 hL]

theorem firstSeen_spec (ws : List (List Char)) :
    (firstSeen ws).Nodup ∧ (∀ k, k ∈ firstSeen ws ↔ k ∈ ws) ∧
      calculateWordFrequency ws = (firstSeen ws).map fun k => (k, ws.count k) := by
  induction ws using List.reverseRecOn with
  | nil => exact ⟨List.nodup_nil, fun k => Iff.rfl, rfl⟩
  | append_singleton ws w ih =>
    obtain ⟨hnd, hmem, htab⟩ := ih
    rw [firstSeen_append, calculateWordFrequency_append, htab]
    by_cases hw : w ∈ firstSeen ws
    · rw [if_pos hw, bumpFrequency_map_of_mem _ _ _ hnd hw]
      refine ⟨hnd, fun k => ?_, ?_⟩
      · rw [hmem, List.mem_append, List.mem_singleton]
        constructor
        · exact Or.inl
        · rintro (h | rfl)
          · exact h
          · exact (hmem _).1 hw
      · refine List.map_congr_left fun k _ => ?_
        by_cases hk : k = w
        · subst hk
          simp
        · have hk' : w ≠ k := fun e => hk e.symm
          simp [hk, hk', List.count_cons]
    · rw [if_neg hw, bumpFrequency_map_of_not_mem _ _ _ hw]
      have hws : w ∉ ws := fun h => hw ((hmem _).2 h)
      refine ⟨?_, fun k => ?_, ?_⟩
      · exact List.Nodup.append hnd (List.nodup_singleton _) (by simpa using hw)
      · simp only [List.mem_append, List.mem_singleton, hmem]
      · rw [List.map_append]
        congr 1
        · refine List.map_congr_left fun k hk => ?_
          have hk' : w ≠ k := fun e => hw (e ▸ hk)
          simp [hk', List.count_cons]
        · simp [List.count_eq_zero_of_not_mem hws]

theorem mem_calculateWordFrequency {ws : List (List Char)} {e : List Char × Nat}
    (h : e ∈ calculateWordFrequency ws) : e.1 ∈ ws ∧ e.2 = ws.count e.1 ∧ 0 < e.2 := by
  obtain ⟨_, hmem, htab⟩ := firstSeen_spec ws
  rw [htab] at h
  obtain ⟨k, hk, rfl⟩ := List.mem_map.1 h
  have hk' := (hmem k).1 hk
  exact ⟨hk', rfl, List.count_pos_iff.2 hk'⟩

theorem sum_bumpFrequency (w : List Char) (t : List (List Char × Nat)) :
    ((bumpFrequency w t).map Prod.snd).sum = (t.map Prod.snd).sum + 1 := by
  induction t with
  | nil => rfl
  | cons e t ih =>
    obtain ⟨k, n⟩ := e
    by_cases hk : k = w
    · simp only [bumpFrequency, if_pos hk, List.map_cons, List.sum_cons]
      omega
    · simp only [bumpFrequency, if_neg hk, List.map_cons, List.sum_cons, ih]
      omega

theorem sum_calculateWordFrequency (ws : List (List Char)) :
    ((calculateWordFrequency ws).map Prod.snd).sum = ws.length := by
  induction ws using List.reverseRecOn with
  | nil => rfl
  | append_singleton ws w ih =>
    rw [calculateWordFrequency_append, sum_bumpFrequency, ih, List.length_append,
      List.length_singleton]

theorem mem_objectEntries {obj : List (List Char × Nat)} {e : List Char × Nat} :
    e ∈ objectEntries obj ↔ e ∈ obj := by
  unfold objectEntries
  rw [List.mem_append, List.mem_insertionSort, List.mem_filter, List.mem_filter]
  cases isArrayIndex e.1 <;> simp

theorem mem_calculateTFIDF {wordFreq : List (List Char × Nat)} {text : List Char}
    {item : TfIdf} :
    item ∈ calculateTFIDF wordFreq text ↔
      ∃ e ∈ wordFreq,
        item = tfidfEntry (wordFreq.map Prod.snd).sum (tfidfSentences text) e := by
  unfold calculateTFIDF
  simp only [List.mem_insertionSort, List.mem_map, mem_objectEntries]
  constructor
  · rintro ⟨e, he, rfl⟩
    exact ⟨e, he, rfl⟩
  · rintro ⟨e, he, rfl⟩
    exact ⟨e, he, rfl⟩

theorem extractKeywords_eq (text : List Char) (n : Nat) :
    extractKeywords text n =
      ((calculateTFIDF (calculateWordFrequency (segmentText text)) text).take n).map
        TfIdf.toKeyword := rfl

theorem mem_extractKeywords {text : List Char} {n : Nat} {k : Keyword}
    (h : k ∈ extractKeywords text n) :
    ∃ e ∈ calculateWordFrequency (segmentText text),
      k = (tfidfEntry (segmentText text).length (tfidfSentences text) e).toKeyword := by
  rw [extractKeywords_eq] at h
  obtain ⟨item, hitem, rfl⟩ := List.mem_map.1 h
  obtain ⟨e, he, rfl⟩ := mem_calculateTFIDF.1 (List.mem_of_mem_take hitem)
  rw [sum_calculateWordFrequency]
  exact ⟨e, he, rfl⟩

/-- C6: every token returned by `segmentText`, and so every term the keyword
ranker scores, has length greater than 1, is not in the stop-word list of
`isStopWord`, and consists of CJK (U+4E00..U+9FA5) and ASCII alphanumeric
characters only. -/
theorem C6_tokens (text : List Char) :
    (∀ w ∈ segmentText text,
      1 < jsLength w ∧ 1 < w.length ∧ isStopWord w = false ∧ w ∉ stopWords ∧
        ∀ c ∈ w, isCJK c = true ∨ isAsciiAlnum c = true) ∧
    (∀ item ∈ calculateTFIDF (calculateWordFrequency (segmentText text)) text,
      item.word ∈ segmentText text) ∧
    (∀ n, ∀ k ∈ extractKeywords text n,
      1 < jsLength k.word ∧ 1 < k.word.length ∧ isStopWord k.word = false ∧
        k.word ∉ stopWords ∧ ∀ c ∈ k.word, isCJK c = true ∨ isAsciiAlnum c = true) := by
  refine ⟨fun w hw => segmentText_spec hw, fun item hitem => ?_, fun n k hk => ?_⟩
  · obtain ⟨e, he, rfl⟩ := mem_calculateTFIDF.1 hitem
    exact (mem_calculateWordFrequency he).1
  · obtain ⟨e, he, rfl⟩ := mem_extractKeywords hk
    exact segmentText_spec (mem_calculateWordFrequency he).1

/-! ## Sign of the keyword weights (C3) -/

theorem mem_dropWhile_of_not {p : Char → Bool} {c : Char} :
    ∀ {l : List Char}, c ∈ l → p c = false → c ∈ l.dropWhile p := by
  intro l
  induction l with
  | nil => intro h _; cases h
  | cons x xs ih =>
    intro h hp
    by_cases hx : p x = true
    · rw [List.dropWhile_cons_of_pos hx]
      rcases List.mem_cons.1 h with rfl | h'
      · rw [hp] at hx
        cases hx
      · exact ih h' hp
    · rw [List.dropWhile_cons_of_neg hx]
      exact h

theorem jsTrim_ne_nil {s : List Char} {c : Char} (hc : c ∈ s) (hns : isJsSpace c = false) :
    jsTrim s ≠ [] := by
  have h1 : c ∈ s.dropWhile isJsSpace := mem_dropWhile_of_not hc hns
  have h2 : c ∈ ((s.dropWhile isJsSpace).reverse.dropWhile isJsSpace) :=
    mem_dropWhile_of_not (List.mem_reverse.2 h1) hns
  have h3 : c ∈ jsTrim s := List.mem_reverse.2 h2
  exact List.ne_nil_of_mem h3

theorem jsLength_pos {s : List Char} (h : s ≠ []) : 0 < jsLength s := by
  cases s with
  | nil => exact absurd rfl h
  | cons c cs =>
    simp only [jsLength, List.map_cons, List.sum_cons]
    split <;> omega

theorem mem_consHead_of_mem {c : Char} {L : List (List Char)} {piece : List Char}
    (h : piece ∈ L) : ∃ piece' ∈ consHead c L, ∀ d ∈ piece, d ∈ piece' := by
  cases L with
  | nil => cases h
  | cons p ps =>
    rcases List.mem_cons.1 h with rfl | h'
    · exact ⟨c :: piece, List.mem_cons_self _ _, fun d hd => List.mem_cons_of_mem _ hd⟩
    · exact ⟨piece, List.mem_cons_of_mem _ h', fun d hd => hd⟩

theorem head_consHead (c : Char) (L : List (List Char)) : ∃ piece ∈ consHead c L, c ∈ piece := by
  cases L with
  | nil => exact ⟨[c], List.mem_cons_self _ _, List.mem_cons_self _ _⟩
  | cons p ps => exact ⟨c :: p, List.mem_cons_self _ _, List.mem_cons_self _ _⟩

theorem splitOnChars_cover (sep : Char → Bool) :
    ∀ (s : List Char) (c : Char), c ∈ s → sep c = false →
      ∃ piece ∈ splitOnChars sep s, c ∈ piece := by
  intro s
  induction s with
  | nil => intro c h; cases h
  | cons x xs ih =>
    intro c hc hs
    by_cases hx : sep x = true
    · simp only [splitOnChars, hx, if_true]
      rcases List.mem_cons.1 hc with rfl | hc'
      · rw [hs] at hx
        cases hx
      · obtain ⟨piece, hp, hcp⟩ := ih c hc' hs
        exact ⟨piece, List.mem_cons_of_mem _ hp, hcp⟩
    · simp only [splitOnChars, hx, if_false]
      rcases List.mem_cons.1 hc with rfl | hc'
      · exact head_consHead _ _
      · obtain ⟨piece, hp, hcp⟩ := ih c hc' hs
        obtain ⟨piece', hp', hsub⟩ := mem_consHead_of_mem (c := x) hp
        exact ⟨piece', hp', hsub c hcp⟩

theorem tfidfSentences_pos {text : List Char} {w : List Char} (hw : w ∈ segmentText text) :
    0 < (tfidfSentences text).length := by
  have hlen := (segmentText_spec hw).2.1
  obtain ⟨c, hc⟩ : ∃ c, c ∈ w := by
    cases w with
    | nil => simp at hlen
    | cons c cs => exact ⟨c, List.mem_cons_self _ _⟩
  obtain ⟨hct, hkeep⟩ := segmentText_chars hw c hc
  obtain ⟨piece, hp, hcp⟩ := splitOnChars_cover isSentenceEnd text c hct
    (keep_not_sentenceEnd hkeep)
  have hmem : piece ∈ tfidfSentences text := by
    refine List.mem_filter.2 ⟨hp, ?_⟩
    simp only [decide_eq_true_eq]
    exact jsLength_pos (jsTrim_ne_nil hcp (keep_not_space hkeep).1)
  exact List.length_pos_of_mem hmem

/-- C3, as stated, fails: the only keyword of the one-sentence document
"知识图谱" has weight `1/1 * ln (1 / (1 + 1))`, which is negative; the source
applies no clamping. -/
theorem C3_negative_weight : ∃ k ∈ extractKeywords oneSentenceText 20, k.weight < 0 := by
  have h1 : calculateWordFrequency (segmentText oneSentenceText) = [(oneSentenceText, 1)] := by
    decide
  have h2 : tfidfSentences oneSentenceText = [oneSentenceText] := by decide
  have h3 : docsWithWord [oneSentenceText] oneSentenceText = 1 := by decide
  have h4 : objectEntries [(oneSentenceText, 1)] = [(oneSentenceText, 1)] := by decide
  refine ⟨⟨oneSentenceText, (1 : ℝ) / 1 * Real.log (1 / (1 + 1)), 1⟩, ?_, ?_⟩
  · rw [extractKeywords_eq, h1]
    unfold calculateTFIDF
    rw [h2, h4]
    simp [tfidfEntry, h3, TfIdf.toKeyword]
  · have : Real.log (1 / (1 + 1)) < 0 := Real.log_neg (by norm_num) (by norm_num)
    simpa using this

/-- C3, amended: for a text none of whose tokens names a member inherited from
`Object.prototype`, a keyword returned by `extractKeywords` has a non-negative
weight exactly when its term is missing from at least one sentence of the text,
that is when `docsWithWord + 1 <= sentences.length`; no clamping is applied, so
a term that occurs in every sentence has a negative weight. -/
theorem C3_weight_sign (text : List Char) (n : Nat) :
    (∀ w ∈ segmentText text, w ∉ inheritedKeys) →
    ∀ k ∈ extractKeywords text n,
      (0 ≤ k.weight ↔
        docsWithWord (tfidfSentences text) k.word + 1 ≤ (tfidfSentences text).length) := by
  intro _ k hk
  obtain ⟨e, he, rfl⟩ := mem_extractKeywords hk
  obtain ⟨hmem, _, hpos⟩ := mem_calculateWordFrequency he
  have hT : 0 < (segmentText text).length := List.length_pos_of_mem hmem
  have hS : 0 < (tfidfSentences text).length := tfidfSentences_pos hmem
  have htf : (0 : ℝ) < (e.2 : ℝ) / ((segmentText text).length : ℝ) :=
    div_pos (by exact_mod_cast hpos) (by exact_mod_cast hT)
  have hd : (0 : ℝ) < (docsWithWord (tfidfSentences text) e.1 : ℝ) + 1 := by positivity
  have hx : (0 : ℝ) < ((tfidfSentences text).length : ℝ) /
      ((docsWithWord (tfidfSentences text) e.1 : ℝ) + 1) :=
    div_pos (by exact_mod_cast hS) hd
  show 0 ≤ (e.2 : ℝ) / ((segmentText text).length : ℝ) *
      Real.log (((tfidfSentences text).length : ℝ) /
        ((docsWithWord (tfidfSentences text) e.1 : ℝ) + 1)) ↔ _
  rw [mul_nonneg_iff_of_pos_left htf, Real.log_nonneg_iff hx, one_le_div hd]
  constructor
  · intro h
    exact_mod_cast h
  · intro h
    exact_mod_cast h

/-! ## Order of the ranking (C4, C5) -/

instance : IsTotal TfIdf scoreDesc := ⟨fun a b => le_total b.score a.score⟩

instance : IsTrans TfIdf scoreDesc := ⟨fun _ _ _ hab hbc => le_trans hbc hab⟩

theorem tfidfEntry_score (totalWords : Nat) (sentences : List (List Char))
    (e : List Char × Nat) :
    (tfidfEntry totalWords sentences e).score =
      (e.2 : ℝ) / (totalWords : ℝ) *
        Real.log ((sentences.length : ℝ) / ((docsWithWord sentences e.1 : ℝ) + 1)) := rfl

theorem calculateTFIDF_sorted (wordFreq : List (List Char × Nat)) (text : List Char) :
    (calculateTFIDF wordFreq text).Sorted scoreDesc :=
  List.sorted_insertionSort scoreDesc _

/-- The text "ab constructor。c。c。c。c。c" has the token "constructor", which is
an inherited key: the statements about weights do not cover it. -/
theorem inheritedKeyText_token :
    "constructor".toList ∈ segmentText inheritedKeyText ∧
      "constructor".toList ∈ inheritedKeys := by
  decide

/-- C4, for texts none of whose tokens names a member inherited from
`Object.prototype`: the list returned by `extractKeywords text n` is ordered by
weight descending, it is the first `min n total` entries of the ranking
computed by `calculateTFIDF`, and it has at most `n` entries. -/
theorem C4_ranked_prefix (text : List Char) (n : Nat) :
    (∀ w ∈ segmentText text, w ∉ inheritedKeys) →
    (extractKeywords text n).Pairwise (fun a b => b.weight ≤ a.weight) ∧
    (extractKeywords text n).Chain' (fun a b => b.weight ≤ a.weight) ∧
    extractKeywords text n =
      ((calculateTFIDF (calculateWordFrequency (segmentText text)) text).take
        (min n (calculateTFIDF (calculateWordFrequency (segmentText text)) text).length)).map
        TfIdf.toKeyword ∧
    (extractKeywords text n).length =
      min n (calculateTFIDF (calculateWordFrequency (segmentText text)) text).length ∧
    (extractKeywords text n).length ≤ n := by
  intro _
  have hs : (extractKeywords text n).Pairwise (fun a b => b.weight ≤ a.weight) := by
    rw [extractKeywords_eq, List.pairwise_map]
    exact (calculateTFIDF_sorted _ text).sublist (List.take_sublist _ _)
  have hl : (extractKeywords text n).length =
      min n (calculateTFIDF (calculateWordFrequency (segmentText text)) text).length := by
    rw [extractKeywords_eq, List.length_map, List.length_take]
  refine ⟨hs, hs.chain', ?_, hl, hl ▸ Nat.min_le_left _ _⟩
  rw [extractKeywords_eq]
  congr 1
  rcases Nat.le_total n (calculateTFIDF (calculateWordFrequency (segmentText text)) text).length
    with h | h
  · rw [Nat.min_eq_left h]
  · rw [Nat.min_eq_right h, List.take_of_length_le h, List.take_length]

/-- C4 at "图谱 节点 节点。边" with `n = 1`: no token is an inherited key, and the
one keyword returned is the first entry of the ranking. -/
theorem C4_ranked_prefix_witness :
    (∀ w ∈ segmentText tieText, w ∉ inheritedKeys) ∧
    ((extractKeywords tieText 1).Pairwise (fun a b => b.weight ≤ a.weight) ∧
    (extractKeywords tieText 1).Chain' (fun a b => b.weight ≤ a.weight) ∧
    extractKeywords tieText 1 =
      ((calculateTFIDF (calculateWordFrequency (segmentText tieText)) tieText).take
        (min 1 (calculateTFIDF (calculateWordFrequency (segmentText tieText)) tieText).length)).map
        TfIdf.toKeyword ∧
    (extractKeywords tieText 1).length =
      min 1 (calculateTFIDF (calculateWordFrequency (segmentText tieText)) tieText).length ∧
    (extractKeywords tieText 1).length ≤ 1) :=
  ⟨by decide, C4_ranked_prefix tieText 1 (by decide)⟩

theorem firstIndex_le_length (a : List Char) (l : List (List Char)) :
    firstIndex a l ≤ l.length := by
  induction l with
  | nil => exact Nat.le_refl _
  | cons x xs ih =>
    simp only [firstIndex, List.length_cons]
    split <;> omega

theorem firstIndex_append_of_mem {a : List Char} {l₁ : List (List Char)} (l₂ : List (List Char))
    (h : a ∈ l₁) : firstIndex a (l₁ ++ l₂) = firstIndex a l₁ := by
  induction l₁ with
  | nil => cases h
  | cons x xs ih =>
    by_cases hx : x = a
    · simp [firstIndex, hx]
    · have h' : a ∈ xs := by
        rcases List.mem_cons.1 h with e | e
        · exact absurd e.symm hx
        · exact e
      simp [firstIndex, hx, ih h']

theorem firstIndex_append_of_not_mem {a : List Char} {l₁ : List (List Char)}
    (l₂ : List (List Char)) (h : a ∉ l₁) :
    firstIndex a (l₁ ++ l₂) = l₁.length + firstIndex a l₂ := by
  induction l₁ with
  | nil => simp
  | cons x xs ih =>
    have hx : x ≠ a := fun e => h (e ▸ List.mem_cons_self _ _)
    have h' : a ∉ xs := fun e => h (List.mem_cons_of_mem _ e)
    show (if x = a then 0 else firstIndex a (xs ++ l₂) + 1) = _
    rw [if_neg hx, ih h', List.length_cons]
    omega

theorem pair_sublist_firstSeen (ws : List (List Char)) (a b : List Char) :
    b ∈ ws → firstIndex a ws < firstIndex b ws → List.Sublist [a, b] (firstSeen ws) := by
  induction ws using List.reverseRecOn with
  | nil => intro h; cases h
  | append_singleton ws w ih =>
    intro hb hlt
    have hsub : List.Sublist (firstSeen ws) (firstSeen (ws ++ [w])) := by
      rw [firstSeen_append]
      split
      · exact List.Sublist.refl _
      · exact List.sublist_append_left _ _
    have hmem := (firstSeen_spec ws).2.1
    by_cases ha : a ∈ ws
    · rw [firstIndex_append_of_mem _ ha] at hlt
      by_cases hb' : b ∈ ws
      · rw [firstIndex_append_of_mem _ hb'] at hlt
        exact (ih hb' hlt).trans hsub
      · have hbw : b = w := by
          rcases List.mem_append.1 hb with h | h
          · exact absurd h hb'
          · exact List.mem_singleton.1 h
        subst hbw
        have hnot : b ∉ firstSeen ws := fun h => hb' ((hmem _).1 h)
        rw [firstSeen_append, if_neg hnot]
        have h1 : List.Sublist [a] (firstSeen ws) := List.singleton_sublist.2 ((hmem _).2 ha)
        exact h1.append (List.Sublist.refl [b])
    · rw [firstIndex_append_of_not_mem _ ha] at hlt
      have hle : firstIndex b (ws ++ [w]) ≤ ws.length := by
        by_cases hb' : b ∈ ws
        · rw [firstIndex_append_of_mem _ hb']
          exact firstIndex_le_length _ _
        · have hbw : b = w := by
            rcases List.mem_append.1 hb with h | h
            · exact absurd h hb'
            · exact List.mem_singleton.1 h
          subst hbw
          rw [firstIndex_append_of_not_mem _ hb']
          simp [firstIndex]
      omega

theorem pair_sublist_objectEntries (ws : List (List Char)) (a b : List Char)
    (hb : b ∈ ws) (hia : isArrayIndex a = false) (hib : isArrayIndex b = false)
    (hlt : firstIndex a ws < firstIndex b ws) :
    List.Sublist [(a, ws.count a), (b, ws.count b)]
      (objectEntries (calculateWordFrequency ws)) := by
  have h1 : List.Sublist [(a, ws.count a), (b, ws.count b)] (calculateWordFrequency ws) := by
    rw [(firstSeen_spec ws).2.2]
    exact (pair_sublist_firstSeen ws a b hb hlt).map fun k => (k, ws.count k)
  have h2 := h1.filter fun e : List Char × Nat => !isArrayIndex e.1
  simp only [List.filter_cons, hia, hib, Bool.not_false, if_true, List.filter_nil] at h2
  exact h2.trans (List.sublist_append_right _ _)

theorem tieText_ranking :
    calculateTFIDF (calculateWordFrequency (segmentText tieText)) tieText =
      [tfidfEntry 3 ["图谱 节点 节点".toList, "边".toList] ("图谱".toList, 1),
        tfidfEntry 3 ["图谱 节点 节点".toList, "边".toList] ("节点".toList, 2)] := by
  have h1 : calculateWordFrequency (segmentText tieText) =
      [("图谱".toList, 1), ("节点".toList, 2)] := by decide
  have h2 : tfidfSentences tieText = ["图谱 节点 节点".toList, "边".toList] := by decide
  have h3 : docsWithWord ["图谱 节点 节点".toList, "边".toList] "图谱".toList = 1 := by decide
  have h4 : docsWithWord ["图谱 节点 节点".toList, "边".toList] "节点".toList = 1 := by decide
  have h5 : objectEntries [("图谱".toList, 1), ("节点".toList, 2)] =
      [("图谱".toList, 1), ("节点".toList, 2)] := by decide
  rw [h1]
  unfold calculateTFIDF
  rw [h2, h5]
  have hsum : (List.map Prod.snd [("图谱".toList, 1), ("节点".toList, 2)]).sum = 3 := by
    decide
  rw [hsum]
  simp only [List.map_cons, List.map_nil, List.insertionSort, List.orderedInsert]
  rw [if_pos]
  show (tfidfEntry 3 _ ("节点".toList, 2)).score ≤ (tfidfEntry 3 _ ("图谱".toList, 1)).score
  rw [tfidfEntry_score, tfidfEntry_score]
  simp only [h3, h4, List.length_cons, List.length_nil]
  norm_num

/-- C5, as stated, fails: in the ranking of "图谱 节点 节点。边" both terms score
0, and "图谱" (frequency 1) stands before "节点" (frequency 2): raw frequency
is not used to break the tie. -/
theorem C5_frequency_ignored :
    ∃ a b, calculateTFIDF (calculateWordFrequency (segmentText tieText)) tieText = [a, b] ∧
      a.score = 0 ∧ b.score = 0 ∧ a.score = b.score ∧ a.frequency < b.frequency := by
  have h3 : docsWithWord ["图谱 节点 节点".toList, "边".toList] "图谱".toList = 1 := by decide
  have h4 : docsWithWord ["图谱 节点 节点".toList, "边".toList] "节点".toList = 1 := by decide
  refine ⟨_, _, tieText_ranking, ?_, ?_, ?_, ?_⟩
  · rw [tfidfEntry_score]
    simp only [h3, List.length_cons, List.length_nil]
    norm_num
  · rw [tfidfEntry_score]
    simp only [h4, List.length_cons, List.length_nil]
    norm_num
  · rw [tfidfEntry_score, tfidfEntry_score]
    simp only [h3, h4, List.length_cons, List.length_nil]
    norm_num
  · show 1 < 2
    decide

/-- C3, amended, at a concrete input: no token of "图谱 节点 节点。边" is an
inherited key, its keyword "图谱" is missing from the second sentence, and the
weight of that keyword is non-negative. -/
theorem C3_weight_sign_witness :
    (∀ w ∈ segmentText tieText, w ∉ inheritedKeys) ∧
    (0 ≤ (tfidfEntry 3 ["图谱 节点 节点".toList, "边".toList]
        ("图谱".toList, 1)).toKeyword.weight ↔
      docsWithWord (tfidfSentences tieText)
        (tfidfEntry 3 ["图谱 节点 节点".toList, "边".toList] ("图谱".toList, 1)).toKeyword.word + 1 ≤
        (tfidfSentences tieText).length) := by
  refine ⟨by decide, C3_weight_sign tieText 20 (by decide) _ ?_⟩
  rw [extractKeywords_eq, tieText_ranking]
  exact List.mem_cons_self _ _

theorem tfidfEntry_score_tie (totalWords : Nat) (sentences : List (List Char))
    (ea eb : List Char × Nat) (h : SameScore sentences ea eb) :
    (tfidfEntry totalWords sentences ea).score = (tfidfEntry totalWords sentences eb).score := by
  rw [tfidfEntry_score, tfidfEntry_score]
  rcases h with ⟨hf, hd⟩ | ⟨ha, hb⟩
  · rw [hf, hd]
  · have hlog : ∀ x : ℝ, Real.log (x / x) = 0 := by
      intro x
      by_cases hx : x = 0
      · rw [hx, div_zero, Real.log_zero]
      · rw [div_self hx, Real.log_one]
    have ha' : (docsWithWord sentences ea.1 : ℝ) + 1 = (sentences.length : ℝ) := by
      exact_mod_cast ha
    have hb' : (docsWithWord sentences eb.1 : ℝ) + 1 = (sentences.length : ℝ) := by
      exact_mod_cast hb
    rw [ha', hb', hlog, mul_zero, mul_zero]

/-- C5, amended: two entries that have the same frequency and occur in the same
number of sentences, or that each occur in all sentences but one (both scores
are then 0, whatever the frequencies), keep in the ranking the order in which
`Object.entries(wordFreq)` lists them (array-index keys first, then the other
keys in insertion order); so of two such terms that are not array-index
strings, the one first seen in the token list comes first.  Raw frequency is
not used to order them. -/
theorem C5_tie_order (text : List Char) :
    (∀ ea eb : List Char × Nat,
      List.Sublist [ea, eb] (objectEntries (calculateWordFrequency (segmentText text))) →
      SameScore (tfidfSentences text) ea eb →
      List.Sublist
        [tfidfEntry (segmentText text).length (tfidfSentences text) ea,
          tfidfEntry (segmentText text).length (tfidfSentences text) eb]
        (calculateTFIDF (calculateWordFrequency (segmentText text)) text)) ∧
    (∀ wa wb : List Char, wb ∈ segmentText text →
      isArrayIndex wa = false → isArrayIndex wb = false →
      firstIndex wa (segmentText text) < firstIndex wb (segmentText text) →
      SameScore (tfidfSentences text) (wa, (segmentText text).count wa)
        (wb, (segmentText text).count wb) →
      List.Sublist [rankingEntry text wa, rankingEntry text wb]
        (calculateTFIDF (calculateWordFrequency (segmentText text)) text)) := by
  have stable : ∀ ea eb : List Char × Nat,
      List.Sublist [ea, eb] (objectEntries (calculateWordFrequency (segmentText text))) →
      SameScore (tfidfSentences text) ea eb →
      List.Sublist
        [tfidfEntry (segmentText text).length (tfidfSentences text) ea,
          tfidfEntry (segmentText text).length (tfidfSentences text) eb]
        (calculateTFIDF (calculateWordFrequency (segmentText text)) text) := by
    intro ea eb hsub hsame
    have hscore := tfidfEntry_score_tie (segmentText text).length (tfidfSentences text) ea eb hsame
    unfold calculateTFIDF
    rw [sum_calculateWordFrequency]
    exact List.pair_sublist_insertionSort (r := scoreDesc) (le_of_eq hscore.symm)
      (hsub.map _)
  refine ⟨stable, fun wa wb hb hia hib hlt hsame => ?_⟩
  exact stable _ _ (pair_sublist_objectEntries _ wa wb hb hia hib hlt) hsame

/-- C5, amended, at a concrete input: in "图谱 节点 节点。边" the terms "图谱"
(frequency 1) and "节点" (frequency 2) each occur in one of the two sentences,
"图谱" is first seen before "节点", and "图谱" is ranked first. -/
theorem C5_tie_order_witness :
    SameScore (tfidfSentences tieText) ("图谱".toList, (segmentText tieText).count "图谱".toList)
        ("节点".toList, (segmentText tieText).count "节点".toList) ∧
    List.Sublist [rankingEntry tieText "图谱".toList, rankingEntry tieText "节点".toList]
      (calculateTFIDF (calculateWordFrequency (segmentText tieText)) tieText) := by
  have hsame : SameScore (tfidfSentences tieText)
      ("图谱".toList, (segmentText tieText).count "图谱".toList)
      ("节点".toList, (segmentText tieText).count "节点".toList) :=
    Or.inr ⟨by decide, by decide⟩
  exact ⟨hsame,
    (C5_tie_order tieText).2 _ _ (by decide) (by decide) (by decide) (by decide) hsame⟩

/-! ## Concept nodes: ids (C9) -/

theorem mapSet_keys (key : List Char) (value : Node) (m : List (List Char × Node)) :
    (mapSet key value m).map Prod.fst =
      if key ∈ m.map Prod.fst then m.map Prod.fst else m.map Prod.fst ++ [key] := by
  induction m with
  | nil => simp [mapSet]
  | cons e m ih =>
    obtain ⟨k, v⟩ := e
    by_cases hk : k = key
    · subst hk
      simp only [mapSet, if_true, List.map_cons, List.mem_cons, true_or, eq_self_iff_true]
    · have hk' : key ≠ k := fun h => hk h.symm
      simp only [mapSet, if_neg hk, List.map_cons, ih, List.mem_cons, hk', false_or]
      split <;> simp

theorem mem_mapSet {key : List Char} {value : Node} {m : List (List Char × Node)}
    {e : List Char × Node} (h : e ∈ mapSet key value m) : e = (key, value) ∨ e ∈ m := by
  induction m with
  | nil =>
    simp only [mapSet, List.mem_singleton] at h
    exact Or.inl h
  | cons x m ih =>
    obtain ⟨k, v⟩ := x
    by_cases hk : k = key
    · simp only [mapSet, if_pos hk, List.mem_cons] at h
      rcases h with h | h
      · subst hk
        exact Or.inl h
      · exact Or.inr (List.mem_cons_of_mem _ h)
    · simp only [mapSet, if_neg hk, List.mem_cons] at h
      rcases h with h | h
      · subst h
        exact Or.inr (List.mem_cons_self _ _)
      · rcases ih h with h' | h'
        · exact Or.inl h'
        · exact Or.inr (List.mem_cons_of_mem _ h')

theorem conceptsInv_mapSet {m : List (List Char × Node)} (hm : ConceptsInv m) (value : Node)
    (hv : value.id = generateId value.label) : ConceptsInv (mapSet value.id value m) := by
  refine ⟨?_, fun e he => ?_⟩
  · rw [mapSet_keys]
    split
    · exact hm.1
    · rename_i hk
      exact List.Nodup.append hm.1 (List.nodup_singleton _) (List.disjoint_singleton.2 hk)
  · rcases mem_mapSet he with rfl | h
    · exact ⟨rfl, hv⟩
    · exact hm.2 e h

theorem conceptsInv_addKeyword {m : List (List Char × Node)} (hm : ConceptsInv m)
    (text : List Char) (total : Nat) (ik : Nat × Keyword) :
    ConceptsInv (addKeyword text total m ik) := by
  unfold addKeyword
  dsimp only
  split
  · exact conceptsInv_mapSet hm
      { id := generateId ik.2.word
        label := ik.2.word
        type := classifyConceptType ik.2.word text
        properties := { importance := ik.2.weight, frequency := ik.2.frequency }
        position := calculatePosition ik.1 total } rfl
  · exact hm

theorem conceptsInv_addEntity {m : List (List Char × Node)} (hm : ConceptsInv m)
    (entity : Entity) : ConceptsInv (addEntity m entity) := by
  unfold addEntity
  dsimp only
  split
  · split
    · exact conceptsInv_mapSet hm
        { id := generateId entity.text
          label := entity.text
          type := entity.type
          properties := { importance := entity.confidence, frequency := 1 }
          position := calculatePosition m.length 30 } rfl
    · exact hm
  · exact hm

theorem conceptsInv_foldl {α : Type} (f : List (List Char × Node) → α → List (List Char × Node))
    (hf : ∀ m a, ConceptsInv m → ConceptsInv (f m a)) :
    ∀ (l : List α) (m : List (List Char × Node)), ConceptsInv m → ConceptsInv (l.foldl f m) := by
  intro l
  induction l with
  | nil => intro m hm; exact hm
  | cons a l ih => intro m hm; exact ih _ (hf m a hm)

theorem conceptsInv_extractConcepts (text : List Char) :
    ConceptsInv
      ((extractEntities text).foldl addEntity
        ((extractKeywords text 30).enum.foldl
          (addKeyword text (extractKeywords text 30).length) [])) := by
  refine conceptsInv_foldl _ (fun m a hm => conceptsInv_addEntity hm a) _ _ ?_
  refine conceptsInv_foldl _ (fun m a hm => conceptsInv_addKeyword hm text _ a) _ _ ?_
  exact ⟨List.nodup_nil, fun e he => by cases he⟩

theorem extractConcepts_ids (text : List Char) :
    ((extractConcepts text).map fun n => n.id).Nodup ∧
      ∀ n ∈ extractConcepts text, n.id = generateId n.label := by
  have hinv := conceptsInv_extractConcepts text
  unfold extractConcepts
  constructor
  · rw [List.map_map]
    have : (List.map ((fun n : Node => n.id) ∘ Prod.snd)
        ((extractEntities text).foldl addEntity
          ((extractKeywords text 30).enum.foldl
            (addKeyword text (extractKeywords text 30).length) []))) =
        List.map Prod.fst ((extractEntities text).foldl addEntity
          ((extractKeywords text 30).enum.foldl
            (addKeyword text (extractKeywords text 30).length) [])) :=
      List.map_congr_left fun e he => (hinv.2 e he).1
    rw [this]
    exact hinv.1
  · intro n hn
    obtain ⟨e, he, rfl⟩ := List.mem_map.1 hn
    exact (hinv.2 e he).2

theorem optimizeLayout_map {β : Type} (f : Node → β)
    (hf : ∀ (n : Node) (pos : Position), f { n with position := pos } = f n)
    (nodes : List Node) : (optimizeLayout nodes).map f = nodes.map f := by
  unfold optimizeLayout
  rw [List.map_map]
  have h : (f ∘ fun p : ℕ × Node =>
      { p.2 with position := calculatePosition p.1 nodes.length }) = f ∘ Prod.snd := by
    funext p
    exact hf _ _
  rw [h, ← List.map_map, List.enum_map_snd]

/-- The part of a node that `optimizeLayout` leaves alone. -/
theorem optimizeGraph_nodes_sublist (graph : Graph) :
    List.Sublist
      ((optimizeGraph graph).nodes.map fun n => (n.id, n.label, n.type, n.properties))
      (graph.nodes.map fun n => (n.id, n.label, n.type, n.properties)) := by
  unfold optimizeGraph mergeSimilarNodes
  rw [optimizeLayout_map (fun n => (n.id, n.label, n.type, n.properties)) (fun _ _ => rfl)]
  exact (List.filter_sublist _).map _

theorem constructGraph_nodes_sublist (concepts : List Node) (relations : List Edge)
    (maxNodes : Nat) (minConfidence : ℝ) :
    List.Sublist (constructGraph concepts relations maxNodes minConfidence).nodes concepts :=
  (List.take_sublist _ _).trans (List.filter_sublist _)

theorem buildKnowledgeGraph_nodes_sublist {text : List Char} {maxNodes : Nat}
    {minConfidence : ℝ} {store : StoreWrite} {g : Graph}
    (h : buildKnowledgeGraph text maxNodes minConfidence store = some g) :
    List.Sublist (g.nodes.map fun n => (n.id, n.label, n.type, n.properties))
      ((extractConcepts text).map fun n => (n.id, n.label, n.type, n.properties)) := by
  have hg : g = optimizeGraph (constructGraph (extractConcepts text)
      (extractRelations text (extractConcepts text)) maxNodes minConfidence) := by
    unfold buildKnowledgeGraph at h
    cases store <;> simp at h <;> exact h.symm
  subst hg
  exact (optimizeGraph_nodes_sublist _).trans ((constructGraph_nodes_sublist _ _ _ _).map _)

/-- C9: the nodes of the graph returned by `buildKnowledgeGraph` have pairwise
distinct ids, and the id of each node is `generateId` of its label. -/
theorem C9_node_ids (text : List Char) (maxNodes : Nat) (minConfidence : ℝ)
    (store : StoreWrite) (g : Graph)
    (h : buildKnowledgeGraph text maxNodes minConfidence store = some g) :
    g.nodes.Pairwise (fun a b => a.id ≠ b.id) ∧ ∀ n ∈ g.nodes, n.id = generateId n.label := by
  have hsub := buildKnowledgeGraph_nodes_sublist h
  obtain ⟨hnd, hid⟩ := extractConcepts_ids text
  constructor
  · have h1 : (g.nodes.map fun n => n.id).Nodup := by
      have := (hsub.map Prod.fst)
      simp only [List.map_map] at this
      exact List.Nodup.sublist this hnd
    exact (List.pairwise_map.1 h1)
  · intro n hn
    have hmem : (n.id, n.label, n.type, n.properties) ∈
        (extractConcepts text).map fun n => (n.id, n.label, n.type, n.properties) :=
      hsub.subset (List.mem_map.2 ⟨n, hn, rfl⟩)
    obtain ⟨c, hc, hceq⟩ := List.mem_map.1 hmem
    have h1 : c.id = n.id := congrArg Prod.fst hceq
    have h2 : c.label = n.label := congrArg (fun t => t.2.1) hceq
    rw [← h1, ← h2]
    exact hid c hc

/-! ## Concept nodes at concrete inputs (C7, C8, C10) -/

theorem foldl_addKeyword_of_low (text : List Char) (total : Nat) :
    ∀ (ks : List (Nat × Keyword)) (acc : List (List Char × Node)),
      (∀ p ∈ ks, ¬ p.2.weight > 0.3) → ks.foldl (addKeyword text total) acc = acc := by
  intro ks
  induction ks with
  | nil => intro acc _; rfl
  | cons p ks ih =>
    intro acc h
    have hp : addKeyword text total acc p = acc := by
      unfold addKeyword
      exact if_neg (h p (List.mem_cons_self _ _))
    rw [List.foldl_cons, hp]
    exact ih acc fun q hq => h q (List.mem_cons_of_mem _ hq)

theorem extractConcepts_of_low {text : List Char}
    (h : ∀ k ∈ extractKeywords text 30, ¬ k.weight > 0.3) :
    extractConcepts text = ((extractEntities text).foldl addEntity []).map Prod.snd := by
  unfold extractConcepts
  dsimp only
  rw [foldl_addKeyword_of_low]
  intro p hp
  exact h _ (List.snd_mem_of_mem_enum hp)

theorem extractEntities_eq (text : List Char) :
    extractEntities text =
      (entityMatches text).map fun m => { text := m.1, type := m.2, confidence := 0.8 } := rfl

theorem exampleText_low : ∀ k ∈ extractKeywords exampleText 30, ¬ k.weight > 0.3 := by
  intro k hk
  obtain ⟨e, he, rfl⟩ := mem_extractKeywords hk
  have h1 : calculateWordFrequency (segmentText exampleText) =
      [("机器学习属于人工智能的一个分支".toList, 1), ("深度学习是机器学习的重要方法".toList, 1)] := by
    decide
  have h2 : (segmentText exampleText).length = 2 := by decide
  have h3 : (tfidfSentences exampleText).length = 2 := by decide
  have h4 : docsWithWord (tfidfSentences exampleText) "机器学习属于人工智能的一个分支".toList = 1 := by
    decide
  have h5 : docsWithWord (tfidfSentences exampleText) "深度学习是机器学习的重要方法".toList = 1 := by
    decide
  rw [h1] at he
  simp only [List.mem_cons, List.mem_singleton, List.not_mem_nil, or_false] at he
  show ¬ (tfidfEntry _ _ e).score > 0.3
  rw [tfidfEntry_score, h2, h3]
  rcases he with rfl | rfl
  · simp only [h4]
    norm_num
  · simp only [h5]
    norm_num

theorem exampleText_concepts : extractConcepts exampleText = [] := by
  rw [extractConcepts_of_low exampleText_low, extractEntities_eq]
  have h : entityMatches exampleText = [] := by decide
  rw [h]
  rfl

theorem optimizeGraph_constructGraph_nil (relations : List Edge) (maxNodes : Nat)
    (minConfidence : ℝ) :
    optimizeGraph (constructGraph [] relations maxNodes minConfidence) =
      { nodes := [], edges := [] } := by
  have h : relations.filter (fun relation : Edge =>
      decide (relation.fromId ∈ ([] : List (List Char))) &&
        decide (relation.toId ∈ ([] : List (List Char)))) = [] := by
    rw [List.filter_eq_nil_iff]
    intro a _
    simp
  simp only [optimizeGraph, constructGraph, List.filter_nil, List.take_nil, List.map_nil, h,
    mergeSimilarNodes, optimizeLayout, List.enum_nil]

/-- C7, as stated, fails: for the example text and `maxNodes = 10` (with the
default `minConfidence = 0.6` and no graph store) `buildKnowledgeGraph` returns a
graph that has no node labelled "机器学习" and no `part_of` edge. -/
theorem C7_example_has_no_such_node :
    ∃ g, buildKnowledgeGraph exampleText 10 0.6 .skipped = some g ∧
      (∀ n ∈ g.nodes, n.label ≠ "机器学习".toList) ∧ ∀ e ∈ g.edges, e.type ≠ "part_of" := by
  refine ⟨{ nodes := [], edges := [] }, ?_, ?_, ?_⟩
  · unfold buildKnowledgeGraph
    simp only [exampleText_concepts, optimizeGraph_constructGraph_nil]
  · intro n hn
    cases hn
  · intro e he
    cases he

/-- C7, amended: for the example text and `maxNodes = 10`, whatever
`minConfidence` is, `buildKnowledgeGraph` returns the empty graph (no node, no
edge) whenever it returns: the segmenter yields each sentence as one token, both
tokens score 0, and no rule of the entity recognizer matches. -/
theorem C7_example_graph_empty (minConfidence : ℝ) :
    segmentText exampleText =
      ["机器学习属于人工智能的一个分支".toList, "深度学习是机器学习的重要方法".toList] ∧
    extractConcepts exampleText = [] ∧
    buildKnowledgeGraph exampleText 10 minConfidence .skipped =
      some { nodes := [], edges := [] } ∧
    buildKnowledgeGraph exampleText 10 minConfidence .resolved =
      some { nodes := [], edges := [] } := by
  refine ⟨by decide, exampleText_concepts, ?_, ?_⟩
  · unfold buildKnowledgeGraph
    simp only [exampleText_concepts, optimizeGraph_constructGraph_nil]
  · unfold buildKnowledgeGraph
    simp only [exampleText_concepts, optimizeGraph_constructGraph_nil]

theorem log_three_gt_one : (1 : ℝ) < (1 : ℝ) / 1 * Real.log (6 / (1 + 1)) := by
  have h : Real.exp 1 < 3 := lt_trans Real.exp_one_lt_d9 (by norm_num)
  have h3 : (1 : ℝ) < Real.log 3 := (Real.lt_log_iff_exp_lt (by norm_num)).2 h
  have e : (6 : ℝ) / (1 + 1) = 3 := by norm_num
  rw [e]
  linarith

theorem denseText_keywords :
    extractKeywords denseText 30 =
      [{ word := "ab".toList, weight := (1 : ℝ) / 1 * Real.log (6 / (1 + 1)), frequency := 1 }] := by
  have h1 : calculateWordFrequency (segmentText denseText) = [("ab".toList, 1)] := by decide
  have h2 : tfidfSentences denseText =
      ["ab".toList, "c".toList, "c".toList, "c".toList, "c".toList, "c".toList] := by decide
  have h3 : docsWithWord
      ["ab".toList, "c".toList, "c".toList, "c".toList, "c".toList, "c".toList] "ab".toList = 1 := by
    decide
  have h4 : objectEntries [("ab".toList, 1)] = [("ab".toList, 1)] := by decide
  rw [extractKeywords_eq, h1]
  unfold calculateTFIDF
  rw [h2, h4]
  show [(tfidfEntry _ _ ("ab".toList, 1)).toKeyword] = _
  unfold TfIdf.toKeyword
  rw [tfidfEntry_score]
  simp only [tfidfEntry, h3, List.map_cons, List.map_nil, List.sum_cons, List.sum_nil,
    List.length_cons, List.length_nil]
  norm_num

theorem denseText_concepts : extractConcepts denseText = [denseNode] := by
  have hent : extractEntities denseText = [] := by
    rw [extractEntities_eq]
    have h : entityMatches denseText = [] := by decide
    rw [h]
    rfl
  have hw : (1 : ℝ) / 1 * Real.log (6 / (1 + 1)) > 0.3 :=
    lt_trans (by norm_num) log_three_gt_one
  unfold extractConcepts
  dsimp only
  rw [hent, denseText_keywords]
  simp only [List.enum_singleton, List.foldl_cons, List.foldl_nil, List.length_singleton]
  unfold addKeyword
  dsimp only
  rw [if_pos hw]
  rfl

theorem optimizeGraph_keeps {graph : Graph} {c : Node} (hc : c ∈ graph.nodes)
    (hi : c.properties.importance > 0.8) :
    ∃ n ∈ (optimizeGraph graph).nodes, n.properties = c.properties ∧ n.label = c.label := by
  have h : (c.properties, c.label) ∈
      (optimizeGraph graph).nodes.map fun n => (n.properties, n.label) := by
    unfold optimizeGraph mergeSimilarNodes
    rw [optimizeLayout_map (fun n => (n.properties, n.label)) (fun _ _ => rfl)]
    refine List.mem_map.2 ⟨c, List.mem_filter.2 ⟨hc, ?_⟩, rfl⟩
    simp only [Bool.or_eq_true, decide_eq_true_eq]
    exact Or.inr hi
  obtain ⟨n, hn, hneq⟩ := List.mem_map.1 h
  exact ⟨n, hn, congrArg Prod.fst hneq, congrArg Prod.snd hneq⟩

/-- C8, at the failing input "ab。c。c。c。c。c": the node `extractConcepts` builds
for the keyword "ab" has importance `ln 3`, which is greater than 1, and the
graph `buildKnowledgeGraph` returns for `maxNodes = 10`, `minConfidence = 0.6`
keeps a node of that importance. -/
theorem C8_importance_exceeds_one :
    (∃ n ∈ extractConcepts denseText, 1 < n.properties.importance) ∧
    ∃ g, buildKnowledgeGraph denseText 10 0.6 .skipped = some g ∧
      ∃ n ∈ g.nodes, 1 < n.properties.importance := by
  have hnode : denseNode ∈ extractConcepts denseText := by
    rw [denseText_concepts]
    exact List.mem_cons_self _ _
  have himp : 1 < denseNode.properties.importance := log_three_gt_one
  refine ⟨⟨denseNode, hnode, himp⟩, _, rfl, ?_⟩
  have hc : denseNode ∈ (constructGraph (extractConcepts denseText)
      (extractRelations denseText (extractConcepts denseText)) 10 0.6).nodes := by
    unfold constructGraph
    dsimp only
    rw [denseText_concepts]
    have hf : decide (denseNode.properties.importance ≥ 0.6) = true := by
      rw [decide_eq_true_eq]
      exact le_of_lt (lt_trans (by norm_num) himp)
    have hfil : List.filter (fun concept : Node =>
        decide (concept.properties.importance ≥ 0.6)) [denseNode] = [denseNode] := by
      rw [List.filter_eq_self]
      intro a ha
      rw [List.mem_singleton.1 ha]
      exact hf
    rw [hfil]
    exact List.mem_cons_self _ _
  obtain ⟨n, hn, hp, _⟩ := optimizeGraph_keeps hc (lt_trans (by norm_num) himp)
  exact ⟨n, hn, hp ▸ himp⟩

theorem methodText_low : ∀ k ∈ extractKeywords methodText 30, ¬ k.weight > 0.3 := by
  intro k hk
  obtain ⟨e, he, rfl⟩ := mem_extractKeywords hk
  have h1 : calculateWordFrequency (segmentText methodText) =
      [("算法".toList, 1), ("梯度下降".toList, 1)] := by decide
  have h2 : (segmentText methodText).length = 2 := by decide
  have h3 : (tfidfSentences methodText).length = 1 := by decide
  have h4 : docsWithWord (tfidfSentences methodText) "算法".toList = 1 := by decide
  have h5 : docsWithWord (tfidfSentences methodText) "梯度下降".toList = 1 := by decide
  have hl : Real.log ((1 : ℝ) / (1 + 1)) < 0 := Real.log_neg (by norm_num) (by norm_num)
  rw [h1] at he
  simp only [List.mem_cons, List.mem_singleton, List.not_mem_nil, or_false] at he
  show ¬ (tfidfEntry _ _ e).score > 0.3
  rw [tfidfEntry_score, h2, h3]
  rcases he with rfl | rfl
  · simp only [h4, Nat.cast_one, Nat.cast_ofNat]
    intro h
    linarith
  · simp only [h5, Nat.cast_one, Nat.cast_ofNat]
    intro h
    linarith

theorem methodText_concepts : extractConcepts methodText = [methodNode] := by
  rw [extractConcepts_of_low methodText_low, extractEntities_eq]
  have h : entityMatches methodText = [("梯度下降".toList, "method")] := by decide
  rw [h]
  simp only [List.map_cons, List.map_nil, List.foldl_cons, List.foldl_nil]
  unfold addEntity
  dsimp only
  rw [if_pos (by norm_num)]
  rfl

/-- C10, at the failing input "算法：梯度下降": `extractConcepts` produces a node of
type `method`, the name of the recognizer rule that matched, and `method` is not
in the node-type enumeration of the schema. -/
theorem C10_method_type :
    ∃ n ∈ extractConcepts methodText, n.type = "method" ∧ n.type ∉ nodeTypeEnum := by
  refine ⟨methodNode, ?_, rfl, ?_⟩
  · rw [methodText_concepts]
    exact List.mem_cons_self _ _
  · show "method" ∉ nodeTypeEnum
    decide

/-- C9 at a concrete input: the graph built from "ab。c。c。c。c。c" has pairwise
distinct node ids, each the `generateId` of the node's label. -/
theorem C9_node_ids_witness :
    (optimizeGraph (constructGraph (extractConcepts denseText)
        (extractRelations denseText (extractConcepts denseText)) 10 0.6)).nodes.Pairwise
      (fun a b => a.id ≠ b.id) ∧
    ∀ n ∈ (optimizeGraph (constructGraph (extractConcepts denseText)
        (extractRelations denseText (extractConcepts denseText)) 10 0.6)).nodes,
      n.id = generateId n.label :=
  C9_node_ids denseText 10 0.6 .skipped _ rfl

/-! ## Relation edges: weight, strength and type (C11) -/

theorem inferRelationType_mem (evidence : List Nat) :
    inferRelationType evidence ∈
      ["part_of", "leads_to", "depends_on", "similar_to", "related_to"] := by
  unfold inferRelationType
  dsimp only
  split
  · decide
  · split
    · decide
    · split
      · decide
      · split
        · decide
        · decide

theorem calculateCooccurrence_strength_le (c1 c2 : List Char) (sentences : List (List Char)) :
    (calculateCooccurrence c1 c2 sentences).strength ≤ 1 :=
  min_le_right _ _

theorem cooccurrenceEdge_some {sentences : List (List Char)} {p : Node × Node} {e : Edge}
    (h : cooccurrenceEdge sentences p = some e) :
    (calculateCooccurrence p.1.label p.2.label sentences).strength > 0.3 ∧
      e.fromId = p.1.id ∧ e.toId = p.2.id ∧
      e.weight = (calculateCooccurrence p.1.label p.2.label sentences).strength ∧
      e.properties.strength = e.weight ∧
      e.type = (calculateCooccurrence p.1.label p.2.label sentences).relationType := by
  unfold cooccurrenceEdge at h
  dsimp only at h
  split at h
  · rename_i hs
    have he := Option.some.inj h
    subst he
    exact ⟨hs, rfl, rfl, rfl, rfl, rfl⟩
  · cases h

theorem patternEdge_some {concepts : List Node} {type : String}
    {m : List Char × List (List Char)} {e : Edge} (h : patternEdge concepts type m = some e) :
    e.weight = 0.8 ∧ e.properties.strength = 0.8 ∧ e.type = type ∧
      (∃ c ∈ concepts, e.fromId = c.id) ∧ ∃ c ∈ concepts, e.toId = c.id := by
  unfold patternEdge at h
  split at h
  · rename_i source target hsrc htgt
    have he := Option.some.inj h
    subst he
    exact ⟨rfl, rfl, rfl, ⟨source, List.mem_of_find?_eq_some hsrc, rfl⟩,
      ⟨target, List.mem_of_find?_eq_some htgt, rfl⟩⟩
  · cases h

theorem mem_extractRelations {text : List Char} {concepts : List Node} {e : Edge}
    (h : e ∈ extractRelations text concepts) :
    (∃ p ∈ orderedPairs concepts, cooccurrenceEdge (relationSentences text) p = some e) ∨
      ∃ p ∈ relationPatterns, ∃ m ∈ matchAll p.1 text, patternEdge concepts p.2 m = some e := by
  unfold extractRelations extractPatternBasedRelations at h
  rcases List.mem_append.1 h with h | h
  · left
    obtain ⟨p, hp, hpe⟩ := List.mem_filterMap.1 h
    exact ⟨p, hp, hpe⟩
  · right
    obtain ⟨p, hp, hm⟩ := List.mem_flatMap.1 h
    obtain ⟨m, hm, hme⟩ := List.mem_filterMap.1 hm
    exact ⟨p, hp, m, hm, hme⟩

/-- C11: every edge returned by `extractRelations` has a weight in `[0, 1]`, has
`properties.strength` equal to its weight, and has a type of the edge-type
enumeration of the schema. -/
theorem C11_edge_fields (text : List Char) (concepts : List Node) :
    ∀ e ∈ extractRelations text concepts,
      0 ≤ e.weight ∧ e.weight ≤ 1 ∧ e.properties.strength = e.weight ∧
        e.type ∈ edgeTypeEnum := by
  intro e he
  rcases mem_extractRelations he with ⟨p, _, hp⟩ | ⟨p, hp, m, _, hm⟩
  · obtain ⟨hs, _, _, hw, hst, ht⟩ := cooccurrenceEdge_some hp
    refine ⟨?_, ?_, hst, ?_⟩
    · rw [hw]
      exact le_of_lt (lt_trans (by norm_num) hs)
    · rw [hw]
      exact calculateCooccurrence_strength_le _ _ _
    · rw [ht]
      have hmem := inferRelationType_mem
        (calculateCooccurrence p.1.label p.2.label (relationSentences text)).evidence
      have hsub : ∀ t ∈ ["part_of", "leads_to", "depends_on", "similar_to", "related_to"],
          t ∈ edgeTypeEnum := by decide
      exact hsub _ hmem
  · obtain ⟨hw, hst, ht, _, _⟩ := patternEdge_some hm
    refine ⟨?_, ?_, ?_, ?_⟩
    · rw [hw]
      norm_num
    · rw [hw]
      norm_num
    · rw [hst, hw]
    · rw [ht]
      have hsub : ∀ q ∈ relationPatterns, q.2 ∈ edgeTypeEnum := by
        intro q hq
        simp only [relationPatterns, List.mem_cons, List.mem_singleton, List.not_mem_nil,
          or_false] at hq
        rcases hq with rfl | rfl | rfl | rfl <;> decide
      exact hsub p hp

/-! ## Relation edges at a concrete input -/

theorem extractPatternBasedRelations_eq (text : List Char) (concepts : List Node) :
    extractPatternBasedRelations text concepts =
      (relationPatterns.map fun p => (matchAll p.1 text, p.2)).flatMap fun q =>
        q.1.filterMap (patternEdge concepts q.2) := by
  unfold extractPatternBasedRelations
  rw [List.flatMap_map]

theorem relText_cooccurrence :
    (calculateCooccurrence "机器学习".toList "人工智能".toList (relationSentences relText)).strength
        = 1 ∧
      (calculateCooccurrence "机器学习".toList "人工智能".toList
        (relationSentences relText)).relationType = "part_of" ∧
      (calculateCooccurrence "机器学习".toList "人工智能".toList
        (relationSentences relText)).bidirectional = false := by
  refine ⟨?_, by decide, by decide⟩
  have h1 : ((relationSentences relText).enum.filter fun p =>
      includes p.2 "机器学习".toList && includes p.2 "人工智能".toList).length = 1 := by decide
  have h2 : (relationSentences relText).length = 1 := by decide
  unfold calculateCooccurrence
  dsimp only
  rw [h1, h2]
  norm_num

theorem relText_relations :
    extractRelations relText [mlNode, aiNode] = [relCoocEdge, relPatternEdge] := by
  obtain ⟨hs, ht, hb⟩ := relText_cooccurrence
  have hcooc : cooccurrenceEdge (relationSentences relText) (mlNode, aiNode) =
      some relCoocEdge := by
    unfold cooccurrenceEdge
    dsimp only
    have hs' : (calculateCooccurrence mlNode.label aiNode.label
        (relationSentences relText)).strength = 1 := hs
    have ht' : (calculateCooccurrence mlNode.label aiNode.label
        (relationSentences relText)).relationType = "part_of" := ht
    have hb' : (calculateCooccurrence mlNode.label aiNode.label
        (relationSentences relText)).bidirectional = false := hb
    rw [hs', ht', hb', if_pos (by norm_num)]
    rfl
  have hmatch : (relationPatterns.map fun p => (matchAll p.1 relText, p.2)) =
      [([("机器学习属于人工智能的分支".toList, ["机器学习".toList, "人工智能的分支".toList])],
          "part_of"), ([], "example_of"), ([], "leads_to"), ([], "depends_on")] := by
    decide
  have hpat : patternEdge [mlNode, aiNode] "part_of"
      ("机器学习属于人工智能的分支".toList, ["机器学习".toList, "人工智能的分支".toList]) =
      some relPatternEdge := by
    have h1 : findConceptByLabel (jsTrim "机器学习".toList) [mlNode, aiNode] = some mlNode := by
      unfold findConceptByLabel
      rw [List.find?_cons_of_pos _ (by decide)]
    have h2 : findConceptByLabel (jsTrim "人工智能的分支".toList) [mlNode, aiNode] =
        some aiNode := by
      unfold findConceptByLabel
      rw [List.find?_cons_of_neg _ (by decide), List.find?_cons_of_pos _ (by decide)]
    unfold patternEdge
    simp only [List.getD_cons_zero, List.getD_cons_succ, h1, h2]
    rfl
  unfold extractRelations
  dsimp only
  rw [extractPatternBasedRelations_eq, hmatch]
  simp only [orderedPairs, List.map_cons, List.map_nil, List.append_nil, List.nil_append,
    List.filterMap_cons, List.filterMap_nil, hcooc, hpat, List.flatMap_cons, List.flatMap_nil,
    List.singleton_append]

/-- C11 at a concrete input: the co-occurrence edge that `extractRelations` emits
for "机器学习属于人工智能的分支。" has weight 1, strength 1 and type `part_of`. -/
theorem C11_edge_fields_witness :
    0 ≤ relCoocEdge.weight ∧ relCoocEdge.weight ≤ 1 ∧
      relCoocEdge.properties.strength = relCoocEdge.weight ∧
      relCoocEdge.type ∈ edgeTypeEnum := by
  refine C11_edge_fields relText [mlNode, aiNode] relCoocEdge ?_
  rw [relText_relations]
  exact List.mem_cons_self _ _

/-! ## Repeated `(from, to, type)` triples (C12) -/

theorem mem_orderedPairs {α : Type} {l : List α} {p : α × α} (h : p ∈ orderedPairs l) :
    p.1 ∈ l ∧ p.2 ∈ l := by
  induction l with
  | nil => cases h
  | cons a rest ih =>
    simp only [orderedPairs, List.mem_append, List.mem_map] at h
    rcases h with ⟨b, hb, rfl⟩ | h
    · exact ⟨List.mem_cons_self _ _, List.mem_cons_of_mem _ hb⟩
    · exact ⟨List.mem_cons_of_mem _ (ih h).1, List.mem_cons_of_mem _ (ih h).2⟩

theorem orderedPairs_pairwise (l : List Node) (h : l.Pairwise fun a b => a.id ≠ b.id) :
    (orderedPairs l).Pairwise fun p q => (p.1.id, p.2.id) ≠ (q.1.id, q.2.id) := by
  induction l with
  | nil => exact List.Pairwise.nil
  | cons a rest ih =>
    obtain ⟨ha, hrest⟩ := List.pairwise_cons.1 h
    show List.Pairwise _ (rest.map (fun b => (a, b)) ++ orderedPairs rest)
    refine List.pairwise_append.2 ⟨?_, ih hrest, ?_⟩
    · rw [List.pairwise_map]
      refine hrest.imp ?_
      intro b b' hbb' heq
      exact hbb' (congrArg Prod.snd heq)
    · intro p hp q hq heq
      obtain ⟨b, _, rfl⟩ := List.mem_map.1 hp
      exact ha q.1 (mem_orderedPairs hq).1 (congrArg Prod.fst heq)

/-- C12, as stated, fails: for "机器学习属于人工智能的分支。" and the two concepts
"机器学习", "人工智能" (distinct ids) `extractRelations` returns two edges, one
of each pass, with the same `(from, to, type)` triple. -/
theorem C12_triple_repeated :
    [mlNode, aiNode].Pairwise (fun a b => a.id ≠ b.id) ∧
      ∃ e₁ e₂, extractRelations relText [mlNode, aiNode] = [e₁, e₂] ∧
        e₁.triple = e₂.triple ∧ e₁.weight ≠ e₂.weight := by
  refine ⟨List.pairwise_pair.2 (by decide), relCoocEdge, relPatternEdge, relText_relations,
    rfl, ?_⟩
  show (1 : ℝ) ≠ 0.8
  norm_num

/-- C12, amended: for a concept list with pairwise distinct ids, the edges of the
co-occurrence pass of `extractRelations` have pairwise distinct `(from, to)`
pairs, hence pairwise distinct `(from, to, type)` triples; `extractRelations`
appends the edges of the pattern pass to them without any deduplication. -/
theorem C12_cooccurrence_pairs_distinct (text : List Char) (concepts : List Node)
    (hids : concepts.Pairwise fun a b => a.id ≠ b.id) :
    ((orderedPairs concepts).filterMap (cooccurrenceEdge (relationSentences text))).Pairwise
      (fun a b => (a.fromId, a.toId) ≠ (b.fromId, b.toId)) ∧
    ((orderedPairs concepts).filterMap (cooccurrenceEdge (relationSentences text))).Pairwise
      (fun a b => a.triple ≠ b.triple) ∧
    extractRelations text concepts =
      (orderedPairs concepts).filterMap (cooccurrenceEdge (relationSentences text)) ++
        extractPatternBasedRelations text concepts := by
  have h1 : ((orderedPairs concepts).filterMap
      (cooccurrenceEdge (relationSentences text))).Pairwise
      (fun a b => (a.fromId, a.toId) ≠ (b.fromId, b.toId)) := by
    refine List.Pairwise.filterMap _ ?_ (orderedPairs_pairwise concepts hids)
    intro p q hpq e he e' he' heq
    obtain ⟨_, hf, ht, _⟩ := cooccurrenceEdge_some (Option.mem_def.1 he)
    obtain ⟨_, hf', ht', _⟩ := cooccurrenceEdge_some (Option.mem_def.1 he')
    rw [hf, ht, hf', ht'] at heq
    exact hpq heq
  refine ⟨h1, h1.imp ?_, rfl⟩
  intro a b hab heq
  apply hab
  have h2 : a.fromId = b.fromId := congrArg Prod.fst heq
  have h3 : a.toId = b.toId := congrArg (fun t => t.2.1) heq
  rw [h2, h3]

/-- C12, amended, at a concrete input: the two concepts "机器学习", "人工智能"
have distinct ids. -/
theorem C12_cooccurrence_pairs_distinct_witness :
    ((orderedPairs [mlNode, aiNode]).filterMap
        (cooccurrenceEdge (relationSentences relText))).Pairwise
      (fun a b => (a.fromId, a.toId) ≠ (b.fromId, b.toId)) ∧
    ((orderedPairs [mlNode, aiNode]).filterMap
        (cooccurrenceEdge (relationSentences relText))).Pairwise
      (fun a b => a.triple ≠ b.triple) ∧
    extractRelations relText [mlNode, aiNode] =
      (orderedPairs [mlNode, aiNode]).filterMap (cooccurrenceEdge (relationSentences relText)) ++
        extractPatternBasedRelations relText [mlNode, aiNode] :=
  C12_cooccurrence_pairs_distinct relText [mlNode, aiNode] (List.pairwise_pair.2 (by decide))

/-! ## Co-occurrence strength and relation type (C13, C14) -/

theorem enum_filter_map_snd {α : Type} (P : α → Bool) (l : List α) :
    (l.enum.filter fun p => P p.2).map Prod.snd = l.filter P := by
  have h := List.filter_map (p := P) (f := Prod.snd) (l := l.enum)
  rw [List.enum_map_snd] at h
  rw [h]
  rfl

theorem cooccurrenceCount_eq (c1 c2 : List Char) (sentences : List (List Char)) :
    (sentences.enum.filter fun p => includes p.2 c1 && includes p.2 c2).length =
      (sentences.filter fun s => includes s c1 && includes s c2).length := by
  rw [← enum_filter_map_snd (fun s => includes s c1 && includes s c2) sentences,
    List.length_map]

theorem mem_orderedPairs_iff {α : Type} (l : List α) (p : α × α) :
    p ∈ orderedPairs l ↔ ∃ i j : Nat, i < j ∧ l[i]? = some p.1 ∧ l[j]? = some p.2 := by
  induction l with
  | nil =>
    constructor
    · intro h
      cases h
    · rintro ⟨i, j, _, h, _⟩
      simp at h
  | cons a rest ih =>
    simp only [orderedPairs, List.mem_append, List.mem_map]
    constructor
    · rintro (⟨b, hb, rfl⟩ | h)
      · obtain ⟨n, hn⟩ := List.mem_iff_getElem?.1 hb
        exact ⟨0, n + 1, Nat.succ_pos _, List.getElem?_cons_zero, by simpa using hn⟩
      · obtain ⟨i, j, hij, hi, hj⟩ := ih.1 h
        exact ⟨i + 1, j + 1, Nat.succ_lt_succ hij, by simpa using hi, by simpa using hj⟩
    · rintro ⟨i, j, hij, hi, hj⟩
      obtain ⟨j', rfl⟩ : ∃ j', j = j' + 1 := ⟨j - 1, by omega⟩
      rw [List.getElem?_cons_succ] at hj
      cases i with
      | zero =>
        left
        rw [List.getElem?_cons_zero] at hi
        have ha : a = p.1 := Option.some.inj hi
        exact ⟨p.2, List.mem_iff_getElem?.2 ⟨j', hj⟩, by rw [ha]⟩
      | succ i' =>
        right
        rw [List.getElem?_cons_succ] at hi
        exact ih.2 ⟨i', j', by omega, hi, hj⟩

/-- C13: for a non-empty sentence list `calculateCooccurrence` returns the
strength `min 1 (10 * count / totalSentences)`, `count` being the number of
sentences that contain both labels; and the co-occurrence pass of
`extractRelations` visits the pairs `(i, j)`, `i < j`, and emits an edge for a
pair exactly when that strength exceeds 0.3, with the strength as weight. -/
theorem C13_cooccurrence_strength :
    (∀ (c1 c2 : List Char) (sentences : List (List Char)), sentences ≠ [] →
      (calculateCooccurrence c1 c2 sentences).strength =
        min 1 (10 * ((sentences.filter fun s => includes s c1 && includes s c2).length : ℝ) /
          (sentences.length : ℝ))) ∧
    (∀ (text : List Char) (concepts : List Node),
      extractRelations text concepts =
        (orderedPairs concepts).filterMap (cooccurrenceEdge (relationSentences text)) ++
          extractPatternBasedRelations text concepts) ∧
    (∀ (concepts : List Node) (p : Node × Node),
      p ∈ orderedPairs concepts ↔
        ∃ i j : Nat, i < j ∧ concepts[i]? = some p.1 ∧ concepts[j]? = some p.2) ∧
    (∀ (sentences : List (List Char)) (p : Node × Node),
      ((calculateCooccurrence p.1.label p.2.label sentences).strength > 0.3 →
        ∃ e, cooccurrenceEdge sentences p = some e ∧ e.fromId = p.1.id ∧ e.toId = p.2.id ∧
          e.weight = (calculateCooccurrence p.1.label p.2.label sentences).strength) ∧
      (¬ (calculateCooccurrence p.1.label p.2.label sentences).strength > 0.3 →
        cooccurrenceEdge sentences p = none)) := by
  refine ⟨fun c1 c2 sentences _ => ?_, fun _ _ => rfl, fun concepts p =>
    mem_orderedPairs_iff concepts p, fun sentences p => ⟨fun h => ?_, fun h => ?_⟩⟩
  · show min _ 1 = _
    rw [cooccurrenceCount_eq, min_comm]
    congr 1
    ring
  · unfold cooccurrenceEdge
    dsimp only
    rw [if_pos h]
    exact ⟨_, rfl, rfl, rfl, rfl⟩
  · unfold cooccurrenceEdge
    dsimp only
    rw [if_neg h]

/-- C13 at a concrete input: in "机器学习属于人工智能的分支。" the one sentence
contains both labels, the strength is `min 1 (10 * 1 / 1) = 1`, and the edge is
emitted with weight 1. -/
theorem C13_cooccurrence_strength_witness :
    (calculateCooccurrence "机器学习".toList "人工智能".toList
        (relationSentences relText)).strength =
      min 1 (10 * (((relationSentences relText).filter fun s =>
        includes s "机器学习".toList && includes s "人工智能".toList).length : ℝ) /
          ((relationSentences relText).length : ℝ)) :=
  C13_cooccurrence_strength.1 _ _ _ (by decide)

theorem foldl_evidence_of_ne_nil (hits : List (Nat × List Char)) :
    ∀ ev : List Nat, ev ≠ [] →
      hits.foldl (fun ev p => if ev.isEmpty then jsSubstring (toUnits p.2) 0 100 else ev) ev =
        ev := by
  induction hits with
  | nil => intro ev _; rfl
  | cons p hits ih =>
    intro ev hev
    have hne : ev.isEmpty = false := by
      cases ev with
      | nil => exact absurd rfl hev
      | cons _ _ => rfl
    rw [List.foldl_cons]
    simp only [hne, Bool.false_eq_true, if_false]
    exact ih ev hev

theorem jsSubstring_zero (s : List Nat) (n : Nat) : jsSubstring s 0 (n : Int) = s.take n := by
  unfold jsSubstring
  simp only [Int.toNat_zero, Int.toNat_ofNat, Nat.zero_min, Nat.zero_le, Nat.min_eq_left,
    Nat.max_eq_right, Nat.sub_zero, List.drop_zero]
  rw [List.take_eq_take]
  simp only [Nat.min_assoc, Nat.min_self]

theorem includes_ne_nil {s w : List Char} (h : includes s w = true) (hw : w ≠ []) : s ≠ [] := by
  intro hs
  subst hs
  cases w with
  | nil => exact hw rfl
  | cons _ _ => cases h

theorem toUnits_ne_nil {s : List Char} (h : s ≠ []) : toUnits s ≠ [] := by
  cases s with
  | nil => exact absurd rfl h
  | cons c cs =>
    unfold toUnits
    rw [List.flatMap_cons]
    split <;> simp

theorem calculateCooccurrence_evidence (c1 c2 : List Char) (sentences : List (List Char))
    (s : List Char) (rest : List (List Char))
    (hfirst : (sentences.filter fun t => includes t c1 && includes t c2) = s :: rest)
    (hne : c1 ≠ [] ∨ c2 ≠ []) :
    (calculateCooccurrence c1 c2 sentences).evidence = (toUnits s).take 100 := by
  have hs : s ∈ sentences.filter fun t => includes t c1 && includes t c2 := by
    rw [hfirst]
    exact List.mem_cons_self _ _
  have hboth := (List.mem_filter.1 hs).2
  simp only [Bool.and_eq_true] at hboth
  have hsne : s ≠ [] := by
    rcases hne with h | h
    · exact includes_ne_nil hboth.1 h
    · exact includes_ne_nil hboth.2 h
  have hev : (toUnits s).take 100 ≠ [] := by
    have := toUnits_ne_nil hsne
    cases hu : toUnits s with
    | nil => exact absurd hu this
    | cons a as => simp
  have hmap := enum_filter_map_snd (fun t => includes t c1 && includes t c2) sentences
  rw [hfirst] at hmap
  show List.foldl _ [] (sentences.enum.filter fun p => includes p.2 c1 && includes p.2 c2) = _
  cases hh : (sentences.enum.filter fun p => includes p.2 c1 && includes p.2 c2) with
  | nil =>
    rw [hh] at hmap
    cases hmap
  | cons p hits =>
    rw [hh] at hmap
    have hp : p.2 = s := by
      simp only [List.map_cons, List.cons.injEq] at hmap
      exact hmap.1
    rw [List.foldl_cons]
    have h0 : ([] : List Nat).isEmpty = true := rfl
    simp only [h0, if_true]
    rw [hp, show jsSubstring (toUnits s) 0 100 = (toUnits s).take 100 from
      jsSubstring_zero (toUnits s) 100]
    exact foldl_evidence_of_ne_nil hits _ hev

/-- C14, as stated, fails: the sentence "吸烟是一种导致疾病的习惯" contains both
labels, does not contain "属于" and contains "导致", so the claim gives
`leads_to`; the source tests "是一种" together with "属于" and returns
`part_of`. -/
theorem C14_other_trigger :
    (includes isaSentence "吸烟".toList && includes isaSentence "疾病".toList) = true ∧
      includes isaSentence "属于".toList = false ∧ includes isaSentence "导致".toList = true ∧
      (calculateCooccurrence "吸烟".toList "疾病".toList [isaSentence]).relationType =
        "part_of" ∧
      (calculateCooccurrence "吸烟".toList "疾病".toList [isaSentence]).relationType ≠
        "leads_to" := by
  decide

/-- C14, amended: when some sentence contains both labels (not both empty), the
relation type is decided by the trigger substrings occurring in the evidence
snippet, the first 100 code units of the first co-occurring sentence: `part_of`
for "属于" or "是一种", otherwise `leads_to` for "导致" or "引起", otherwise
`depends_on` for "依赖" or "需要", otherwise `similar_to` for "相似" or "类似",
otherwise `related_to`. -/
theorem C14_relation_type (c1 c2 : List Char) (sentences : List (List Char))
    (s : List Char) (rest : List (List Char))
    (hfirst : (sentences.filter fun t => includes t c1 && includes t c2) = s :: rest)
    (hne : c1 ≠ [] ∨ c2 ≠ []) :
    (calculateCooccurrence c1 c2 sentences).evidence = (toUnits s).take 100 ∧
      (calculateCooccurrence c1 c2 sentences).relationType =
        relationTypeOf ((toUnits s).take 100) := by
  have hev := calculateCooccurrence_evidence c1 c2 sentences s rest hfirst hne
  refine ⟨hev, ?_⟩
  show inferRelationType (calculateCooccurrence c1 c2 sentences).evidence = _
  rw [hev]
  rfl

/-- C14, amended, at a concrete input: for the one sentence
"吸烟是一种导致疾病的习惯" the evidence snippet is the whole sentence and the type
is `part_of`. -/
theorem C14_relation_type_witness :
    (calculateCooccurrence "吸烟".toList "疾病".toList [isaSentence]).evidence =
        (toUnits isaSentence).take 100 ∧
      (calculateCooccurrence "吸烟".toList "疾病".toList [isaSentence]).relationType =
        relationTypeOf ((toUnits isaSentence).take 100) :=
  C14_relation_type "吸烟".toList "疾病".toList [isaSentence] isaSentence [] (by decide)
    (Or.inl (by decide))

/-! ## Keyword and entity with the same id (C15) -/

theorem addKeyword_eq (text : List Char) (total : Nat) (m : List (List Char × Node))
    (ik : Nat × Keyword) :
    addKeyword text total m ik =
      if ik.2.weight > 0.3 then mapSet (generateId ik.2.word) (keywordNode text total ik) m
      else m := rfl

theorem keys_subset_mapSet (key : List Char) (value : Node) (m : List (List Char × Node)) :
    ∀ k ∈ m.map Prod.fst, k ∈ (mapSet key value m).map Prod.fst := by
  intro k hk
  rw [mapSet_keys]
  split
  · exact hk
  · exact List.mem_append_left _ hk

theorem key_mem_mapSet (key : List Char) (value : Node) (m : List (List Char × Node)) :
    key ∈ (mapSet key value m).map Prod.fst := by
  rw [mapSet_keys]
  split
  · assumption
  · exact List.mem_append_right _ (List.mem_singleton_self _)

theorem foldl_addKeyword_keys (text : List Char) (total : Nat) :
    ∀ (L : List (Nat × Keyword)) (m : List (List Char × Node)),
      (∀ k ∈ m.map Prod.fst, k ∈ (L.foldl (addKeyword text total) m).map Prod.fst) ∧
      ∀ p ∈ L, p.2.weight > 0.3 →
        generateId p.2.word ∈ (L.foldl (addKeyword text total) m).map Prod.fst := by
  intro L
  induction L with
  | nil => intro m; exact ⟨fun k hk => hk, fun p hp => by cases hp⟩
  | cons q L ih =>
    intro m
    have hstep : ∀ k ∈ m.map Prod.fst, k ∈ (addKeyword text total m q).map Prod.fst := by
      intro k hk
      rw [addKeyword_eq]
      split
      · exact keys_subset_mapSet _ _ _ k hk
      · exact hk
    obtain ⟨ih1, ih2⟩ := ih (addKeyword text total m q)
    refine ⟨fun k hk => ih1 k (hstep k hk), fun p hp hw => ?_⟩
    rcases List.mem_cons.1 hp with rfl | hp'
    · apply ih1
      rw [addKeyword_eq, if_pos hw]
      exact key_mem_mapSet _ _ _
    · exact ih2 p hp' hw

theorem foldl_addKeyword_entries (text : List Char) (total : Nat) :
    ∀ (L : List (Nat × Keyword)) (m : List (List Char × Node)),
      ∀ e ∈ L.foldl (addKeyword text total) m,
        e ∈ m ∨ ∃ p ∈ L, p.2.weight > 0.3 ∧ e = (generateId p.2.word, keywordNode text total p) := by
  intro L
  induction L with
  | nil => intro m e he; exact Or.inl he
  | cons q L ih =>
    intro m e he
    rcases ih (addKeyword text total m q) e he with h | ⟨p, hp, hw, hpe⟩
    · rw [addKeyword_eq] at h
      split at h
      · rename_i hw
        rcases mem_mapSet h with h' | h'
        · exact Or.inr ⟨q, List.mem_cons_self _ _, hw, h'⟩
        · exact Or.inl h'
      · exact Or.inl h
    · exact Or.inr ⟨p, List.mem_cons_of_mem _ hp, hw, hpe⟩

theorem mapHas_eq_false {key : List Char} {m : List (List Char × Node)}
    (h : mapHas key m = false) : key ∉ m.map Prod.fst := by
  intro hk
  obtain ⟨e, he, rfl⟩ := List.mem_map.1 hk
  have : mapHas e.1 m = true := by
    unfold mapHas
    rw [List.any_eq_true]
    exact ⟨e, he, by rw [decide_eq_true_eq]⟩
  rw [h] at this
  cases this

theorem addEntity_entries (m : List (List Char × Node)) (entity : Entity) :
    (∀ k ∈ m.map Prod.fst, k ∈ (addEntity m entity).map Prod.fst) ∧
      ∀ e ∈ addEntity m entity, e ∈ m ∨ e.1 ∉ m.map Prod.fst := by
  unfold addEntity
  dsimp only
  split
  · split
    · rename_i hhas
      have hnot : generateId entity.text ∉ m.map Prod.fst := by
        apply mapHas_eq_false
        cases hm : mapHas (generateId entity.text) m with
        | false => rfl
        | true =>
          rw [hm] at hhas
          cases hhas
      refine ⟨keys_subset_mapSet _ _ _, fun e he => ?_⟩
      rcases mem_mapSet he with rfl | h'
      · exact Or.inr hnot
      · exact Or.inl h'
    · exact ⟨fun k hk => hk, fun e he => Or.inl he⟩
  · exact ⟨fun k hk => hk, fun e he => Or.inl he⟩

theorem foldl_addEntity_entries :
    ∀ (es : List Entity) (m : List (List Char × Node)),
      (∀ k ∈ m.map Prod.fst, k ∈ (es.foldl addEntity m).map Prod.fst) ∧
        ∀ e ∈ es.foldl addEntity m, e ∈ m ∨ e.1 ∉ m.map Prod.fst := by
  intro es
  induction es with
  | nil => intro m; exact ⟨fun k hk => hk, fun e he => Or.inl he⟩
  | cons a es ih =>
    intro m
    obtain ⟨h1, h2⟩ := addEntity_entries m a
    obtain ⟨ih1, ih2⟩ := ih (addEntity m a)
    refine ⟨fun k hk => ih1 k (h1 k hk), fun e he => ?_⟩
    rcases ih2 e he with h | h
    · exact h2 e h
    · exact Or.inr fun hk => h (h1 _ hk)

/-- C15, amended: when a keyword of weight above 0.3 normalizes to the id of a
node of `extractConcepts` (whether or not a recognized entity normalizes to the
same id), that node was built from a keyword of weight above 0.3 with that id:
it has that keyword's word as label, its weight as importance, its frequency,
and the type `classifyConceptType` gives the keyword.  The entity is skipped,
its type is not used. -/
theorem C15_keyword_wins (text : List Char) (n : Node) (hn : n ∈ extractConcepts text)
    (k : Keyword) (hk : k ∈ extractKeywords text 30) (hw : k.weight > 0.3)
    (hid : n.id = generateId k.word) :
    ∃ k' ∈ extractKeywords text 30, k'.weight > 0.3 ∧ generateId k'.word = n.id ∧
      n.label = k'.word ∧ n.properties.importance = k'.weight ∧
      n.properties.frequency = k'.frequency ∧ n.type = classifyConceptType k'.word text := by
  have hinv := conceptsInv_extractConcepts text
  unfold extractConcepts at hn
  dsimp only at hn
  obtain ⟨e, he, rfl⟩ := List.mem_map.1 hn
  obtain ⟨i, hi⟩ : ∃ i, (i, k) ∈ (extractKeywords text 30).enum := by
    obtain ⟨i, hik⟩ := List.mem_iff_getElem?.1 hk
    exact ⟨i, List.mem_enum_iff_getElem?.2 hik⟩
  have hkey : e.1 ∈ ((extractKeywords text 30).enum.foldl
      (addKeyword text (extractKeywords text 30).length) []).map Prod.fst := by
    rw [← (hinv.2 e he).1, hid]
    exact (foldl_addKeyword_keys text _ _ []).2 (i, k) hi hw
  rcases (foldl_addEntity_entries _ _).2 e he with h | h
  · rcases foldl_addKeyword_entries text _ _ [] e h with h' | ⟨p, hp, hpw, rfl⟩
    · cases h'
    · exact ⟨p.2, List.snd_mem_of_mem_enum hp, hpw, rfl, rfl, rfl, rfl, rfl⟩
  · exact absurd hkey h

theorem numberText_keywords :
    extractKeywords numberText 30 =
      [{ word := "12".toList, weight := (1 : ℝ) / 1 * Real.log (6 / (1 + 1)), frequency := 1 }] := by
  have h1 : calculateWordFrequency (segmentText numberText) = [("12".toList, 1)] := by decide
  have h2 : tfidfSentences numberText =
      ["12".toList, "c".toList, "c".toList, "c".toList, "c".toList, "c".toList] := by decide
  have h3 : docsWithWord
      ["12".toList, "c".toList, "c".toList, "c".toList, "c".toList, "c".toList] "12".toList = 1 := by
    decide
  have h4 : objectEntries [("12".toList, 1)] = [("12".toList, 1)] := by decide
  rw [extractKeywords_eq, h1]
  unfold calculateTFIDF
  rw [h2, h4]
  show [(tfidfEntry _ _ ("12".toList, 1)).toKeyword] = _
  unfold TfIdf.toKeyword
  rw [tfidfEntry_score]
  simp only [tfidfEntry, h3, List.map_cons, List.map_nil, List.sum_cons, List.sum_nil,
    List.length_cons, List.length_nil]
  norm_num

theorem numberText_entities :
    extractEntities numberText = [{ text := "12".toList, type := "number", confidence := 0.8 }] := by
  rw [extractEntities_eq]
  have h : entityMatches numberText = [("12".toList, "number")] := by decide
  rw [h]
  rfl

theorem numberText_concepts : extractConcepts numberText = [numberNode] := by
  have hw : (1 : ℝ) / 1 * Real.log (6 / (1 + 1)) > 0.3 :=
    lt_trans (by norm_num) log_three_gt_one
  have hty : classifyConceptType "12".toList numberText = "concept" := by decide
  have hid : generateId "12".toList = "12".toList := by decide
  unfold extractConcepts
  dsimp only
  rw [numberText_entities, numberText_keywords]
  simp only [List.enum_singleton, List.foldl_cons, List.foldl_nil, List.length_singleton]
  rw [addKeyword_eq, if_pos hw]
  unfold addEntity keywordNode
  dsimp only
  rw [if_pos (by norm_num), hid, hty]
  rfl

/-- C15, as stated, fails: in "12。c。c。c。c。c" the keyword "12" (weight `ln 3`)
and the entity "12" (rule `number`, confidence 0.8) normalize to the same id, and
the one node produced has the type `concept` that `classifyConceptType` gives the
keyword, not the entity's type `number`. -/
theorem C15_entity_type_dropped :
    ∃ k ∈ extractKeywords numberText 30, ∃ e ∈ extractEntities numberText,
      k.weight > 0.3 ∧ e.confidence > 0.7 ∧ generateId k.word = generateId e.text ∧
        ∃ n, extractConcepts numberText = [n] ∧ n.id = generateId k.word ∧
          n.properties.importance = k.weight ∧ n.type = "concept" ∧ n.type ≠ e.type := by
  refine ⟨_, by rw [numberText_keywords]; exact List.mem_cons_self _ _,
    _, by rw [numberText_entities]; exact List.mem_cons_self _ _, ?_, ?_, rfl, numberNode,
    numberText_concepts, by decide, rfl, rfl, by decide⟩
  · exact lt_trans (by norm_num) log_three_gt_one
  · show (0.8 : ℝ) > 0.7
    norm_num

/-- C15, amended, at a concrete input: the node of "12。c。c。c。c。c" is built
from the keyword "12". -/
theorem C15_keyword_wins_witness :
    ∃ k' ∈ extractKeywords numberText 30, k'.weight > 0.3 ∧ generateId k'.word = numberNode.id ∧
      numberNode.label = k'.word ∧ numberNode.properties.importance = k'.weight ∧
      numberNode.properties.frequency = k'.frequency ∧
      numberNode.type = classifyConceptType k'.word numberText :=
  C15_keyword_wins numberText numberNode
    (by rw [numberText_concepts]; exact List.mem_cons_self _ _)
    { word := "12".toList, weight := (1 : ℝ) / 1 * Real.log (6 / (1 + 1)), frequency := 1 }
    (by rw [numberText_keywords]; exact List.mem_cons_self _ _)
    (lt_trans (by norm_num) log_three_gt_one) (by decide)

/-! ## Node selection of `constructGraph` and `optimizeGraph` (C16, C17) -/

/-- C16, as stated, fails: from the concepts "人工智能" (importance 0.8) and
"机器学习" (importance 0.9), in this order, with `maxNodes = 1` and
`minConfidence = 0.6`, `constructGraph` keeps "人工智能" and leaves out
"机器学习", which qualifies and has the greater importance. -/
theorem C16_not_highest_importance :
    (constructGraph [aiNode, mlNode] [] 1 0.6).nodes = [aiNode] ∧
      mlNode ∈ [aiNode, mlNode] ∧ mlNode.properties.importance ≥ 0.6 ∧
      mlNode.id ≠ aiNode.id ∧ mlNode.properties.importance > aiNode.properties.importance := by
  have h1 : decide (aiNode.properties.importance ≥ 0.6) = true := by
    rw [decide_eq_true_eq]
    show (0.8 : ℝ) ≥ 0.6
    norm_num
  have h2 : decide (mlNode.properties.importance ≥ 0.6) = true := by
    rw [decide_eq_true_eq]
    show (0.9 : ℝ) ≥ 0.6
    norm_num
  refine ⟨?_, List.mem_cons_of_mem _ (List.mem_cons_self _ _), ?_, by decide, ?_⟩
  · unfold constructGraph
    dsimp only
    have hfil : [aiNode, mlNode].filter (fun concept : Node =>
        decide (concept.properties.importance ≥ 0.6)) = [aiNode, mlNode] := by
      rw [List.filter_eq_self]
      intro a ha
      simp only [List.mem_cons, List.mem_singleton, List.not_mem_nil, or_false] at ha
      rcases ha with rfl | rfl
      · exact h1
      · exact h2
    rw [hfil]
    rfl
  · show (0.9 : ℝ) ≥ 0.6
    norm_num
  · show (0.9 : ℝ) > 0.8
    norm_num

/-- C16, amended: the node list returned by `constructGraph` has at most
`maxNodes` nodes, every one with importance at least `minConfidence`, and it is
the first `maxNodes` qualifying concepts in the order of the input list; the
concepts are not sorted by importance. -/
theorem C16_first_qualifying (concepts : List Node) (relations : List Edge) (maxNodes : Nat)
    (minConfidence : ℝ) :
    (constructGraph concepts relations maxNodes minConfidence).nodes =
      (concepts.filter fun concept =>
        decide (concept.properties.importance ≥ minConfidence)).take maxNodes ∧
    (constructGraph concepts relations maxNodes minConfidence).nodes.length ≤ maxNodes ∧
    (∀ n ∈ (constructGraph concepts relations maxNodes minConfidence).nodes,
      n.properties.importance ≥ minConfidence) ∧
    List.Sublist (constructGraph concepts relations maxNodes minConfidence).nodes concepts := by
  refine ⟨rfl, ?_, fun n hn => ?_, constructGraph_nodes_sublist _ _ _ _⟩
  · show ((concepts.filter fun concept =>
        decide (concept.properties.importance ≥ minConfidence)).take maxNodes).length ≤ maxNodes
    rw [List.length_take]
    exact Nat.min_le_left _ _
  · have h := List.mem_of_mem_take (show n ∈ (concepts.filter fun concept =>
        decide (concept.properties.importance ≥ minConfidence)).take maxNodes from hn)
    have h' := (List.mem_filter.1 h).2
    rw [decide_eq_true_eq] at h'
    exact h'

theorem mem_connectedNodeIds (graph : Graph) (i : List Char) :
    (i ∈ graph.edges.flatMap fun edge => [edge.fromId, edge.toId]) ↔
      ∃ e ∈ graph.edges, e.fromId = i ∨ e.toId = i := by
  rw [List.mem_flatMap]
  constructor
  · rintro ⟨e, he, hi⟩
    simp only [List.mem_cons, List.mem_singleton, List.not_mem_nil, or_false] at hi
    rcases hi with h | h
    · exact ⟨e, he, Or.inl h.symm⟩
    · exact ⟨e, he, Or.inr h.symm⟩
  · rintro ⟨e, he, h | h⟩
    · exact ⟨e, he, by rw [h]; exact List.mem_cons_self _ _⟩
    · exact ⟨e, he, by rw [h]; exact List.mem_cons_of_mem _ (List.mem_cons_self _ _)⟩

/-- C17: up to the layout position, the node list of `optimizeGraph graph` is the
input node list filtered, in the input order, by "is an endpoint of an edge or
has importance above 0.8"; so an input node survives exactly when it is an
endpoint of at least one edge or its importance is strictly greater than 0.8.
The edge list is returned unchanged. -/
theorem C17_optimizeGraph_nodes (graph : Graph) :
    (optimizeGraph graph).nodes.map Node.core =
      (graph.nodes.filter fun node =>
        decide (node.id ∈ graph.edges.flatMap fun edge => [edge.fromId, edge.toId]) ||
          decide (node.properties.importance > 0.8)).map Node.core ∧
    (∀ n ∈ graph.nodes,
      ((∃ m ∈ (optimizeGraph graph).nodes, m.core = n.core) ↔
        ((∃ e ∈ graph.edges, e.fromId = n.id ∨ e.toId = n.id) ∨
          n.properties.importance > 0.8))) ∧
    List.Sublist ((optimizeGraph graph).nodes.map Node.core) (graph.nodes.map Node.core) ∧
    (optimizeGraph graph).edges = graph.edges := by
  have hmap : (optimizeGraph graph).nodes.map Node.core =
      (graph.nodes.filter fun node =>
        decide (node.id ∈ graph.edges.flatMap fun edge => [edge.fromId, edge.toId]) ||
          decide (node.properties.importance > 0.8)).map Node.core := by
    unfold optimizeGraph mergeSimilarNodes
    exact optimizeLayout_map Node.core (fun _ _ => rfl) _
  refine ⟨hmap, fun n hn => ?_, ?_, rfl⟩
  · constructor
    · rintro ⟨m, hm, hmn⟩
      have h1 : n.core ∈ (optimizeGraph graph).nodes.map Node.core :=
        List.mem_map.2 ⟨m, hm, hmn⟩
      rw [hmap] at h1
      obtain ⟨n', hn', hcore⟩ := List.mem_map.1 h1
      have hP := (List.mem_filter.1 hn').2
      simp only [Bool.or_eq_true, decide_eq_true_eq] at hP
      have hid : n'.id = n.id := congrArg Prod.fst hcore
      have hpr : n'.properties = n.properties := congrArg (fun t => t.2.2.2) hcore
      rw [hid, hpr, mem_connectedNodeIds] at hP
      exact hP
    · intro h
      have hP : (decide (n.id ∈ graph.edges.flatMap fun edge => [edge.fromId, edge.toId]) ||
          decide (n.properties.importance > 0.8)) = true := by
        simp only [Bool.or_eq_true, decide_eq_true_eq]
        rw [mem_connectedNodeIds]
        exact h
      have h1 : n.core ∈ (optimizeGraph graph).nodes.map Node.core := by
        rw [hmap]
        exact List.mem_map.2 ⟨n, List.mem_filter.2 ⟨hn, hP⟩, rfl⟩
      obtain ⟨m, hm, hmn⟩ := List.mem_map.1 h1
      exact ⟨m, hm, hmn⟩
  · rw [hmap]
    exact (List.filter_sublist _).map _

/-! ## Provider routing (C18, C19) -/

/-- C18: whatever the prompt, the task kind, the preferred model, the value of
`Math.random()` and the outcomes of the two provider calls, `processWithAI`
resolves with a result object; when both provider calls fail, the result is
`fallbackProcessing text task`. -/
theorem C18_router_total {R : Type} (gemini deepseek : Except String R) (random : ℚ)
    (text : List Char) (task preferredModel : String) :
    (∃ result,
      (processWithAI gemini deepseek random text task preferredModel).outcome = .ok result) ∧
    (∀ e₁ e₂, gemini = .error e₁ → deepseek = .error e₂ →
      (processWithAI gemini deepseek random text task preferredModel).outcome =
        .ok (fallbackProcessing text task)) := by
  constructor
  · unfold processWithAI
    dsimp only
    cases prefersGemini preferredModel random <;> cases gemini <;> cases deepseek <;>
      exact ⟨_, rfl⟩
  · rintro e₁ e₂ rfl rfl
    unfold processWithAI
    dsimp only
    cases prefersGemini preferredModel random <;> rfl

theorem processWithAI_calls {R : Type} (gemini deepseek : Except String R) (random : ℚ)
    (text : List Char) (task preferredModel : String) :
    (processWithAI gemini deepseek random text task preferredModel).calls =
      match settles gemini deepseek (primaryProvider preferredModel random) with
      | .ok _ => [primaryProvider preferredModel random]
      | .error _ =>
        [primaryProvider preferredModel random, (primaryProvider preferredModel random).other] := by
  unfold processWithAI primaryProvider
  dsimp only
  cases prefersGemini preferredModel random <;> cases gemini <;> cases deepseek <;> rfl

theorem processWithAI_outcome {R : Type} (gemini deepseek : Except String R) (random : ℚ)
    (text : List Char) (task preferredModel : String) :
    (processWithAI gemini deepseek random text task preferredModel).outcome =
      match settles gemini deepseek (primaryProvider preferredModel random) with
      | .ok r => .ok (.provider r)
      | .error _ =>
        match settles gemini deepseek (primaryProvider preferredModel random).other with
        | .ok r => .ok (.provider r)
        | .error _ => .ok (fallbackProcessing text task) := by
  unfold processWithAI primaryProvider
  dsimp only
  cases prefersGemini preferredModel random <;> cases gemini <;> cases deepseek <;> rfl

/-- C19: when the provider tried first fails and the other one succeeds, the
result is the other provider's result and the two providers were invoked once
each, in this order; when the provider tried first succeeds, the result is its
result and the other provider is not invoked; in every case no provider is
invoked twice. -/
theorem C19_retry_once {R : Type} (gemini deepseek : Except String R) (random : ℚ)
    (text : List Char) (task preferredModel : String) :
    (∀ e r, settles gemini deepseek (primaryProvider preferredModel random) = .error e →
      settles gemini deepseek (primaryProvider preferredModel random).other = .ok r →
      (processWithAI gemini deepseek random text task preferredModel).outcome =
          .ok (.provider r) ∧
        (processWithAI gemini deepseek random text task preferredModel).calls =
          [primaryProvider preferredModel random,
            (primaryProvider preferredModel random).other]) ∧
    (∀ r, settles gemini deepseek (primaryProvider preferredModel random) = .ok r →
      (processWithAI gemini deepseek random text task preferredModel).outcome =
          .ok (.provider r) ∧
        (processWithAI gemini deepseek random text task preferredModel).calls =
          [primaryProvider preferredModel random] ∧
        (primaryProvider preferredModel random).other ∉
          (processWithAI gemini deepseek random text task preferredModel).calls) ∧
    (processWithAI gemini deepseek random text task preferredModel).calls.Nodup := by
  have hne : ∀ q : Provider, q.other ∉ [q] ∧ [q, q.other].Nodup ∧ [q].Nodup := by
    intro q
    cases q <;> decide
  rw [processWithAI_calls, processWithAI_outcome]
  refine ⟨?_, ?_, ?_⟩
  · intro e r h1 h2
    rw [h1, h2]
    exact ⟨rfl, rfl⟩
  · intro r h1
    rw [h1]
    exact ⟨rfl, rfl, (hne _).1⟩
  · cases settles gemini deepseek (primaryProvider preferredModel random)
    · exact (hne _).2.1
    · exact (hne _).2.2

/-- C18 at a concrete input: both provider calls fail and the local result is
returned. -/
theorem C18_router_total_witness :
    (processWithAI (R := Nat) (.error "timeout") (.error "no key") (1 / 4) "摘要".toList
        "extract_concepts" "auto").outcome =
      .ok (fallbackProcessing "摘要".toList "extract_concepts") :=
  (C18_router_total (R := Nat) (.error "timeout") (.error "no key") (1 / 4) "摘要".toList
    "extract_concepts" "auto").2 "timeout" "no key" rfl rfl

/-- C19 at a concrete input: Gemini is preferred and fails, DeepSeek succeeds with
the value 7. -/
theorem C19_retry_once_witness :
    (processWithAI (R := Nat) (.error "timeout") (.ok 7) 0 "摘要".toList "generate_summary"
        "gemini").outcome = .ok (.provider 7) ∧
      (processWithAI (R := Nat) (.error "timeout") (.ok 7) 0 "摘要".toList "generate_summary"
        "gemini").calls = [Provider.gemini, Provider.deepseek] :=
  (C19_retry_once (R := Nat) (.error "timeout") (.ok 7) 0 "摘要".toList "generate_summary"
    "gemini").1 "timeout" 7 rfl rfl

/-! ## Start and completion times (C20) -/

/-- C20: `updateProcessingStatus` leaves a `startedAt` that is already set
unchanged; it changes `startedAt` only when the status is `processing` and it was
not set, and then sets it to the current time; and it changes `completedAt` only
when the status is `completed` or `failed`. -/
theorem C20_timestamps (now : Nat) (status : String) (progress : Option ℚ)
    (error : Option String) (processing : Processing) :
    (processing.startedAt ≠ none →
      (updateProcessingStatus now status progress error processing).startedAt =
        processing.startedAt) ∧
    ((updateProcessingStatus now status progress error processing).startedAt ≠
        processing.startedAt →
      status = "processing" ∧ processing.startedAt = none ∧
        (updateProcessingStatus now status progress error processing).startedAt = some now) ∧
    (status = "processing" → processing.startedAt = none →
      (updateProcessingStatus now status progress error processing).startedAt = some now) ∧
    ((updateProcessingStatus now status progress error processing).completedAt ≠
        processing.completedAt →
      status = "completed" ∨ status = "failed") ∧
    (status = "completed" ∨ status = "failed" →
      (updateProcessingStatus now status progress error processing).completedAt = some now) ∧
    (updateProcessingStatus now status progress error processing).status = status := by
  refine ⟨fun h => ?_, fun h => ?_, fun h1 h2 => ?_, fun h => ?_, fun h => ?_, rfl⟩
  · show (if status = "processing" ∧ processing.startedAt = none then some now
      else processing.startedAt) = _
    rw [if_neg fun hc => h hc.2]
  · by_cases hc : status = "processing" ∧ processing.startedAt = none
    · refine ⟨hc.1, hc.2, ?_⟩
      show (if status = "processing" ∧ processing.startedAt = none then some now
        else processing.startedAt) = _
      rw [if_pos hc]
    · exfalso
      apply h
      show (if status = "processing" ∧ processing.startedAt = none then some now
        else processing.startedAt) = _
      rw [if_neg hc]
  · show (if status = "processing" ∧ processing.startedAt = none then some now
      else processing.startedAt) = _
    rw [if_pos ⟨h1, h2⟩]
  · by_contra hc
    apply h
    show (if status = "completed" ∨ status = "failed" then some now
      else processing.completedAt) = _
    rw [if_neg hc]
  · show (if status = "completed" ∨ status = "failed" then some now
      else processing.completedAt) = _
    rw [if_pos h]

/-- C20 at a concrete input: a second call with status `processing` at time 9
keeps the start time 5 and leaves `completedAt` unset; a call with status
`failed` at time 9 keeps the start time and sets `completedAt` to 9. -/
theorem C20_timestamps_witness :
    (updateProcessingStatus 9 "processing" (some 70) none runningProcessing).startedAt =
        some 5 ∧
      (updateProcessingStatus 9 "processing" (some 70) none runningProcessing).completedAt =
        none ∧
      (updateProcessingStatus 9 "failed" (some 0) (some "boom") runningProcessing).startedAt =
        some 5 ∧
      (updateProcessingStatus 9 "failed" (some 0) (some "boom") runningProcessing).completedAt =
        some 9 :=
  ⟨(C20_timestamps 9 "processing" (some 70) none runningProcessing).1 (by decide),
    by decide,
    (C20_timestamps 9 "failed" (some 0) (some "boom") runningProcessing).1 (by decide),
    (C20_timestamps 9 "failed" (some 0) (some "boom") runningProcessing).2.2.2.2.1
      (Or.inr rfl)⟩

/-! ## Progress of a processing run (C21, C22, C23) -/

theorem runTry_checkpoints (outcome : Call → Option String) (clock : Call → Nat) :
    ∀ (calls : List Call) (processing : Processing),
      List.IsPrefix ((runTry outcome clock calls processing).1.map fun q => (q.status, q.progress))
        (calls.filterMap checkpoint) := by
  intro calls
  induction calls with
  | nil => intro processing; exact List.prefix_refl _
  | cons c rest ih =>
    intro processing
    unfold runTry
    cases ho : outcome c with
    | some message => exact List.nil_prefix
    | none =>
      cases hc : checkpoint c with
      | none =>
        rw [List.filterMap_cons_none hc]
        exact ih processing
      | some sp =>
        rw [List.filterMap_cons_some hc]
        obtain ⟨status, progress⟩ := sp
        dsimp only
        rw [List.map_cons]
        exact (List.prefix_cons_inj _).2 (ih _)

theorem runTry_rejection (outcome : Call → Option String) (clock : Call → Nat) :
    ∀ (calls : List Call) (processing : Processing),
      (runTry outcome clock calls processing).2 = calls.findSome? outcome := by
  intro calls
  induction calls with
  | nil => intro processing; rfl
  | cons c rest ih =>
    intro processing
    unfold runTry
    rw [List.findSome?_cons]
    cases ho : outcome c with
    | some message => rfl
    | none =>
      cases hc : checkpoint c with
      | none => exact ih processing
      | some sp => exact ih _

theorem checkpoints_tryBlock :
    tryBlock.filterMap checkpoint =
      [("processing", 10), ("processing", 30), ("processing", 50), ("processing", 70),
        ("processing", 90), ("completed", 100)] := rfl

/-- The statuses and progress values written by the `try` block, followed by the
state the `catch` block writes, if it writes one. -/
theorem processDocumentAsync_trace (stored : Option Processing)
    (outcome : Call → Option String) (clock : Call → Nat) :
    ∃ (written : List Processing) (failed : List Processing),
      processDocumentAsync stored outcome clock = written ++ failed ∧
      List.IsPrefix (written.map fun q => (q.status, q.progress)) (tryBlock.filterMap checkpoint) ∧
      (∀ q ∈ failed, q.status = "failed" ∧ q.progress = 0) := by
  have hnil : ∀ l : List Processing, l = l ++ [] := fun l => (List.append_nil l).symm
  unfold processDocumentAsync
  cases hf : outcome .findById with
  | some message =>
    dsimp only
    cases hcf : outcome .catchFindById with
    | some m2 => exact ⟨[], [], rfl, List.nil_prefix, fun q hq => by cases hq⟩
    | none =>
      cases stored with
      | none => exact ⟨[], [], rfl, List.nil_prefix, fun q hq => by cases hq⟩
      | some processing =>
        dsimp only
        cases hcs : outcome .catchStatus with
        | some m3 => exact ⟨[], [], rfl, List.nil_prefix, fun q hq => by cases hq⟩
        | none =>
          refine ⟨[], _, rfl, List.nil_prefix, fun q hq => ?_⟩
          rw [List.mem_singleton] at hq
          subst hq
          exact ⟨rfl, rfl⟩
  | none =>
    cases stored with
    | none => exact ⟨[], [], rfl, List.nil_prefix, fun q hq => by cases hq⟩
    | some processing =>
      dsimp only
      have hpre := runTry_checkpoints outcome clock tryBlock processing
      cases hr : (runTry outcome clock tryBlock processing).2 with
      | none => exact ⟨_, [], hnil _, hpre, fun q hq => by cases hq⟩
      | some message =>
        dsimp only
        cases hcf : outcome .catchFindById with
        | some m2 => exact ⟨_, [], hnil _, hpre, fun q hq => by cases hq⟩
        | none =>
          dsimp only
          cases hcs : outcome .catchStatus with
          | some m3 => exact ⟨_, [], hnil _, hpre, fun q hq => by cases hq⟩
          | none =>
            refine ⟨_, _, rfl, hpre, fun q hq => ?_⟩
            rw [List.mem_singleton] at hq
            subst hq
            exact ⟨rfl, rfl⟩


theorem processDocumentAsync_allResolve (processing : Processing)
    (outcome : Call → Option String) (clock : Call → Nat) (h : ∀ c, outcome c = none) :
    (processDocumentAsync (some processing) outcome clock).map (fun q => (q.status, q.progress)) =
      [("processing", 10), ("processing", 30), ("processing", 50), ("processing", 70),
        ("processing", 90), ("completed", 100)] := by
  have ho : outcome = fun _ => none := funext h
  subst ho
  rfl

/-- C21: in every run of `processDocumentAsync`, whichever calls reject, the
progress values written while the status is 'processing' form a prefix of
10, 30, 50, 70, 90, hence a non-decreasing sequence; and a run on an existing
document in which every call resolves writes, in this order, the states
(processing, 10), (processing, 30), (processing, 50), (processing, 70),
(processing, 90), (completed, 100), so it ends completed with progress 100. -/
theorem C21_progress_checkpoints (stored : Option Processing) (outcome : Call → Option String)
    (clock : Call → Nat) :
    List.IsPrefix
      (((processDocumentAsync stored outcome clock).filter fun q =>
        decide (q.status = "processing")).map fun q => q.progress)
      [10, 30, 50, 70, 90] ∧
    List.Pairwise (fun a b => a ≤ b)
      (((processDocumentAsync stored outcome clock).filter fun q =>
        decide (q.status = "processing")).map fun q => q.progress) ∧
    ((∀ c, outcome c = none) → ∀ processing, stored = some processing →
      (processDocumentAsync stored outcome clock).map (fun q => (q.status, q.progress)) =
          [("processing", 10), ("processing", 30), ("processing", 50), ("processing", 70),
            ("processing", 90), ("completed", 100)] ∧
        ∃ final, (processDocumentAsync stored outcome clock).getLast? = some final ∧
          final.status = "completed" ∧ final.progress = 100) := by
  obtain ⟨written, failed, htrace, hpre, hfailed⟩ :=
    processDocumentAsync_trace stored outcome clock
  have hfilter : ((processDocumentAsync stored outcome clock).filter fun q =>
      decide (q.status = "processing")) =
      written.filter fun q => decide (q.status = "processing") := by
    rw [htrace, List.filter_append]
    have : (failed.filter fun q => decide (q.status = "processing")) = [] := by
      rw [List.filter_eq_nil_iff]
      intro q hq
      rw [(hfailed q hq).1]
      decide
    rw [this, List.append_nil]
  have hmap : ((written.filter fun q => decide (q.status = "processing")).map
      fun q => q.progress) =
      (((written.map fun q => (q.status, q.progress)).filter fun sp =>
        decide (sp.1 = "processing")).map Prod.snd) := by
    rw [List.filter_map, List.map_map]
    rfl
  have hhead : List.IsPrefix
      (((processDocumentAsync stored outcome clock).filter fun q =>
        decide (q.status = "processing")).map fun q => q.progress)
      [10, 30, 50, 70, 90] := by
    rw [hfilter, hmap]
    have h1 := (hpre.filter fun sp => decide (sp.1 = "processing")).map Prod.snd
    rw [checkpoints_tryBlock] at h1
    exact h1
  refine ⟨hhead, ?_, fun h processing hs => ?_⟩
  · refine List.Pairwise.sublist hhead.sublist ?_
    simp only [List.pairwise_cons, List.mem_cons, List.mem_singleton, List.not_mem_nil,
      forall_eq_or_imp, forall_eq, List.Pairwise.nil, and_true]
    norm_num
  · subst hs
    have hall := processDocumentAsync_allResolve processing outcome clock h
    refine ⟨hall, ?_⟩
    have hlast := congrArg List.getLast? hall
    rw [List.getLast?_map] at hlast
    cases hl : (processDocumentAsync (some processing) outcome clock).getLast? with
    | none =>
      rw [hl] at hlast
      cases hlast
    | some final =>
      rw [hl] at hlast
      have hfin : (final.status, final.progress) = ("completed", (100 : ℚ)) := by
        simpa using hlast
      exact ⟨final, rfl, congrArg Prod.fst hfin, congrArg Prod.snd hfin⟩

/-- C22, as stated, fails: when the text extraction rejects, the last
checkpoint written before the failure is 10, and the `catch` block then writes
status 'failed' with progress 0. -/
theorem C22_progress_reset :
    (processDocumentAsync (some newProcessing) extractionFails fun _ => 1000).map
      (fun q => (q.status, q.progress, q.error)) =
      [("processing", 10, ""), ("failed", 0, "文本提取失败: ENOENT")] := by
  rfl

/-- C22, amended: when the first rejecting call of the `try` block rejects with a
non-empty message, the document exists and the two calls of the `catch` block
resolve, the last state written by the run has status 'failed', that message as
error, the time of the `catch` block as `completedAt`, and progress 0: the
progress is reset, not kept at the last checkpoint. -/
theorem C22_failed_run (processing : Processing) (outcome : Call → Option String)
    (clock : Call → Nat) (message : String)
    (hfail : firstRejection outcome = some message) (hne : message ≠ "")
    (hfind : outcome .catchFindById = none) (hstatus : outcome .catchStatus = none) :
    ∃ final, (processDocumentAsync (some processing) outcome clock).getLast? = some final ∧
      final.status = "failed" ∧ final.error = message ∧
      final.completedAt = some (clock .catchStatus) ∧ final.progress = 0 := by
  have hattempt : ∃ written, processDocumentAsync (some processing) outcome clock =
      written ++ [updateProcessingStatus (clock .catchStatus) "failed" (some 0) (some message)
        (written.getLast?.getD processing)] := by
    unfold firstRejection at hfail
    rw [List.findSome?_cons] at hfail
    unfold processDocumentAsync
    cases hf : outcome .findById with
    | some m =>
      rw [hf] at hfail
      cases hfail
      dsimp only
      rw [hfind, hstatus]
      exact ⟨[], rfl⟩
    | none =>
      rw [hf] at hfail
      dsimp only at hfail ⊢
      rw [runTry_rejection, hfail]
      dsimp only
      rw [hfind, hstatus]
      exact ⟨_, rfl⟩
  obtain ⟨written, hw⟩ := hattempt
  refine ⟨_, by rw [hw, List.getLast?_append, List.getLast?_singleton]; rfl, rfl, ?_, ?_, rfl⟩
  · unfold updateProcessingStatus
    dsimp only
    rw [if_pos hne]
  · unfold updateProcessingStatus
    dsimp only
    rw [if_pos (Or.inr rfl)]

/-- C22 at the run in which the text extraction rejects. -/
theorem C22_failed_run_witness :
    ∃ final, (processDocumentAsync (some newProcessing) extractionFails fun _ => 1000).getLast? =
        some final ∧
      final.status = "failed" ∧ final.error = "文本提取失败: ENOENT" ∧
      final.completedAt = some 1000 ∧ final.progress = 0 :=
  C22_failed_run newProcessing extractionFails (fun _ => 1000) "文本提取失败: ENOENT"
    (by decide) (by decide) (by decide) (by decide)

/-- C23, as stated, fails: the upload of a text file of 0 bytes is answered with
201, and the run of `processDocumentAsync` it starts, in which every call
resolves, writes status 'processing' five times and ends 'completed'. -/
theorem C23_empty_file_processed :
    upload (some emptyFile) none = (201, some newProcessing) ∧
      (processDocumentAsync (some newProcessing) allResolve fun _ => 1000).map
        (fun q => (q.status, q.progress)) =
        [("processing", 10), ("processing", 30), ("processing", 50), ("processing", 70),
          ("processing", 90), ("completed", 100)] :=
  ⟨rfl, rfl⟩

/-- C23, amended: whatever the uploaded file and its text, once the record is
saved the upload is answered with 201 and `processDocumentAsync` is started on a
'pending' record; if `findById` and the first write resolve, the first state
the run writes has status 'processing' and progress 10, before any text is
extracted and whatever the later calls do.  Neither function tests the size of
the file or the extracted text. -/
theorem C23_processing_before_extraction (file : UploadedFile) (outcome : Call → Option String)
    (clock : Call → Nat)
    (hfind : outcome .findById = none) (hfirst : outcome .status10 = none) :
    upload (some file) none = (201, some newProcessing) ∧
      (processDocumentAsync (some newProcessing) outcome clock).head? =
        some { status := "processing", progress := 10, error := "",
               startedAt := some (clock .status10), completedAt := none } := by
  refine ⟨rfl, ?_⟩
  have hrun : ∃ rest : List Processing × Option String,
      runTry outcome clock tryBlock newProcessing =
      ({ status := "processing", progress := 10, error := "",
         startedAt := some (clock .status10), completedAt := none } :: rest.1, rest.2) := by
    unfold tryBlock
    rw [runTry, hfirst]
    exact ⟨_, rfl⟩
  obtain ⟨rest, hrest⟩ := hrun
  unfold processDocumentAsync
  rw [hfind]
  dsimp only
  rw [hrest]
  cases rest.2 with
  | none => rfl
  | some message =>
    dsimp only
    cases outcome .catchFindById with
    | some m => rfl
    | none =>
      dsimp only
      cases outcome .catchStatus with
      | some m => rfl
      | none => rfl

/-- C23 at the empty text file, in a run in which the text extraction rejects. -/
theorem C23_processing_before_extraction_witness :
    upload (some emptyFile) none = (201, some newProcessing) ∧
      (processDocumentAsync (some newProcessing) extractionFails fun _ => 1000).head? =
        some { status := "processing", progress := 10, error := "",
               startedAt := some 1000, completedAt := none } :=
  C23_processing_before_extraction emptyFile extractionFails (fun _ => 1000)
    (by decide) (by decide)

/-! ## Failure of the graph-store write (C24) -/

/-- C24, as stated, fails: for the text "算法：梯度下降" with a `documentId`, a
configured driver and a rejecting `saveToNeo4j`, the promise of
`buildKnowledgeGraph` is rejected (the `catch` block rethrows), although the
optimized graph has been computed; with a resolving write the same call
returns that graph. -/
theorem C24_store_failure_rejects :
    buildKnowledgeGraph methodText 30 0.6 .rejected = none ∧
      buildKnowledgeGraph methodText 30 0.6 .resolved =
        some (optimizeGraph (constructGraph (extractConcepts methodText)
          (extractRelations methodText (extractConcepts methodText)) 30 0.6)) :=
  ⟨rfl, rfl⟩

/-- C24, amended: `buildKnowledgeGraph` returns the optimized graph
`optimizeGraph (constructGraph concepts relations ...)` exactly when the write
to the graph store is skipped (no driver or no `documentId`) or resolves; when
`saveToNeo4j` rejects, `buildKnowledgeGraph` rejects too and returns no graph. -/
theorem C24_store_write (documentContent : List Char) (maxNodes : Nat) (minConfidence : ℝ)
    (store : StoreWrite) :
    (store = .rejected ↔
      buildKnowledgeGraph documentContent maxNodes minConfidence store = none) ∧
    (store ≠ .rejected ↔
      buildKnowledgeGraph documentContent maxNodes minConfidence store =
        some (optimizeGraph (constructGraph (extractConcepts documentContent)
          (extractRelations documentContent (extractConcepts documentContent))
          maxNodes minConfidence))) := by
  cases store <;> simp [buildKnowledgeGraph]

/-! ## Relevant nodes of a question (C25) -/

theorem includes_iff {α : Type} [DecidableEq α] :
    ∀ (s w : List α), includes s w = true ↔ List.IsInfix w s := by
  intro s
  induction s with
  | nil =>
    intro w
    rw [List.infix_nil]
    cases w with
    | nil => exact ⟨fun _ => rfl, fun _ => rfl⟩
    | cons a t =>
      constructor
      · intro h
        cases h
      · intro h
        cases h
  | cons c cs ih =>
    intro w
    unfold includes
    rw [Bool.or_eq_true, List.infix_cons_iff, ih w, List.isPrefixOf_iff_prefix]

theorem relevant_iff (toLowerCase : List Char → List Char) (question : List Char)
    (node : StoredNode) :
    ((questionKeywords toLowerCase question).any fun keyword =>
      includes (toLowerCase node.label) keyword ||
        includes (toLowerCase (node.description.getD [])) keyword) = true ↔
      Relevant toLowerCase question node := by
  unfold Relevant
  rw [List.any_eq_true]
  constructor
  · rintro ⟨keyword, hk, h⟩
    rw [Bool.or_eq_true, includes_iff, includes_iff] at h
    exact ⟨keyword, hk, h⟩
  · rintro ⟨keyword, hk, h⟩
    refine ⟨keyword, hk, ?_⟩
    rw [Bool.or_eq_true, includes_iff, includes_iff]
    exact h

theorem findRelevantNodes_eq (toLowerCase : List Char → List Char) (nodes : List StoredNode)
    (question : List Char) :
    findRelevantNodes toLowerCase nodes question =
      (nodes.filter fun node => decide (Relevant toLowerCase question node)).take 5 := by
  unfold findRelevantNodes
  dsimp only
  congr 1
  apply List.filter_congr
  intro node _
  rw [Bool.eq_iff_iff, decide_eq_true_eq]
  exact relevant_iff toLowerCase question node

/-- C25: `findRelevantNodes` returns the first five, in the order of the node
list, of the nodes whose lower-cased label or lower-cased description contains
as a contiguous block a keyword of the question, that is a piece of the
lower-cased question between runs of white space with more than two code
units; so it returns at most five nodes, all of them relevant and in their
original order, and none when the question has no keyword. -/
theorem C25_findRelevantNodes (toLowerCase : List Char → List Char) (nodes : List StoredNode)
    (question : List Char) :
    findRelevantNodes toLowerCase nodes question =
      (nodes.filter fun node => decide (Relevant toLowerCase question node)).take 5 ∧
    (findRelevantNodes toLowerCase nodes question).length ≤ 5 ∧
    List.Sublist (findRelevantNodes toLowerCase nodes question) nodes ∧
    (∀ node ∈ findRelevantNodes toLowerCase nodes question,
      Relevant toLowerCase question node) ∧
    (questionKeywords toLowerCase question = [] →
      findRelevantNodes toLowerCase nodes question = []) := by
  have heq := findRelevantNodes_eq toLowerCase nodes question
  refine ⟨heq, ?_, ?_, ?_, ?_⟩
  · rw [heq, List.length_take]
    exact Nat.min_le_left _ _
  · rw [heq]
    exact (List.take_sublist _ _).trans (List.filter_sublist _)
  · intro node hnode
    rw [heq] at hnode
    have h := (List.mem_filter.1 (List.mem_of_mem_take hnode)).2
    rw [decide_eq_true_eq] at h
    exact h
  · intro hk
    rw [heq]
    have hnil : (nodes.filter fun node => decide (Relevant toLowerCase question node)) = [] := by
      rw [List.filter_eq_nil_iff]
      intro node _ h
      rw [decide_eq_true_eq] at h
      obtain ⟨keyword, hmem, _⟩ := h
      rw [hk] at hmem
      cases hmem
    rw [hnil]
    rfl

/-- The question "What is a GRAPH" has the keywords "what" and "graph"; of the
six sample nodes that mention "graph" the first five are returned. -/
theorem findRelevantNodes_sample :
    findRelevantNodes toLowerAscii sampleNodes "What is a GRAPH".toList =
      [ { label := "Graph theory".toList, description := none },
        { label := "Tree".toList, description := some "A connected graph".toList },
        { label := "Digraph".toList, description := none },
        { label := "Hypergraph".toList, description := none },
        { label := "Graph minor".toList, description := none } ] := by
  decide

/-! ## Answer without a provider (C26) -/

theorem generateSimpleAnswer_no_match (toLowerCase : List Char → List Char)
    (question context : List Char)
    (h : ∀ sentence ∈ contextSentences context,
      ∀ keyword ∈ questionKeywords toLowerCase question,
        ¬ List.IsInfix keyword (toLowerCase sentence)) :
    generateSimpleAnswer toLowerCase question context =
      "根据提供的材料无法找到相关信息。".toList := by
  unfold generateSimpleAnswer
  dsimp only
  have hnil : ((contextSentences context).filter fun sentence =>
      (questionKeywords toLowerCase question).any fun keyword =>
        includes (toLowerCase sentence) keyword) = [] := by
    rw [List.filter_eq_nil_iff]
    intro sentence hs hany
    rw [List.any_eq_true] at hany
    obtain ⟨keyword, hk, hinc⟩ := hany
    exact h sentence hs keyword hk ((includes_iff _ _).1 hinc)
  unfold contextSentences questionKeywords at hnil
  rw [hnil]
  rfl

/-- C26, as stated, fails: for the question "What is entropy" and a context
whose only sentence contains neither "what" nor "entropy", with no API key
set, `generateAnswer` returns the canned answer of `generateSimpleAnswer` with
confidence 0.4, not 0. -/
theorem C26_confidence_not_zero :
    (generateAnswer toLowerAscii none entropyQuestion lightContext).answer =
      "根据提供的材料无法找到相关信息。".toList ∧
    (generateAnswer toLowerAscii none entropyQuestion lightContext).confidence = 4 / 10 ∧
    (generateAnswer toLowerAscii none entropyQuestion lightContext).confidence ≠ 0 := by
  refine ⟨by decide, rfl, ?_⟩
  show (4 / 10 : ℚ) ≠ 0
  norm_num

/-- C26, amended: when no sentence of the context (a piece between 。！？ whose
trimmed length exceeds 10) contains, lower-cased, a keyword of the question, and
no API key is set, `generateAnswer` returns without raising the canned answer
"根据提供的材料无法找到相关信息。" and the three fixed suggestions, with
confidence 0.4. -/
theorem C26_no_match (toLowerCase : List Char → List Char) (question context : List Char)
    (h : ∀ sentence ∈ contextSentences context,
      ∀ keyword ∈ questionKeywords toLowerCase question,
        ¬ List.IsInfix keyword (toLowerCase sentence)) :
    generateAnswer toLowerCase none question context =
      { answer := "根据提供的材料无法找到相关信息。".toList
        confidence := 4 / 10
        suggestions := ["这个概念的具体定义是什么？", "能举个具体的例子吗？",
          "这与其他相关概念有什么区别？"] } := by
  have hs := generateSimpleAnswer_no_match toLowerCase question context h
  unfold generateAnswer
  dsimp only
  rw [hs]
  rfl

/-- C26 at the question "What is entropy" and the one-sentence context. -/
theorem C26_no_match_witness :
    (∀ sentence ∈ contextSentences lightContext,
      ∀ keyword ∈ questionKeywords toLowerAscii entropyQuestion,
        ¬ List.IsInfix keyword (toLowerAscii sentence)) ∧
    generateAnswer toLowerAscii none entropyQuestion lightContext =
      { answer := "根据提供的材料无法找到相关信息。".toList
        confidence := 4 / 10
        suggestions := ["这个概念的具体定义是什么？", "能举个具体的例子吗？",
          "这与其他相关概念有什么区别？"] } :=
  ⟨by decide, C26_no_match toLowerAscii entropyQuestion lightContext (by decide)⟩

/-! ## Length of the summary (C27) -/

theorem jsLength_append (a b : List Char) : jsLength (a ++ b) = jsLength a + jsLength b := by
  unfold jsLength
  rw [List.map_append, List.sum_append]

theorem toUnits_length (s : List Char) : (toUnits s).length = jsLength s := by
  induction s with
  | nil => rfl
  | cons c cs ih =>
    have h1 : toUnits (c :: cs) =
        (if c.toNat < 0x10000 then [c.toNat]
          else [0xD800 + (c.toNat - 0x10000) / 0x400, 0xDC00 + (c.toNat - 0x10000) % 0x400]) ++
          toUnits cs := by
      unfold toUnits
      rw [List.flatMap_cons]
    have h2 : jsLength (c :: cs) = (if c.toNat < 0x10000 then 1 else 2) + jsLength cs := by
      unfold jsLength
      rw [List.map_cons, List.sum_cons]
    rw [h1, h2, List.length_append, ih]
    split <;> rfl

theorem generateSummary_short (text : List Char) (maxLength : Nat)
    (h : ((splitOnChars isSentenceEnd text).filter fun s =>
      decide (10 < jsLength (jsTrim s))).length ≤ 3) :
    generateSummary text maxLength = (toUnits text).take maxLength := by
  unfold generateSummary
  dsimp only
  rw [if_pos h]
  exact jsSubstring_zero _ _

theorem generateSummary_long (text : List Char) (maxLength k : Nat)
    (h : 3 < ((splitOnChars isSentenceEnd text).filter fun s =>
      decide (10 < jsLength (jsTrim s))).length)
    (hk : ∀ s ∈ (splitOnChars isSentenceEnd text).filter fun s =>
      decide (10 < jsLength (jsTrim s)), k ≤ jsLength s) :
    3 * k + 3 ≤ (generateSummary text maxLength).length := by
  unfold generateSummary
  dsimp only
  rw [if_neg (by omega), toUnits_length]
  generalize hs : ((splitOnChars isSentenceEnd text).filter fun s =>
      decide (10 < jsLength (jsTrim s))) = sentences at h hk ⊢
  generalize ht : (((sentences.map fun sentence =>
      ({ sentence := sentence, score := calculateSentenceScore sentence text } :
        SentenceScore)).insertionSort fun a b => b.score ≤ a.score).take
      (min 3 sentences.length)).map (fun item => item.sentence) = top
  have hlen : top.length = 3 := by
    rw [← ht, List.length_map, List.length_take, List.length_insertionSort, List.length_map]
    omega
  have hmem : ∀ s ∈ top, s ∈ sentences := by
    intro s hs'
    rw [← ht] at hs'
    obtain ⟨item, hitem, rfl⟩ := List.mem_map.1 hs'
    have h1 := (List.mem_insertionSort _).1 (List.mem_of_mem_take hitem)
    obtain ⟨sentence, hsent, rfl⟩ := List.mem_map.1 h1
    exact hsent
  obtain ⟨a, b, c, rfl⟩ := List.length_eq_three.1 hlen
  have ha := hk a (hmem a (by simp))
  have hb := hk b (hmem b (by simp))
  have hc := hk c (hmem c (by simp))
  have hj : List.intercalate ['。'] [a, b, c] ++ ['。'] =
      a ++ (['。'] ++ (b ++ (['。'] ++ (c ++ ['。'])))) := by
    simp [List.intercalate]
  rw [hj, jsLength_append, jsLength_append, jsLength_append, jsLength_append, jsLength_append]
  have h1 : jsLength ['。'] = 1 := by decide
  rw [h1]
  omega

/-- C27, as stated, fails in the branch for more than three sentences: with at
most three sentences longer than 10 characters the summary is the first
`maxLength` code units of the text, so its length is at most `maxLength`; but
for four sentences of fifty letters and `maxLength = 150` the summary, three
sentences joined and closed by "。", has more than 150 code units. -/
theorem C27_summary_length :
    (∀ (text : List Char) (maxLength : Nat),
      ((splitOnChars isSentenceEnd text).filter fun s =>
        decide (10 < jsLength (jsTrim s))).length ≤ 3 →
      generateSummary text maxLength = (toUnits text).take maxLength ∧
        (generateSummary text maxLength).length ≤ maxLength) ∧
    150 < (generateSummary fourSentences 150).length := by
  constructor
  · intro text maxLength h
    rw [generateSummary_short text maxLength h]
    exact ⟨rfl, List.length_take_le _ _⟩
  · have h := generateSummary_long fourSentences 150 50 (by decide) (by decide)
    omega

/-! ## Texts of at most two sentences (C28) -/

theorem splitRunsAux_cleanText :
    ∀ (text : List Char),
      (∀ (b : Bool), ∀ q ∈ splitRunsAux isJsSpace b (cleanText text), q ≠ [] →
        List.IsInfix q text) ∧
      ∃ p ps, splitRunsAux isJsSpace false (cleanText text) = p :: ps ∧ List.IsPrefix p text := by
  intro text
  induction text with
  | nil =>
    refine ⟨fun b q hq hne => ?_, [], [], rfl, List.nil_prefix⟩
    have : q = [] := by simpa [cleanText, splitRunsAux] using hq
    exact absurd this hne
  | cons c cs ih =>
    obtain ⟨ihmem, p, ps, hp, hpre⟩ := ih
    have hclean : cleanText (c :: cs) =
        (if isCJK c || isAsciiAlnum c then [c]
          else if c.toNat < 0x10000 then [' '] else [' ', ' ']) ++ cleanText cs := by
      unfold cleanText
      rw [List.flatMap_cons]
    have hspace : isJsSpace ' ' = true := by decide
    by_cases hk : (isCJK c || isAsciiAlnum c) = true
    · have hns := (keep_not_space hk).1
      have hrun : ∀ b, splitRunsAux isJsSpace b (cleanText (c :: cs)) = (c :: p) :: ps := by
        intro b
        rw [hclean, if_pos hk, List.singleton_append, splitRunsAux, hns, hp]
        rfl
      refine ⟨fun b q hq hne => ?_, c :: p, ps, hrun false, (List.prefix_cons_inj c).2 hpre⟩
      rw [hrun b] at hq
      rcases List.mem_cons.1 hq with rfl | hq'
      · exact ((List.prefix_cons_inj c).2 hpre).isInfix
      · have h1 : q ∈ splitRunsAux isJsSpace false (cleanText cs) := by
          rw [hp]
          exact List.mem_cons_of_mem _ hq'
        exact List.infix_cons (ihmem false q h1 hne)
    · have hrun : ∀ b, splitRunsAux isJsSpace b (cleanText (c :: cs)) =
          if b then splitRunsAux isJsSpace true (cleanText cs)
          else [] :: splitRunsAux isJsSpace true (cleanText cs) := by
        intro b
        rw [hclean, if_neg hk]
        by_cases hb : c.toNat < 0x10000
        · rw [if_pos hb, List.singleton_append, splitRunsAux, hspace]
          cases b <;> rfl
        · rw [if_neg hb]
          show splitRunsAux isJsSpace b (' ' :: ' ' :: cleanText cs) = _
          rw [splitRunsAux, hspace]
          have h2 : splitRunsAux isJsSpace true (' ' :: cleanText cs) =
              splitRunsAux isJsSpace true (cleanText cs) := by
            rw [splitRunsAux, hspace]
            rfl
          rw [h2]
          cases b <;> rfl
      refine ⟨fun b q hq hne => ?_, [], _, hrun false, List.nil_prefix⟩
      rw [hrun b] at hq
      have hq' : q ∈ splitRunsAux isJsSpace true (cleanText cs) := by
        cases b
        · rcases List.mem_cons.1 hq with h | h
          · exact absurd h hne
          · exact h
        · exact hq
      exact List.infix_cons (ihmem true q hq' hne)

theorem splitOnChars_block (sep : Char → Bool) :
    ∀ (s w : List Char), (∀ c ∈ w, sep c = false) →
      (List.IsPrefix w s → ∃ p ps, splitOnChars sep s = p :: ps ∧ List.IsPrefix w p) ∧
      (List.IsInfix w s → ∃ piece ∈ splitOnChars sep s, List.IsInfix w piece) := by
  intro s
  induction s with
  | nil =>
    intro w _
    constructor
    · intro h
      exact ⟨[], [], rfl, h⟩
    · intro h
      exact ⟨[], List.mem_singleton.2 rfl, h⟩
  | cons c cs ih =>
    intro w hw
    have hhead : List.IsPrefix w (c :: cs) →
        ∃ p ps, splitOnChars sep (c :: cs) = p :: ps ∧ List.IsPrefix w p := by
      intro h
      by_cases hs : sep c = true
      · refine ⟨[], splitOnChars sep cs, by simp [splitOnChars, hs], ?_⟩
        rcases List.prefix_cons_iff.1 h with rfl | ⟨t, rfl, _⟩
        · exact List.nil_prefix
        · have := hw c (List.mem_cons_self _ _)
          rw [hs] at this
          cases this
      · obtain ⟨p0, ps0, h0, _⟩ := (ih [] (fun _ hc => by cases hc)).1 List.nil_prefix
        refine ⟨c :: p0, ps0, by simp [splitOnChars, hs, h0, consHead], ?_⟩
        rcases List.prefix_cons_iff.1 h with rfl | ⟨t, rfl, ht⟩
        · exact List.nil_prefix
        · obtain ⟨p, ps, hp, hpre⟩ :=
            (ih t (fun d hd => hw d (List.mem_cons_of_mem _ hd))).1 ht
          rw [h0] at hp
          obtain ⟨rfl, rfl⟩ := List.cons.inj hp
          exact (List.prefix_cons_inj c).2 hpre
    refine ⟨hhead, fun h => ?_⟩
    rcases List.infix_cons_iff.1 h with h' | h'
    · obtain ⟨p, ps, hp, hpre⟩ := hhead h'
      exact ⟨p, by rw [hp]; exact List.mem_cons_self _ _, hpre.isInfix⟩
    · obtain ⟨piece, hpiece, hin⟩ := (ih w hw).2 h'
      by_cases hs : sep c = true
      · exact ⟨piece, by simp [splitOnChars, hs, hpiece], hin⟩
      · obtain ⟨p0, ps0, h0, _⟩ := (ih [] (fun _ hc => by cases hc)).1 List.nil_prefix
        have hsplit : splitOnChars sep (c :: cs) = (c :: p0) :: ps0 := by
          simp [splitOnChars, hs, h0, consHead]
        rw [h0] at hpiece
        rw [hsplit]
        rcases List.mem_cons.1 hpiece with rfl | hp'
        · exact ⟨c :: piece, List.mem_cons_self _ _, List.infix_cons hin⟩
        · exact ⟨piece, List.mem_cons_of_mem _ hp', hin⟩

/-- Every token of `segmentText` lies inside one sentence of `calculateTFIDF`. -/
theorem token_in_sentence {text : List Char} {w : List Char} (hw : w ∈ segmentText text) :
    ∃ sentence ∈ tfidfSentences text, List.IsInfix w sentence ∧ includes sentence w = true := by
  have hlen := (segmentText_spec hw).2.1
  have hne : w ≠ [] := by
    intro h
    rw [h] at hlen
    simp at hlen
  have hp : w ∈ splitRunsAux isJsSpace false (cleanText text) := (List.mem_filter.1 hw).1
  have hinfix : List.IsInfix w text := (splitRunsAux_cleanText text).1 false w hp hne
  have hchars := segmentText_chars hw
  obtain ⟨piece, hpiece, hin⟩ :=
    (splitOnChars_block isSentenceEnd text w
      fun c hc => keep_not_sentenceEnd (hchars c hc).2).2 hinfix
  obtain ⟨c, hc⟩ : ∃ c, c ∈ w := by
    cases w with
    | nil => exact absurd rfl hne
    | cons c cs => exact ⟨c, List.mem_cons_self _ _⟩
  refine ⟨piece, List.mem_filter.2 ⟨hpiece, ?_⟩, hin, (includes_iff _ _).2 hin⟩
  rw [decide_eq_true_eq]
  exact jsLength_pos (jsTrim_ne_nil (hin.subset hc) (keep_not_space (hchars c hc).2).1)

theorem docsWithWord_pos {text : List Char} {w : List Char} (hw : w ∈ segmentText text) :
    1 ≤ docsWithWord (tfidfSentences text) w := by
  obtain ⟨sentence, hs, _, hinc⟩ := token_in_sentence hw
  unfold docsWithWord
  exact List.length_pos_of_mem (List.mem_filter.2 ⟨hs, hinc⟩)

/-- Every entry that `addEntity` adds is built from the entity. -/
theorem foldl_addEntity_nodes :
    ∀ (es : List Entity) (m : List (List Char × Node)),
      ∀ e ∈ es.foldl addEntity m, e ∈ m ∨
        ∃ entity ∈ es, entity.confidence > 0.7 ∧ e.2.id = generateId entity.text ∧
          e.2.label = entity.text ∧ e.2.type = entity.type ∧
          e.2.properties = { importance := entity.confidence, frequency := 1 } := by
  intro es
  induction es with
  | nil => intro m e he; exact Or.inl he
  | cons a es ih =>
    intro m e he
    rw [List.foldl_cons] at he
    rcases ih (addEntity m a) e he with h | ⟨entity, hent, hrest⟩
    · unfold addEntity at h
      dsimp only at h
      split at h
      · rename_i hconf
        split at h
        · rcases mem_mapSet h with rfl | h'
          · exact Or.inr ⟨a, List.mem_cons_self _ _, hconf, rfl, rfl, rfl, rfl⟩
          · exact Or.inl h'
        · exact Or.inl h
      · exact Or.inl h
    · exact Or.inr ⟨entity, List.mem_cons_of_mem _ hent, hrest⟩

/-- C28: in every text each scored term occurs in at least one sentence; so when
the text has at most two sentences with a non-blank content, every weight
returned by `extractKeywords` is at most 0 provided no token names a member
inherited from `Object.prototype`; and in any case no keyword passes the test
`weight > 0.3`, and every node of `extractConcepts` is built from a recognized
entity: its id is `generateId` of the entity text, its label the entity text,
its type the entity type, its importance 0.8 and its frequency 1. -/
theorem C28_short_text (text : List Char) (h : (tfidfSentences text).length ≤ 2) :
    (∀ w ∈ segmentText text, 1 ≤ docsWithWord (tfidfSentences text) w) ∧
    ((∀ w ∈ segmentText text, w ∉ inheritedKeys) →
      ∀ n : Nat, ∀ k ∈ extractKeywords text n, k.weight ≤ 0) ∧
    (∀ k ∈ extractKeywords text 30, ¬ k.weight > 0.3) ∧
    (∀ node ∈ extractConcepts text, ∃ entity ∈ extractEntities text,
      node.id = generateId entity.text ∧ node.label = entity.text ∧
        node.type = entity.type ∧ node.properties.importance = 0.8 ∧
        node.properties.frequency = 1) := by
  have hweight : ∀ n : Nat, ∀ k ∈ extractKeywords text n, k.weight ≤ 0 := by
    intro n k hk
    obtain ⟨e, he, rfl⟩ := mem_extractKeywords hk
    obtain ⟨hmem, _, hpos⟩ := mem_calculateWordFrequency he
    have hd := docsWithWord_pos hmem
    have htf : (0 : ℝ) ≤ (e.2 : ℝ) / ((segmentText text).length : ℝ) := by positivity
    have hden : (0 : ℝ) < (docsWithWord (tfidfSentences text) e.1 : ℝ) + 1 := by positivity
    have hle : ((tfidfSentences text).length : ℝ) ≤
        (docsWithWord (tfidfSentences text) e.1 : ℝ) + 1 := by
      have : (tfidfSentences text).length ≤ docsWithWord (tfidfSentences text) e.1 + 1 := by
        omega
      exact_mod_cast this
    have hlog : Real.log (((tfidfSentences text).length : ℝ) /
        ((docsWithWord (tfidfSentences text) e.1 : ℝ) + 1)) ≤ 0 :=
      Real.log_nonpos (by positivity) ((div_le_one hden).2 hle)
    show (e.2 : ℝ) / ((segmentText text).length : ℝ) *
      Real.log (((tfidfSentences text).length : ℝ) /
        ((docsWithWord (tfidfSentences text) e.1 : ℝ) + 1)) ≤ 0
    exact mul_nonpos_iff.2 (Or.inl ⟨htf, hlog⟩)
  have hlow : ∀ k ∈ extractKeywords text 30, ¬ k.weight > 0.3 := by
    intro k hk hgt
    have := hweight 30 k hk
    have h3 : (0 : ℝ) < 0.3 := by norm_num
    linarith
  refine ⟨fun w hw => docsWithWord_pos hw, fun _ => hweight, hlow, fun node hnode => ?_⟩
  rw [extractConcepts_of_low hlow] at hnode
  obtain ⟨e, he, rfl⟩ := List.mem_map.1 hnode
  rcases foldl_addEntity_nodes _ _ e he with h' | ⟨entity, hent, _, hid, hlabel, htype, hprops⟩
  · cases h'
  · refine ⟨entity, hent, hid, hlabel, htype, ?_, ?_⟩
    · rw [hprops]
      rw [extractEntities_eq] at hent
      obtain ⟨m, _, rfl⟩ := List.mem_map.1 hent
      rfl
    · rw [hprops]

/-- C28 at the text "算法：梯度下降", which has one sentence and no inherited key
among its tokens, and whose only node comes from the entity "梯度下降". -/
theorem C28_short_text_witness :
    (tfidfSentences methodText).length ≤ 2 ∧
    (∀ w ∈ segmentText methodText, w ∉ inheritedKeys) ∧
    ((∀ w ∈ segmentText methodText, 1 ≤ docsWithWord (tfidfSentences methodText) w) ∧
    ((∀ w ∈ segmentText methodText, w ∉ inheritedKeys) →
      ∀ n : Nat, ∀ k ∈ extractKeywords methodText n, k.weight ≤ 0) ∧
    (∀ k ∈ extractKeywords methodText 30, ¬ k.weight > 0.3) ∧
    (∀ node ∈ extractConcepts methodText, ∃ entity ∈ extractEntities methodText,
      node.id = generateId entity.text ∧ node.label = entity.text ∧
        node.type = entity.type ∧ node.properties.importance = 0.8 ∧
        node.properties.frequency = 1)) :=
  ⟨by decide, by decide, C28_short_text methodText (by decide)⟩

/-! ## Idempotence of `optimizeGraph` (C29) -/

theorem enumFrom_layout (total total' : Nat) :
    ∀ (nodes : List Node) (k : Nat),
      ((((nodes.enumFrom k).map fun p : ℕ × Node =>
          ({ p.2 with position := calculatePosition p.1 total } : Node)).enumFrom k).map
        fun p : ℕ × Node => ({ p.2 with position := calculatePosition p.1 total' } : Node)) =
      (nodes.enumFrom k).map fun p : ℕ × Node =>
        ({ p.2 with position := calculatePosition p.1 total' } : Node) := by
  intro nodes
  induction nodes with
  | nil => intro k; rfl
  | cons n ns ih =>
    intro k
    simp only [List.enumFrom_cons, List.map_cons]
    rw [ih (k + 1)]

theorem optimizeLayout_length (nodes : List Node) :
    (optimizeLayout nodes).length = nodes.length := by
  unfold optimizeLayout
  rw [List.length_map, List.enum_length]

theorem optimizeLayout_idem (nodes : List Node) :
    optimizeLayout (optimizeLayout nodes) = optimizeLayout nodes := by
  have hlen := optimizeLayout_length nodes
  unfold optimizeLayout at hlen ⊢
  rw [hlen]
  exact enumFrom_layout nodes.length nodes.length nodes 0

theorem optimizeLayout_getElem (nodes : List Node) (i : Nat) :
    (optimizeLayout nodes)[i]? =
      nodes[i]?.map fun n => { n with position := calculatePosition i nodes.length } := by
  unfold optimizeLayout
  rw [List.getElem?_map, List.enum, List.getElem?_enumFrom]
  cases nodes[i]? with
  | none => rfl
  | some n => simp

theorem filter_optimizeLayout (P : Node → Bool)
    (hP : ∀ (n : Node) (pos : Position), P { n with position := pos } = P n)
    (nodes : List Node) (hall : ∀ n ∈ nodes, P n = true) :
    (optimizeLayout nodes).filter P = optimizeLayout nodes := by
  rw [List.filter_eq_self]
  intro m hm
  unfold optimizeLayout at hm
  obtain ⟨p, hp, rfl⟩ := List.mem_map.1 hm
  rw [hP]
  exact hall _ (List.snd_mem_of_mem_enum hp)

/-- C29: `optimizeGraph` is idempotent; the `i`-th node of its result is the
`i`-th node that passes the filter "endpoint of an edge or importance above
0.8", with `calculatePosition i count` as position (`count` being the number of
surviving nodes) and every other field unchanged; the edges are the input
edges. -/
theorem C29_optimizeGraph_idempotent (graph : Graph) :
    optimizeGraph (optimizeGraph graph) = optimizeGraph graph ∧
    (∀ i : Nat, (optimizeGraph graph).nodes[i]? =
      (graph.nodes.filter fun node =>
        decide (node.id ∈ graph.edges.flatMap fun edge => [edge.fromId, edge.toId]) ||
          decide (node.properties.importance > 0.8))[i]?.map fun n =>
        { n with position := calculatePosition i (optimizeGraph graph).nodes.length }) ∧
    (optimizeGraph graph).nodes.map Node.core =
      (graph.nodes.filter fun node =>
        decide (node.id ∈ graph.edges.flatMap fun edge => [edge.fromId, edge.toId]) ||
          decide (node.properties.importance > 0.8)).map Node.core ∧
    (optimizeGraph graph).edges = graph.edges := by
  refine ⟨?_, fun i => ?_, ?_, rfl⟩
  · have h := filter_optimizeLayout
      (fun node : Node =>
        decide (node.id ∈ graph.edges.flatMap fun edge => [edge.fromId, edge.toId]) ||
          decide (node.properties.importance > 0.8))
      (fun _ _ => rfl)
      (graph.nodes.filter fun node =>
        decide (node.id ∈ graph.edges.flatMap fun edge => [edge.fromId, edge.toId]) ||
          decide (node.properties.importance > 0.8))
      (fun n hn => (List.mem_filter.1 hn).2)
    unfold optimizeGraph mergeSimilarNodes
    dsimp only
    rw [h, optimizeLayout_idem]
  · unfold optimizeGraph mergeSimilarNodes
    dsimp only
    rw [optimizeLayout_length, optimizeLayout_getElem]
  · unfold optimizeGraph mergeSimilarNodes
    exact optimizeLayout_map Node.core (fun _ _ => rfl) _

/-! ## Per-user rate limit (C30) -/

theorem rateLimitByUser_count (maxRequests windowMs : Nat) (hmax : 1 ≤ maxRequests)
    (userRequests : String → Option UserLimit) (user : Option String) (now : Nat)
    (hinv : ∀ u limit, userRequests u = some limit →
      1 ≤ limit.count ∧ limit.count ≤ maxRequests) :
    ∀ u limit, (rateLimitByUser maxRequests windowMs userRequests user now).1 u = some limit →
      1 ≤ limit.count ∧ limit.count ≤ maxRequests := by
  have hupdate : ∀ (userId : String) (value : UserLimit),
      1 ≤ value.count ∧ value.count ≤ maxRequests →
      ∀ u limit, Function.update userRequests userId (some value) u = some limit →
        1 ≤ limit.count ∧ limit.count ≤ maxRequests := by
    intro userId value hv u limit hu
    by_cases h : u = userId
    · subst h
      rw [Function.update_same] at hu
      cases hu
      exact hv
    · rw [Function.update_noteq h] at hu
      exact hinv u limit hu
  unfold rateLimitByUser
  cases user with
  | none => exact hinv
  | some userId =>
    dsimp only
    cases hget : userRequests userId with
    | none => exact hupdate userId _ ⟨le_refl 1, hmax⟩
    | some userLimit =>
      dsimp only
      split
      · exact hupdate userId _ ⟨le_refl 1, hmax⟩
      · split
        · exact hinv
        · rename_i hnot
          exact hupdate userId _ ⟨Nat.le_add_left 1 _, by
            show userLimit.count + 1 ≤ maxRequests
            omega⟩

theorem serve_count (maxRequests windowMs : Nat) (hmax : 1 ≤ maxRequests) :
    ∀ (requests : List (Option String × Nat)) (userRequests : String → Option UserLimit),
      (∀ u limit, userRequests u = some limit → 1 ≤ limit.count ∧ limit.count ≤ maxRequests) →
      ∀ u limit, (serve maxRequests windowMs userRequests requests).1 u = some limit →
        1 ≤ limit.count ∧ limit.count ≤ maxRequests := by
  intro requests
  induction requests with
  | nil => intro userRequests hinv; exact hinv
  | cons request rest ih =>
    intro userRequests hinv
    exact ih _ (rateLimitByUser_count maxRequests windowMs hmax userRequests request.1 request.2
      hinv)

/-- Inside a window: a user whose record holds `count` and `resetTime` gets
`maxRequests - count` further requests passed, and the others refused. -/
theorem serve_window (maxRequests windowMs : Nat) (userId : String) :
    ∀ (times : List Nat) (userRequests : String → Option UserLimit) (userLimit : UserLimit),
      userRequests userId = some userLimit → (∀ t ∈ times, t ≤ userLimit.resetTime) →
      (serve maxRequests windowMs userRequests (times.map fun t => (some userId, t))).2 =
        List.replicate (min times.length (maxRequests - userLimit.count)) Handled.next ++
          List.replicate (times.length - (maxRequests - userLimit.count)) (Handled.status 429) := by
  intro times
  induction times with
  | nil =>
    intro userRequests userLimit _ _
    simp only [List.map_nil, serve, List.length_nil, Nat.zero_min, Nat.zero_sub,
      List.replicate_zero, List.append_nil]
  | cons t ts ih =>
    intro userRequests userLimit hget htimes
    have ht : ¬ t > userLimit.resetTime := by
      have := htimes t (List.mem_cons_self _ _)
      omega
    have hts : ∀ t' ∈ ts, t' ≤ userLimit.resetTime :=
      fun t' h => htimes t' (List.mem_cons_of_mem _ h)
    by_cases hfull : userLimit.count ≥ maxRequests
    · have hstep : rateLimitByUser maxRequests windowMs userRequests (some userId) t =
          (userRequests, .status 429) := by
        unfold rateLimitByUser
        dsimp only
        rw [hget]
        dsimp only
        rw [if_neg ht, if_pos hfull]
      rw [List.map_cons, serve]
      dsimp only
      rw [hstep]
      dsimp only
      rw [ih userRequests userLimit hget hts]
      have h0 : maxRequests - userLimit.count = 0 := by omega
      rw [h0]
      simp only [Nat.min_zero, Nat.zero_min, List.replicate_zero, List.nil_append, Nat.sub_zero,
        List.length_cons, List.replicate_succ]
    · have hstep : rateLimitByUser maxRequests windowMs userRequests (some userId) t =
          (Function.update userRequests userId
            (some { userLimit with count := userLimit.count + 1 }), .next) := by
        unfold rateLimitByUser
        dsimp only
        rw [hget]
        dsimp only
        rw [if_neg ht, if_neg hfull]
      rw [List.map_cons, serve]
      dsimp only
      rw [hstep]
      dsimp only
      rw [ih _ { userLimit with count := userLimit.count + 1 } (Function.update_same _ _ _) hts]
      dsimp only
      have h1 : maxRequests - userLimit.count = (maxRequests - (userLimit.count + 1)) + 1 := by
        omega
      rw [h1, List.length_cons, Nat.succ_min_succ, List.replicate_succ, Nat.add_sub_add_right]
      rfl

/-- C30: for `maxRequests >= 1`, whatever requests have been handled since the
map was empty, the count stored for a user is at least 1 and at most
`maxRequests`; and when a request of a user opens a window (the user has no
record, or the record's `resetTime` has passed), then of that request and the
user's requests that follow it up to the window's `resetTime` the first
`maxRequests` are passed on and every further one is answered with 429. -/
theorem C30_rate_limit (maxRequests windowMs : Nat) (hmax : 1 ≤ maxRequests) :
    (∀ (requests : List (Option String × Nat)) (userId : String) (limit : UserLimit),
      (serve maxRequests windowMs (fun _ => none) requests).1 userId = some limit →
        1 ≤ limit.count ∧ limit.count ≤ maxRequests) ∧
    (∀ (userRequests : String → Option UserLimit) (userId : String) (opening : Nat)
      (times : List Nat),
      (userRequests userId = none ∨
        ∃ limit, userRequests userId = some limit ∧ opening > limit.resetTime) →
      (∀ t ∈ times, t ≤ opening + windowMs) →
      (serve maxRequests windowMs userRequests
          ((some userId, opening) :: times.map fun t => (some userId, t))).2 =
        List.replicate (min (times.length + 1) maxRequests) Handled.next ++
          List.replicate (times.length + 1 - maxRequests) (Handled.status 429)) := by
  constructor
  · intro requests userId limit h
    exact serve_count maxRequests windowMs hmax requests (fun _ => none)
      (fun u limit hu => by cases hu) userId limit h
  · intro userRequests userId opening times hopen htimes
    have hstep : rateLimitByUser maxRequests windowMs userRequests (some userId) opening =
        (Function.update userRequests userId
          (some { count := 1, resetTime := opening + windowMs }), .next) := by
      unfold rateLimitByUser
      dsimp only
      rcases hopen with hnone | ⟨limit, hsome, hlate⟩
      · rw [hnone]
      · rw [hsome]
        dsimp only
        rw [if_pos hlate]
    rw [serve]
    dsimp only
    rw [hstep]
    dsimp only
    rw [serve_window maxRequests windowMs userId times _
      { count := 1, resetTime := opening + windowMs } (Function.update_same _ _ _) htimes]
    dsimp only
    obtain ⟨m, rfl⟩ : ∃ m, maxRequests = m + 1 := ⟨maxRequests - 1, by omega⟩
    rw [Nat.add_sub_cancel, Nat.succ_min_succ, List.replicate_succ, Nat.add_sub_add_right]
    rfl

/-- C30 for two requests per 1000 ms: a user's requests at times 0, 10, 20 and
1000 are passed, passed, refused and refused, and the stored count is 2. -/
theorem C30_rate_limit_witness :
    1 ≤ 2 ∧
    (serve 2 1000 (fun _ => none)
      [(some "u", 0), (some "u", 10), (some "u", 20), (some "u", 1000)]).2 =
      [Handled.next, Handled.next, Handled.status 429, Handled.status 429] ∧
    ∀ limit : UserLimit,
      (serve 2 1000 (fun _ => none)
        [(some "u", 0), (some "u", 10), (some "u", 20), (some "u", 1000)]).1 "u" = some limit →
      1 ≤ limit.count ∧ limit.count ≤ 2 :=
  ⟨by decide,
    (C30_rate_limit 2 1000 (by decide)).2 (fun _ => none) "u" 0 [10, 20, 1000] (Or.inl rfl)
      (by decide),
    fun limit h => (C30_rate_limit 2 1000 (by decide)).1 _ "u" limit h⟩

end Mathweb
